import Mathlib

/-!
# Waveform seekbar: the summary pipeline of `waveform.c`

A shallow embedding of the cache-key derivation (`waveform_format_uri`), the
track gate (`waveform_valid_track`), the summarizer
(`waveform_generate_wavedata`) and the worker entry point
(`waveform_get_wavedata`) of the DeaDBeeF waveform seekbar plugin, with the
properties established about them.

Conventions of the embedding

* A C string is a `List Char`, one `Char` per `char`; a `NULL` pointer is `none`.
* `int` values are `Int`; the lengths and sample counts met here stay far below
  `2 ^ 31`, so no wrap-around is modelled for them.
* `float` and `double` values are rationals and their arithmetic is exact; the
  one irrational step, `sqrt`, only occurs fused with the scaling by 1000 and the
  truncation to `short`, which is computed exactly by an integer square root.
  This is an idealisation: the C code rounds every `float` operation to binary32,
  so a stored cell can differ by one from the exact value (one frame of `0.01f`
  is stored as 10, the exact product truncates to 9). The cells stated below for
  concrete inputs are at values for which the binary32 operations are exact (such
  as `±1`, `3/4`, `-1/4`); the lemmas about arbitrary samples speak of the exact
  arithmetic only, not of the cells the C code stores.
* Host functions reached through the `deadbeef` table, the decoder plugins, the
  configuration macros and the helpers of `cache.c` and `utils.c` are not part
  of `waveform.c`; they appear as fields of the environment or as small models
  that say so in their doc comment.
-/

namespace Waveform

/-! ## Strings and `snprintf` -/

/-- A C string: the characters before the terminating NUL. -/
abbrev CStr := List Char

/-- C `strlen`. -/
def strlen (s : CStr) : Nat := s.length

/-- The text `printf` produces for `%d`: a minus sign for a negative value, then
the decimal digits without leading zeros. -/
def fmt_d : Int → CStr
  | Int.ofNat m => Nat.toDigits 10 m
  | Int.negSucc m => '-' :: Nat.toDigits 10 (m + 1)

/-- C `snprintf (dst, size, ...)` where `text` is the fully formatted output: at
most `size - 1` characters are stored (the last byte holds the NUL). -/
def snprintf (size : Nat) (text : CStr) : CStr := text.take (size - 1)

/-! ## Tracks -/

/-- The bit `DDB_IS_SUBTRACK` of `deadbeef.h` (`1 << 0`). -/
def DDB_IS_SUBTRACK : Nat := 1

/-- A playlist item as far as `waveform.c` looks at it. `addr` stands for the
pointer value (`playing == it` compares pointers); the other fields are what the
host returns for this item. -/
structure DB_playItem_t where
  /-- the address of the item -/
  addr : Nat
  /-- Value of `pl_get_item_flags (it)` -/
  flags : Nat
  /-- the integer held by the `":TRACKNUM"` metadata, `none` when it is absent -/
  tracknum : Option Int
  /-- Value of `pl_find_meta_raw (it, ":URI")` -/
  uri : Option CStr
  /-- Value of `pl_find_meta_raw (it, ":FILETYPE")` -/
  filetype : Option CStr
  /-- Value of `pl_find_meta_raw (it, ":DECODER")` -/
  decoder_id : Option CStr
  /-- Value of `pl_get_item_duration (it)`, in seconds -/
  duration : ℚ
  deriving DecidableEq

/-- C `deadbeef->pl_find_meta_int (it, ":TRACKNUM", def)`. -/
def pl_find_meta_int_TRACKNUM (it : DB_playItem_t) (dflt : Int) : Int :=
  it.tracknum.getD dflt

/-- Embedding of `waveform_format_uri` (waveform.c:197-213). -/
def waveform_format_uri (it : Option DB_playItem_t) (uri : Option CStr) : Option CStr :=
  match it, uri with
  | some it, some uri =>
    let key_len := strlen uri + 10
    if it.flags &&& DDB_IS_SUBTRACK ≠ 0 then
      let subtrack := pl_find_meta_int_TRACKNUM it 0
      some (snprintf key_len (fmt_d subtrack ++ uri))
    else
      some (snprintf key_len uri)
  | _, _ => none

/-- The file type `cdda` that `waveform_valid_track` compares with. -/
def cdda : CStr := ['c', 'd', 'd', 'a']

/-! ## Numeric conversions -/

/-- Conversion of a floating value to an integer type: the fractional part is
discarded (rounding toward zero). -/
def trunc (x : ℚ) : Int := if 0 ≤ x then ⌊x⌋ else ⌈x⌉

/-- Reduction of an integer into the range of `short`, `-32768 .. 32767`
(two's complement). The C conversion is only defined for values already in
that range, where this is the identity. -/
def wrap_short (z : Int) : Int := (z + 32768) % 65536 - 32768

/-- The cast `(short)(x)` of a floating value. -/
def to_short (x : ℚ) : Int := wrap_short (trunc x)

/-- The cast `(short)(sqrt (x) * 1000)` for `x ≥ 0` in exact arithmetic: the
largest integer `k` with `k * k ≤ 1000000 * x`, reduced to `short`. The C code
rounds `sqrt (x)` and the product with 1000 to `float` before the cast, which can
give a cell one lower (40 frames of `0.1f`: 99 instead of 100); the two agree
where those operations are exact. -/
def short_of_sqrt_times_1000 (x : ℚ) : Int :=
  wrap_short (Nat.sqrt (⌊x * 1000000⌋).toNat)

/-- The macro `MAX (a, b)`, `(((a) > (b)) ? (a) : (b))`. -/
def MAX (a b : ℚ) : ℚ := if a > b then a else b

/-- The macro `MIN (a, b)`, `(((a) < (b)) ? (a) : (b))`. -/
def MIN (a b : ℚ) : ℚ := if a < b then a else b

/-- Constant `VALUES_PER_SAMPLE` (waveform.c:50). -/
def VALUES_PER_SAMPLE : Int := 3

/-- Constant `MAX_CHANNELS` (waveform.c:51). -/
def MAX_CHANNELS : Nat := 6

/-- Constant `MAX_SAMPLES` (waveform.c:52). -/
def MAX_SAMPLES : Nat := 4096

/-- C `sizeof (short)`. -/
def sizeof_short : Nat := 2

/-- The value `waveform_init` gives `w->max_buffer_len` (waveform.c:1190). -/
def init_max_buffer_len : Nat := MAX_SAMPLES * 3 * MAX_CHANNELS * sizeof_short

/-! ## Arrays of `short` -/

/-- C `memset (dst, 0, n * sizeof (short))`. -/
def memset_zero (dst : List Int) (n : Nat) : List Int :=
  List.replicate n 0 ++ dst.drop n

/-- C `memcpy (dst, src, n * sizeof (short))`. -/
def memcpy (dst src : List Int) (n : Nat) : List Int :=
  src.take n ++ dst.drop n

/-! ## The host: decoders, configuration, run-time choices -/

/-- The fields of `ddb_waveformat_t` the summarizer reads. -/
structure ddb_waveformat_t where
  bps : Int
  channels : Int
  samplerate : Int
  deriving DecidableEq

/-- What one call `dec->read (fileinfo, buffer, buffer_len)` followed by
`pcm_convert (..., sz)` yields: the return value `sz` and the floats that the
conversion of those `sz` bytes stores at the start of `data`. -/
structure ReadResult where
  sz : Int
  pcm : List ℚ

/-- A decoder plugin. `read it n len` is the outcome of the `n`-th call of
`dec->read` (counted from 0) on the file of `it` when `len` bytes are asked for. -/
structure DB_decoder_t where
  /-- Value of `plugin.id` -/
  id : CStr
  /-- whether the `open` entry is non-NULL -/
  has_open : Bool
  /-- whether `dec->open (0)` returns a non-NULL `fileinfo` -/
  open_ok : Bool
  /-- the return value of `dec->init (fileinfo, it)` -/
  init : DB_playItem_t → Int
  /-- Value of `fileinfo->fmt` -/
  fmt : DB_playItem_t → ddb_waveformat_t
  read : DB_playItem_t → Nat → Int → ReadResult

/-- The configuration macros of `config.h` used by the pipeline. -/
structure Config where
  CONFIG_NUM_SAMPLES : Int
  CONFIG_MAX_FILE_LENGTH : Int
  CONFIG_CACHE_ENABLED : Int

/-- Everything the worker obtains from outside `waveform.c`. -/
structure Env where
  /-- Value of `deadbeef->is_local_file` -/
  is_local_file : CStr → Bool
  /-- Value of `deadbeef->plug_get_decoder_list ()` -/
  decoders : List DB_decoder_t
  /-- the result of the `n`-th call of `deadbeef->streamer_get_playing_track ()`
  made during the run (counted from 0) -/
  playing : Nat → Option DB_playItem_t
  conf : Config
  /-- whether `malloc` succeeds for `data` (waveform.c:590) -/
  malloc_data : Bool
  /-- whether `malloc` succeeds for `buffer` (waveform.c:597) -/
  malloc_buffer : Bool
  /-- the bytes found in the uninitialised `decoder_id` when the track has no
  `":DECODER"` metadata (waveform.c:543-546) -/
  uninit_decoder_id : CStr
  /-- the value the platform gives `(short)` of a NaN (waveform.c:648 after a
  division `0.0 / 0`); C leaves it undefined -/
  nan_short : Int

/-! ## The state: shared buffer, in-flight tracker, cache, trace -/

/-- Structure `wavedata_t` (waveform.h). -/
structure wavedata_t where
  data : List Int
  data_len : Int
  channels : Int
  fname : Option CStr
  deriving DecidableEq

/-- A stored summary of the cache. -/
structure CacheEntry where
  channels : Int
  data : List Int
  deriving DecidableEq

/-- The calls that leave `waveform.c` and the summarizer runs, in the order
they happen. -/
inductive Event where
  | queue_add (uri : CStr) (admitted : Bool)
  | queue_pop (uri : CStr)
  | generate (addr : Nat)
  | dec_read (n : Nat)
  | db_cached (key : CStr)
  | db_read (key : CStr)
  | db_write (key : CStr) (bytes : Int) (channels : Int)
  | db_delete (key : CStr)
  | redraw
  deriving DecidableEq

/-- The mutable state the worker acts on: the shared buffer `w->wave` with its
capacity `w->max_buffer_len`, the in-flight tracker, the cache, the number of
`streamer_get_playing_track` calls made so far, and the trace. -/
structure World where
  wave : wavedata_t
  max_buffer_len : Nat
  queue : List CStr
  cache : List (CStr × CacheEntry)
  polls : Nat
  log : List Event

/-- Appends an event to the trace. -/
def World.emit (W : World) (e : Event) : World := { W with log := W.log ++ [e] }

/-- C `deadbeef->streamer_get_playing_track ()`. -/
def streamer_get_playing_track (env : Env) (W : World) : Option DB_playItem_t × World :=
  (env.playing W.polls, { W with polls := W.polls + 1 })

/-- Modelled from the spec: `queue_add` of `utils.c` (section 4.3, `try_begin`):
returns true and records the key if it is not already present, false if it is. -/
def queue_add (W : World) (uri : CStr) : Bool × World :=
  if uri ∈ W.queue then (false, W.emit (Event.queue_add uri false))
  else (true, { W.emit (Event.queue_add uri true) with queue := uri :: W.queue })

/-- Modelled from the spec: `queue_pop` of `utils.c` (section 4.3, `end`):
removes the key unconditionally. -/
def queue_pop (W : World) (uri : CStr) : World :=
  { W.emit (Event.queue_pop uri) with queue := W.queue.filter (fun k => k ≠ uri) }

/-- Modelled from the spec: `waveform_db_cached` of `cache.c` (section 4.2,
`exists`). -/
def waveform_db_cached (W : World) (key : CStr) : Int × World :=
  (if (W.cache.lookup key).isSome then 1 else 0, W.emit (Event.db_cached key))

/-- Modelled from the spec: `waveform_db_write` of `cache.c` (section 4.2,
`write`): stores the first `bytes / sizeof (short)` cells and the channel count
under the key, replacing an earlier entry. -/
def waveform_db_write (W : World) (key : CStr) (data : List Int) (bytes : Int)
    (channels : Int) : World :=
  { W.emit (Event.db_write key bytes channels) with
    cache := (key, { channels := channels, data := data.take (bytes.toNat / sizeof_short) }) ::
      W.cache.filter (fun e => e.1 ≠ key) }

/-- Modelled from the spec: `waveform_db_read` of `cache.c` (section 4.2,
`read`): copies the stored cells into the destination when they fit its capacity
and returns their number together with the stored channel count; returns 0 and
leaves the destination alone when the key is absent or the cells do not fit. -/
def waveform_db_read (W : World) (key : CStr) (buf : List Int) (cap : Nat) (channels : Int) :
    Int × List Int × Int × World :=
  match W.cache.lookup key with
  | some e =>
    if e.data.length ≤ cap then
      (e.data.length, memcpy buf e.data e.data.length, e.channels, W.emit (Event.db_read key))
    else (0, buf, channels, W.emit (Event.db_read key))
  | none => (0, buf, channels, W.emit (Event.db_read key))

/-- Modelled from the spec: `waveform_db_delete` of `cache.c` (section 4.2,
`delete`): removes the key and reports whether it was there. -/
def waveform_db_delete (W : World) (key : CStr) : Int × World :=
  (if (W.cache.lookup key).isSome then 1 else 0,
   { W.emit (Event.db_delete key) with cache := W.cache.filter (fun e => e.1 ≠ key) })

/-! ## The track gate -/

/-- Embedding of `waveform_valid_track` (waveform.c:710-728). -/
def waveform_valid_track (env : Env) (it : DB_playItem_t) (uri : CStr) : Int :=
  if ¬ env.is_local_file uri then 0
  else if it.duration / 60 ≥ (env.conf.CONFIG_MAX_FILE_LENGTH : ℚ) ∧
      env.conf.CONFIG_MAX_FILE_LENGTH ≠ -1 then 0
  else
    match it.filetype with
    | some file_meta => if file_meta = cdda then 0 else 1
    | none => 1

/-! ## The summarizer -/

/-- C `strncpy (dst, src, n)` read back as a string; identifiers shorter than `n`
are copied whole. -/
def strncpy (src : CStr) (n : Nat) : CStr := src.take n

/-- The running values of the loop over the frames of one chunk
(waveform.c:629-643). -/
structure Acc where
  min : ℚ
  max : ℚ
  rms : ℚ
  sample : Nat

/-- The loop `for (sample = 0; sample < sz/samplesize; sample++)` of
waveform.c:634-643 for channel `ch`; `limit` is `sz/samplesize`. The first
argument bounds the number of iterations. -/
def sample_loop (data : List ℚ) (channels buffer_len : Int) (ch : Nat) (limit : Int) :
    Nat → Acc → Acc
  | 0, a => a
  | fuel + 1, a =>
    if ¬ ((a.sample : Int) < limit) then a
    else if (a.sample : Int) * channels > buffer_len then a
    else
      let sample_val := data.getD ((a.sample : Int) * channels + ch).toNat 0
      sample_loop data channels buffer_len ch limit fuel
        { max := MAX a.max sample_val
          min := MIN a.min sample_val
          rms := a.rms + sample_val * sample_val
          sample := a.sample + 1 }

/-- The three cells written for channel `ch` (waveform.c:633-648), in the order
they are stored: `data[counter]` from `max`, `data[counter+1]` from `min`,
`data[counter+2]` from `rms`. When the frame loop ran no iteration, `rms /= sample`
is `0.0 / 0`, a NaN, and the third cell is the platform's cast of it. (A
`samplesize` of 0 makes the C division `sz/samplesize` undefined; the model then
takes the quotient to be 0.) The products with 1000, the sum of squares and the
mean are computed exactly, where the C code rounds each to binary32: the cells
are those of the C code for samples at which these operations are exact. -/
def channel_triplet (env : Env) (data : List ℚ) (channels buffer_len sz samplesize : Int)
    (ch : Nat) : Int × Int × Int :=
  let limit := Int.tdiv sz samplesize
  let a := sample_loop data channels buffer_len ch limit limit.toNat
    { min := 1, max := -1, rms := 0, sample := 0 }
  let rms_cell :=
    if a.sample = 0 then env.nan_short
    else short_of_sqrt_times_1000 (a.rms / a.sample)
  (to_short (a.max * 1000), to_short (a.min * 1000), rms_cell)

/-- The three stores and the increment of waveform.c:646-649 for the triplet
`t`, on the pair of the array `wavedata->data` and `counter`. -/
def store_triplet (t : Int × Int × Int) (acc : List Int × Nat) : List Int × Nat :=
  (((acc.1.set acc.2 t.1).set (acc.2 + 1) t.2.1).set (acc.2 + 2) t.2.2, acc.2 + 3)

/-- The loop over the channels (waveform.c:632-650): stores one triplet per
channel at `counter`, `counter + 1`, `counter + 2` and advances `counter` by 3. -/
def write_triplets (env : Env) (data : List ℚ) (channels buffer_len sz samplesize : Int)
    (out : List Int) (counter : Nat) : List Int × Nat :=
  (List.range channels.toNat).foldl
    (fun acc ch => store_triplet (channel_triplet env data channels buffer_len sz samplesize ch) acc)
    (out, counter)

/-- Effect of `pcm_convert` into `data`: the converted floats replace the start
of the array. -/
def pcm_convert (data pcm : List ℚ) : List ℚ := pcm ++ data.drop pcm.length

/-- The variables of the decode loop (waveform.c:614-668): the state, the
worker's summary array `wavedata->data`, the float array `data`, `counter`,
`update_counter` and the number of `dec->read` calls made. -/
structure LoopState where
  W : World
  out : List Int
  data : List ℚ
  counter : Nat
  update_counter : Int
  reads : Nat

/-- The publish block at the end of the loop body (waveform.c:651-667). -/
def publish_step (env : Env) (it : DB_playItem_t) (fmt : ddb_waveformat_t)
    (update_after_nsamples : Int) (s : LoopState) : LoopState :=
  let s1 :=
    if s.update_counter = update_after_nsamples then
      let p := streamer_get_playing_track env s.W
      let W2 :=
        match p.1 with
        | some playing =>
          if playing.addr = it.addr then
            ({ p.2 with
                wave := { p.2.wave with
                  channels := fmt.channels
                  data_len := fmt.channels * VALUES_PER_SAMPLE * env.conf.CONFIG_NUM_SAMPLES
                  data := memcpy (memset_zero p.2.wave.data p.2.max_buffer_len) s.out
                    s.counter } }).emit Event.redraw
          else p.2
        | none => p.2
      { s with W := W2, update_counter := 0 }
    else s
  { s1 with update_counter := s1.update_counter + 1 }

/-- The part of the loop body after the read (waveform.c:627-667). -/
def chunk_step (env : Env) (it : DB_playItem_t) (fmt : ddb_waveformat_t)
    (samplesize buffer_len update_after_nsamples : Int) (r : ReadResult) (s : LoopState) :
    LoopState :=
  let data := pcm_convert s.data r.pcm
  let oc := write_triplets env data fmt.channels buffer_len r.sz samplesize s.out s.counter
  publish_step env it fmt update_after_nsamples
    { s with data := data, out := oc.1, counter := oc.2 }

/-- The state right after a call of `dec->read`: the call is recorded. -/
def after_read (s : LoopState) : LoopState :=
  { s with W := s.W.emit (Event.dec_read s.reads), reads := s.reads + 1 }

/-- The loop `while (!eof)` of waveform.c:618-668. The first argument bounds
the number of iterations; `none` means the bound was reached before the loop
ended. -/
def wave_loop (env : Env) (it : DB_playItem_t) (dec : DB_decoder_t) (fmt : ddb_waveformat_t)
    (samplesize buffer_len update_after_nsamples : Int) : Nat → LoopState → Option LoopState
  | 0, _ => none
  | fuel + 1, s =>
    let r := dec.read it s.reads buffer_len
    if r.sz ≠ buffer_len then
      some (chunk_step env it fmt samplesize buffer_len update_after_nsamples r (after_read s))
    else if r.sz = 0 then
      some (after_read s)
    else
      wave_loop env it dec fmt samplesize buffer_len update_after_nsamples fuel
        (chunk_step env it fmt samplesize buffer_len update_after_nsamples r (after_read s))

/-- The decoder selected by the `":DECODER"` metadata (waveform.c:541-555). -/
def find_decoder (env : Env) (it : DB_playItem_t) : Option DB_decoder_t :=
  let decoder_id :=
    match it.decoder_id with
    | some dec_meta => strncpy dec_meta 100
    | none => env.uninit_decoder_id
  env.decoders.find? (fun d => d.id = decoder_id)

/-- Variable `num_updates` (waveform.c:573). -/
def num_updates (it : DB_playItem_t) : Int := trunc (MAX 1 ((⌊it.duration⌋ : ℚ) / 30))

/-- Variable `update_after_nsamples` (waveform.c:574), with
`width = CONFIG_NUM_SAMPLES`. -/
def update_after_nsamples (env : Env) (it : DB_playItem_t) : Int :=
  trunc ((env.conf.CONFIG_NUM_SAMPLES : ℚ) / num_updates it)

/-- Variable `bytes_per_sample` (waveform.c:578). -/
def bytes_per_sample (fmt : ddb_waveformat_t) : Int := Int.tdiv fmt.bps 8

/-- Variable `samplesize` (waveform.c:579). -/
def samplesize (fmt : ddb_waveformat_t) : Int := fmt.channels * bytes_per_sample fmt

/-- Variable `nsamples_per_channel` (waveform.c:580). -/
def nsamples_per_channel (it : DB_playItem_t) (fmt : ddb_waveformat_t) : Int :=
  ⌊it.duration * fmt.samplerate⌋

/-- Variable `samples_per_buf` (waveform.c:581), with `width = CONFIG_NUM_SAMPLES`. -/
def samples_per_buf (env : Env) (it : DB_playItem_t) (fmt : ddb_waveformat_t) : Int :=
  ⌈(nsamples_per_channel it fmt : ℚ) / (env.conf.CONFIG_NUM_SAMPLES : ℚ)⌉

/-- Variable `buffer_len` (waveform.c:617). -/
def buffer_len (env : Env) (it : DB_playItem_t) (fmt : ddb_waveformat_t) : Int :=
  samples_per_buf env it fmt * samplesize fmt

/-- The shared buffer after the reset of waveform.c:584-588. -/
def reset_shared (env : Env) (fmt : ddb_waveformat_t) (W : World) : World :=
  { W with
    wave := { W.wave with
      channels := fmt.channels
      data_len := fmt.channels * 3 * env.conf.CONFIG_NUM_SAMPLES
      data := memset_zero W.wave.data W.max_buffer_len } }

/-- The loop variables on entry to the decode loop (waveform.c:590-617). -/
def loop_entry (env : Env) (it : DB_playItem_t) (fmt : ddb_waveformat_t) (W : World)
    (wavedata : wavedata_t) : LoopState :=
  { W := W
    out := wavedata.data
    data := List.replicate ((1 + samples_per_buf env it fmt) * samplesize fmt).toNat 0
    counter := 0
    update_counter := 0
    reads := 0 }

/-- Embedding of `waveform_generate_wavedata` (waveform.c:533-691). The result
is the state and the worker's summary `*wavedata` on return; `none` means the
decode loop did not end within `fuel` reads. The first event of the trace it adds
marks the run. -/
def waveform_generate_wavedata (env : Env) (fuel : Nat) (W : World) (it : DB_playItem_t)
    (_uri : CStr) (wavedata : wavedata_t) : Option (World × wavedata_t) :=
  let dec := find_decoder env it
  let W := W.emit (Event.generate it.addr)
  let wavedata := { wavedata with data_len := 0, channels := 0 }
  match dec with
  | none => some (W, wavedata)
  | some dec =>
    if ¬ dec.has_open then some (W, wavedata)
    else if dec.open_ok ∧ dec.init it ≠ 0 then some (W, wavedata)
    else if ¬ dec.open_ok then some (W, wavedata)
    else
      let fmt := dec.fmt it
      let duration := it.duration
      if duration ≤ 0 then some (W, wavedata)
      else
        let W1 := reset_shared env fmt W
        if ¬ env.malloc_data then some (W1, wavedata)
        else if ¬ env.malloc_buffer then some (W1, wavedata)
        else
          match wave_loop env it dec fmt (samplesize fmt) (buffer_len env it fmt)
              (update_after_nsamples env it) fuel (loop_entry env it fmt W1 wavedata) with
          | none => none
          | some s =>
            some (s.W, { data := s.out, fname := it.uri, data_len := s.counter,
                         channels := fmt.channels })

/-! ## Cache access and the worker -/

/-- Embedding of `waveform_db_cache` (waveform.c:693-708). -/
def waveform_db_cache (W : World) (it : DB_playItem_t) (wavedata : wavedata_t) : World :=
  match waveform_format_uri (some it) wavedata.fname with
  | none => W
  | some key =>
    waveform_db_write W key wavedata.data (wavedata.data_len * sizeof_short) wavedata.channels

/-- Embedding of `waveform_delete` (waveform.c:730-743). -/
def waveform_delete (W : World) (it : Option DB_playItem_t) (uri : Option CStr) : Int × World :=
  match waveform_format_uri it uri with
  | none => (0, W)
  | some key => waveform_db_delete W key

/-- Embedding of `waveform_is_cached` (waveform.c:745-758). -/
def waveform_is_cached (W : World) (it : Option DB_playItem_t) (uri : Option CStr) :
    Int × World :=
  match waveform_format_uri it uri with
  | none => (0, W)
  | some key => waveform_db_cached W key

/-- Embedding of `waveform_get_from_cache` (waveform.c:760-775). -/
def waveform_get_from_cache (W : World) (it : Option DB_playItem_t) (uri : Option CStr) :
    World :=
  match waveform_format_uri it uri with
  | none => W
  | some key =>
    let r := waveform_db_read W key W.wave.data W.max_buffer_len W.wave.channels
    { r.2.2.2 with
      wave := { r.2.2.2.wave with data_len := r.1, data := r.2.1, channels := r.2.2.1 } }

/-- The block of `waveform_get_wavedata` run once `queue_add` has admitted the
track (waveform.c:791-827). -/
def summarize_admitted (env : Env) (fuel : Nat) (W : World) (it : DB_playItem_t) (uri : CStr) :
    Option World :=
  let wavedata : wavedata_t :=
    { data := List.replicate W.max_buffer_len 0, data_len := 0, channels := 0, fname := none }
  match waveform_generate_wavedata env fuel W it uri wavedata with
  | none => none
  | some (W1, wavedata) =>
    let W2 := if env.conf.CONFIG_CACHE_ENABLED ≠ 0 then waveform_db_cache W1 it wavedata else W1
    let W3 := queue_pop W2 uri
    let p := streamer_get_playing_track env W3
    match p.1 with
    | some playing =>
      if it.addr = playing.addr then
        some (({ p.2 with
          wave := { p.2.wave with
            data := memcpy p.2.wave.data wavedata.data wavedata.data_len.toNat
            data_len := wavedata.data_len
            channels := wavedata.channels } }).emit Event.redraw)
      else some p.2
    | none => some p.2

/-- Embedding of `waveform_get_wavedata` (waveform.c:777-839). `none` means the
decode loop did not end within `fuel` reads. A track without `":URI"` metadata
(`uri` is NULL) is skipped. -/
def waveform_get_wavedata (env : Env) (fuel : Nat) (W : World) : Option World :=
  let p := streamer_get_playing_track env W
  match p.1 with
  | none => some p.2
  | some it =>
    match it.uri with
    | none => some p.2
    | some uri =>
      if waveform_valid_track env it uri ≠ 0 then
        let c :=
          if env.conf.CONFIG_CACHE_ENABLED ≠ 0 then waveform_is_cached p.2 (some it) (some uri)
          else (0, p.2)
        if env.conf.CONFIG_CACHE_ENABLED ≠ 0 ∧ c.1 ≠ 0 then
          some ((waveform_get_from_cache c.2 (some it) (some uri)).emit Event.redraw)
        else
          let q := queue_add c.2 uri
          if q.1 then summarize_admitted env fuel q.2 it uri
          else some q.2
      else some p.2

/-! ## Helpers for the statements -/

/-- The characters a numeral may consist of: decimal digits and the minus sign. -/
def numeralChar (c : Char) : Bool := c.isDigit || c == '-'

/-- The value of a string of decimal digits. -/
def decVal (l : CStr) : Nat := l.foldl (fun a c => 10 * a + (c.toNat - 48)) 0

/-- The state after `k` further passes through the whole loop body, each
starting with a read. -/
def run_chunks (env : Env) (it : DB_playItem_t) (dec : DB_decoder_t) (fmt : ddb_waveformat_t)
    (samplesize buffer_len update_after_nsamples : Int) : Nat → LoopState → LoopState
  | 0, s => s
  | k + 1, s =>
    run_chunks env it dec fmt samplesize buffer_len update_after_nsamples k
      (chunk_step env it fmt samplesize buffer_len update_after_nsamples
        (dec.read it s.reads buffer_len) (after_read s))

/-- A synthetic decoder over a stream of `total` frames in which every sample has
the value `v`: each read returns the bytes asked for while they last, then
what is left, then nothing. -/
def const_decoder (id : CStr) (fmt : ddb_waveformat_t) (total : Int) (v : ℚ) : DB_decoder_t :=
  { id := id
    has_open := true
    open_ok := true
    init := fun _ => 0
    fmt := fun _ => fmt
    read := fun _ n len =>
      let sz := max 0 (min len (total * (fmt.channels * Int.tdiv fmt.bps 8) - n * len))
      { sz := sz, pcm := List.replicate (Int.tdiv sz (Int.tdiv fmt.bps 8)).toNat v } }

/-! ## Concrete inputs -/

/-- A track with the given flags, `":TRACKNUM"` value and duration, decoded by
the plugin `d`. -/
def track (flags : Nat) (tracknum : Option Int) (duration : ℚ) : DB_playItem_t :=
  { addr := 1, flags := flags, tracknum := tracknum, uri := some ['/', 'a'],
    filetype := none, decoder_id := some ['d'], duration := duration }

/-- A track of the file type `cdda`. -/
def cdda_track : DB_playItem_t :=
  { addr := 1, flags := 0, tracknum := none, uri := some ['/', 'a'],
    filetype := some cdda, decoder_id := some ['d'], duration := 10 }

/-- A host in which `it` is the playing track throughout, every URI is local,
the only decoder is the synthetic one over `total` frames of the value 1, and
the cache is enabled. -/
def host (it : DB_playItem_t) (fmt : ddb_waveformat_t) (total : Int) (num_samples max_len : Int) :
    Env :=
  { is_local_file := fun _ => true
    decoders := [const_decoder ['d'] fmt total 1]
    playing := fun _ => some it
    conf := { CONFIG_NUM_SAMPLES := num_samples, CONFIG_MAX_FILE_LENGTH := max_len,
              CONFIG_CACHE_ENABLED := 1 }
    malloc_data := true
    malloc_buffer := true
    uninit_decoder_id := []
    nan_short := 0 }

/-- The state `waveform_init` leaves: an all-zero shared buffer of the full
capacity, nothing in flight, and the given cache. -/
def init_world (cache : List (CStr × CacheEntry)) : World :=
  { wave := { data := List.replicate init_max_buffer_len 0, data_len := 0, channels := 0,
              fname := none }
    max_buffer_len := init_max_buffer_len
    queue := []
    cache := cache
    polls := 0
    log := [] }

/-- The summary `waveform_get_wavedata` hands to the summarizer
(waveform.c:791-794). -/
def fresh_wavedata : wavedata_t :=
  { data := List.replicate init_max_buffer_len 0, data_len := 0, channels := 0, fname := none }

/-- A mono 16-bit track of 10 seconds at 8000 Hz. -/
def track_8k : DB_playItem_t := track 0 none 10

/-- The host playing `track_8k`, whose decoder delivers the 80000 frames of the
track with the constant value 1; sample bound 2048, no length limit. -/
def host_8k : Env := host track_8k ⟨16, 1, 8000⟩ 80000 2048 (-1)

/-- A mono 16-bit track of 16 seconds at 48000 Hz. -/
def track_48k : DB_playItem_t := track 0 none 16

/-- The host playing `track_48k`, whose decoder delivers the 768000 frames of
the track; sample bound 2048, no length limit. -/
def host_48k : Env := host track_48k ⟨16, 1, 48000⟩ 768000 2048 (-1)

/-- A stereo 16-bit track of 8 seconds at 32000 Hz. -/
def track_32k : DB_playItem_t := track 0 none 8

/-- The host playing `track_32k`, whose decoder delivers the 256000 frames of
the track; sample bound 2048, no length limit. -/
def host_32k : Env := host track_32k ⟨16, 2, 32000⟩ 256000 2048 (-1)

/-- Two stereo frames: the samples 1/2 and -1/2 on channel 0, -1/4 and 3/4 on
channel 1. -/
def two_frames : List (List ℚ) := [[1 / 2, -1 / 4], [-1 / 2, 3 / 4]]

/-- The read that delivers `two_frames` as 16-bit stereo: 8 bytes. -/
def two_frames_read : ReadResult := { sz := 8, pcm := [1 / 2, -1 / 4, -1 / 2, 3 / 4] }

/-- Loop variables before the first chunk, with a summary array of 12 cells. -/
def small_state : LoopState :=
  { W := init_world [], out := List.replicate 12 0, data := [], counter := 0,
    update_counter := 0, reads := 0 }

/-! ## The cache maintenance action -/

/-- The context value `DDB_ACTION_CTX_SELECTION` of `deadbeef.h`. -/
def DDB_ACTION_CTX_SELECTION : Int := 1

/-- The loop of `waveform_action_lookup` over the items of the playlist
(waveform.c:1331-1343). Each item comes with the value `pl_is_selected` returns
for it. -/
def action_lookup_loop : List (DB_playItem_t × Bool) → World → World
  | [], W => W
  | (it, selected) :: rest, W =>
    if selected then
      let uri := it.uri
      let c := waveform_is_cached W (some it) uri
      if c.1 ≠ 0 then action_lookup_loop rest (waveform_delete c.2 (some it) uri).2
      else action_lookup_loop rest c.2
    else action_lookup_loop rest W

/-- Embedding of `waveform_action_lookup` (waveform.c:1323-1351). `plt` is the
current playlist (`none` when `plt_get_curr` returns NULL), as the list of its
items from `plt_get_first` along `pl_get_next`. -/
def waveform_action_lookup (plt : Option (List (DB_playItem_t × Bool))) (ctx : Int)
    (W : World) : Int × World :=
  if ctx = DDB_ACTION_CTX_SELECTION then
    match plt with
    | some items => (0, action_lookup_loop items W)
    | none => (0, W)
  else (0, W)

/-! ## Reading the trace -/

/-- The `dec->read` calls of a trace, by their number, in order. -/
def read_events (log : List Event) : List Nat :=
  log.filterMap (fun e => match e with | Event.dec_read n => some n | _ => none)

/-- The summarizer runs of a trace, by the address of their track, in order. -/
def generate_events (log : List Event) : List Nat :=
  log.filterMap (fun e => match e with | Event.generate a => some a | _ => none)

/-- The `queue_add` calls of a trace, in order. -/
def queue_add_events (log : List Event) : List (CStr × Bool) :=
  log.filterMap (fun e => match e with | Event.queue_add u b => some (u, b) | _ => none)

/-- The `queue_pop` calls of a trace, in order. -/
def queue_pop_events (log : List Event) : List CStr :=
  log.filterMap (fun e => match e with | Event.queue_pop u => some u | _ => none)

/-- The `waveform_db_delete` calls of a trace, by their key, in order. -/
def delete_events (log : List Event) : List CStr :=
  log.filterMap (fun e => match e with | Event.db_delete k => some k | _ => none)

/-- The `waveform_db_write` calls of a trace, in order. -/
def write_events (log : List Event) : List (CStr × Int × Int) :=
  log.filterMap (fun e => match e with | Event.db_write k b c => some (k, b, c) | _ => none)

/-- The events the decode loop can add to the trace: reads and redraw requests. -/
def loop_event : Event → Bool
  | Event.dec_read _ => true
  | Event.redraw => true
  | _ => false

/-- The state in which the block of waveform.c:791-827 starts for the track `it`
with the URI `uri`: after the fetch of the playing track, the cache lookup when
caching is enabled, and the `queue_add` call. -/
def admitted_world (env : Env) (W : World) (it : DB_playItem_t) (uri : CStr) : World :=
  (queue_add
    (if env.conf.CONFIG_CACHE_ENABLED ≠ 0 then
      (waveform_is_cached (streamer_get_playing_track env W).2 (some it) (some uri)).2
    else (streamer_get_playing_track env W).2) uri).2

/-! ## Further concrete inputs -/

/-- A decoder that opens and then fails to initialise. -/
def failing_decoder : DB_decoder_t :=
  { id := ['d'], has_open := true, open_ok := true, init := fun _ => -1,
    fmt := fun _ => ⟨16, 2, 44100⟩, read := fun _ _ _ => { sz := 0, pcm := [] } }

/-- The host playing `track_8k` throughout, with the failing decoder only. -/
def host_failing : Env :=
  { host_8k with decoders := [failing_decoder] }

/-- A second track, at another address. -/
def other_track : DB_playItem_t :=
  { addr := 2, flags := 0, tracknum := none, uri := some ['/', 'b'],
    filetype := none, decoder_id := some ['d'], duration := 10 }

/-- The host of `host_8k` in which `track_8k` is the playing track at the first
query only; every later query finds `other_track` playing. -/
def host_skipped : Env :=
  { host_8k with playing := fun n => if n = 0 then some track_8k else some other_track }

/-- A state in which the shared buffer shows a stereo summary of 12 cells, all
cells of the array holding 5. -/
def busy_world : World :=
  { wave := { data := List.replicate init_max_buffer_len 5, data_len := 12, channels := 2,
              fname := none }
    max_buffer_len := init_max_buffer_len
    queue := []
    cache := []
    polls := 0
    log := [] }

/-- The sub-track with ordinal `n` of the container file `/a`. -/
def subtrack (n : Int) : DB_playItem_t :=
  { addr := n.toNat, flags := 1, tracknum := some n, uri := some ['/', 'a'],
    filetype := none, decoder_id := some ['d'], duration := 10 }

/-- The host playing sub-track 2 of `/a` throughout. -/
def host_subtrack : Env := host (subtrack 2) ⟨16, 1, 8000⟩ 80000 2048 (-1)

/-- The state while sub-track 1 of `/a` is being summarized: its `queue_add` has
registered the URI `/a`. -/
def world_in_flight : World := (queue_add (init_world []) ['/', 'a']).2

/-- A decoder for a stereo 16-bit file that holds only the two frames of
`two_frames`: the first read delivers them, every later read nothing. -/
def short_file_decoder : DB_decoder_t :=
  { id := ['d'], has_open := true, open_ok := true, init := fun _ => 0,
    fmt := fun _ => ⟨16, 2, 44100⟩,
    read := fun _ n _ => if n = 0 then two_frames_read else { sz := 0, pcm := [] } }

/-- The host playing `track_8k` (10 seconds) throughout, with the decoder of the
two-frame file only; sample bound 2048. -/
def host_short_file : Env :=
  { host_8k with decoders := [short_file_decoder] }

/-- The final query and copy of `waveform_get_wavedata` (waveform.c:802-811) from
the state `W3`: the summary is copied into the shared buffer when the track is
still the playing one. -/
def final_copy (env : Env) (W3 : World) (it : DB_playItem_t) (wavedata : wavedata_t) : World :=
  let p := streamer_get_playing_track env W3
  match p.1 with
  | some playing =>
    if it.addr = playing.addr then
      ({ p.2 with
        wave := { p.2.wave with
          data := memcpy p.2.wave.data wavedata.data wavedata.data_len.toNat
          data_len := wavedata.data_len
          channels := wavedata.channels } }).emit Event.redraw
    else p.2
  | none => p.2

/-- The steps of `waveform_get_wavedata` after the summarizer has returned the
state `W1` and the summary `wavedata` (waveform.c:797-811): the cache write when
caching is enabled, `queue_pop`, and the final query and copy. -/
def finish_admitted (env : Env) (W1 : World) (it : DB_playItem_t) (uri : CStr)
    (wavedata : wavedata_t) : World :=
  final_copy env
    (queue_pop (if env.conf.CONFIG_CACHE_ENABLED ≠ 0 then waveform_db_cache W1 it wavedata
      else W1) uri) it wavedata

/-- The initial state with a summary of three cells on one channel stored in the
cache under the key of `track_8k`. -/
def cached_world : World := init_world [(['/', 'a'], { channels := 1, data := [7, -7, 7] })]

/-- The host playing sub-track 1 of `/a` throughout. -/
def host_subtrack_1 : Env := host (subtrack 1) ⟨16, 1, 8000⟩ 80000 2048 (-1)

/-- The keys of the selected items of a playlist, in playlist order: the key
`waveform_format_uri` derives for the item and its `":URI"` metadata. -/
def selected_keys (items : List (DB_playItem_t × Bool)) : List CStr :=
  items.filterMap (fun p => if p.2 then waveform_format_uri (some p.1) p.1.uri else none)

/-- A playlist of three items: `track_8k` selected, `other_track` not selected,
and `track_8k` selected once more. -/
def playlist_3 : List (DB_playItem_t × Bool) :=
  [(track_8k, true), (other_track, false), (track_8k, true)]

/-- A mono 16-bit track of 61470 seconds (a little over 17 hours) at 8000 Hz. -/
def track_17h : DB_playItem_t := track 0 none 61470

/-- The host playing `track_17h` throughout, sample bound 2048; its decoder
delivers 240123 frames: one full chunk of 240118 frames and 5 more. -/
def host_17h : Env := host track_17h ⟨16, 1, 8000⟩ 240123 2048 (-1)

/-- The host of `host_8k` in which both allocations of the summarizer fail. -/
def host_no_memory : Env := { host_8k with malloc_data := false, malloc_buffer := false }

theorem digitChar_isDigit (d : Nat) (h : d < 10) : (Nat.digitChar d).isDigit = true := by
  interval_cases d <;> decide

theorem digitChar_val (d : Nat) (h : d < 10) : (Nat.digitChar d).toNat - 48 = d := by
  interval_cases d <;> decide

theorem toDigitsCore_append (f : Nat) : ∀ (n : Nat) (ds : List Char),
    Nat.toDigitsCore 10 f n ds = Nat.toDigitsCore 10 f n [] ++ ds := by
  induction f with
  | zero => intro n ds; simp [Nat.toDigitsCore]
  | succ f ih =>
    intro n ds
    simp only [Nat.toDigitsCore]
    by_cases h : n / 10 = 0
    · simp [h]
    · simp only [h, if_false]
      rw [ih (n / 10) (Nat.digitChar (n % 10) :: ds), ih (n / 10) [Nat.digitChar (n % 10)]]
      simp

theorem toDigitsCore_step (f n : Nat) :
    Nat.toDigitsCore 10 (f + 1) n [] =
      if n / 10 = 0 then [Nat.digitChar (n % 10)]
      else Nat.toDigitsCore 10 f (n / 10) [] ++ [Nat.digitChar (n % 10)] := by
  simp only [Nat.toDigitsCore]
  by_cases h : n / 10 = 0
  · simp [h]
  · simp only [h, if_false]
    exact toDigitsCore_append f (n / 10) [Nat.digitChar (n % 10)]

theorem toDigitsCore_isDigit (f : Nat) : ∀ (n : Nat), ∀ c ∈ Nat.toDigitsCore 10 f n [],
    c.isDigit = true := by
  induction f with
  | zero => intro n c hc; simp [Nat.toDigitsCore] at hc
  | succ f ih =>
    intro n c hc
    rw [toDigitsCore_step] at hc
    have hd : (Nat.digitChar (n % 10)).isDigit = true :=
      digitChar_isDigit _ (Nat.mod_lt _ (by norm_num))
    by_cases h : n / 10 = 0
    · simp only [h, if_true, List.mem_singleton] at hc
      rw [hc]; exact hd
    · simp only [h, if_false, List.mem_append, List.mem_singleton] at hc
      rcases hc with hc | hc
      · exact ih _ c hc
      · rw [hc]; exact hd

theorem decVal_append_singleton (l : CStr) (c : Char) :
    decVal (l ++ [c]) = 10 * decVal l + (c.toNat - 48) := by
  simp [decVal, List.foldl_append]

theorem decVal_toDigitsCore (f : Nat) : ∀ (n : Nat), n < f →
    decVal (Nat.toDigitsCore 10 f n []) = n := by
  induction f with
  | zero => intro n h; omega
  | succ f ih =>
    intro n hn
    rw [toDigitsCore_step]
    have hv := digitChar_val (n % 10) (Nat.mod_lt _ (by norm_num))
    by_cases h : n / 10 = 0
    · simp only [h, if_true]
      simp only [decVal, List.foldl]
      omega
    · simp only [h, if_false]
      rw [decVal_append_singleton, ih (n / 10) (by omega), hv]
      omega

theorem decVal_toDigits (n : Nat) : decVal (Nat.toDigits 10 n) = n :=
  decVal_toDigitsCore (n + 1) n (Nat.lt_succ_self n)

theorem toDigits_isDigit (n : Nat) : ∀ c ∈ Nat.toDigits 10 n, c.isDigit = true :=
  toDigitsCore_isDigit (n + 1) n

theorem toDigits_ne_nil (n : Nat) : Nat.toDigits 10 n ≠ [] := by
  unfold Nat.toDigits
  rw [toDigitsCore_step]
  by_cases h : n / 10 = 0 <;> simp [h]

theorem toDigits_length_le (n e : Nat) (he : 0 < e) (h : n < 10 ^ e) :
    (Nat.toDigits 10 n).length ≤ e := by
  have h1 := Nat.repr_length n e he h
  have h2 : (Nat.repr n).length = (Nat.toDigits 10 n).length := rfl
  omega

/-- The decimal text determines the integer. -/
theorem fmt_d_injective (a b : Int) (h : fmt_d a = fmt_d b) : a = b := by
  cases a with
  | ofNat m =>
    cases b with
    | ofNat k =>
      simp only [fmt_d] at h
      have := congrArg decVal h
      rw [decVal_toDigits, decVal_toDigits] at this
      rw [this]
    | negSucc k =>
      exfalso
      simp only [fmt_d] at h
      have hm : ('-' : Char) ∈ Nat.toDigits 10 m := by rw [h]; simp
      have := toDigits_isDigit m _ hm
      exact absurd this (by decide)
  | negSucc m =>
    cases b with
    | ofNat k =>
      exfalso
      simp only [fmt_d] at h
      have hm : ('-' : Char) ∈ Nat.toDigits 10 k := by rw [← h]; simp
      have := toDigits_isDigit k _ hm
      exact absurd this (by decide)
    | negSucc k =>
      simp only [fmt_d, List.cons.injEq, true_and] at h
      have := congrArg decVal h
      rw [decVal_toDigits, decVal_toDigits] at this
      have hk : m = k := by omega
      rw [hk]

theorem fmt_d_numeral (a : Int) : ∀ c ∈ fmt_d a, numeralChar c = true := by
  intro c hc
  cases a with
  | ofNat m =>
    simp only [fmt_d] at hc
    simp [numeralChar, toDigits_isDigit m c hc]
  | negSucc m =>
    simp only [fmt_d, List.mem_cons] at hc
    rcases hc with hc | hc
    · subst hc; decide
    · simp [numeralChar, toDigits_isDigit _ c hc]

theorem fmt_d_ne_nil (a : Int) : fmt_d a ≠ [] := by
  cases a with
  | ofNat m => exact toDigits_ne_nil m
  | negSucc m => simp [fmt_d]

/-- Integers from -99999999 to 999999999 print in at most nine characters. -/
theorem fmt_d_length_le (a : Int) (h1 : -99999999 ≤ a) (h2 : a ≤ 999999999) :
    (fmt_d a).length ≤ 9 := by
  cases a with
  | ofNat m =>
    simp only [fmt_d]
    apply toDigits_length_le m 9 (by norm_num)
    have : (Int.ofNat m) = (m : Int) := rfl
    omega
  | negSucc m =>
    simp only [fmt_d, List.length_cons]
    have := toDigits_length_le (m + 1) 8 (by norm_num) (by
      have : Int.negSucc m = -((m : Int) + 1) := rfl
      omega)
    omega

/-! ## The cache key -/

theorem snprintf_fits (size : Nat) (text : CStr) (h : text.length + 1 ≤ size) :
    snprintf size text = text := by
  unfold snprintf
  exact List.take_of_length_le (by omega)

/-- A numeral followed by text that does not start with a numeral character can
be split in one way only. -/
theorem numeral_split : ∀ (d1 d2 u1 u2 : CStr),
    (∀ c ∈ d1, numeralChar c = true) → (∀ c ∈ d2, numeralChar c = true) →
    (∀ c ∈ u1.head?, numeralChar c = false) → (∀ c ∈ u2.head?, numeralChar c = false) →
    d1 ++ u1 = d2 ++ u2 → d1 = d2 ∧ u1 = u2 := by
  intro d1
  induction d1 with
  | nil =>
    intro d2 u1 u2 _ h2 hu1 _ h
    cases d2 with
    | nil => exact ⟨rfl, by simpa using h⟩
    | cons c d2 =>
      exfalso
      simp only [List.nil_append, List.cons_append] at h
      have hc := h2 c (List.mem_cons_self _ _)
      have := hu1 c (by rw [h]; simp)
      rw [hc] at this
      exact absurd this (by decide)
  | cons a d1 ih =>
    intro d2 u1 u2 h1 h2 hu1 hu2 h
    cases d2 with
    | nil =>
      exfalso
      simp only [List.nil_append, List.cons_append] at h
      have hc := h1 a (List.mem_cons_self _ _)
      have := hu2 a (by rw [← h]; simp)
      rw [hc] at this
      exact absurd this (by decide)
    | cons c d2 =>
      simp only [List.cons_append, List.cons.injEq] at h
      obtain ⟨hac, hrest⟩ := h
      have := ih d2 u1 u2 (fun x hx => h1 x (List.mem_cons_of_mem _ hx))
        (fun x hx => h2 x (List.mem_cons_of_mem _ hx)) hu1 hu2 hrest
      exact ⟨by rw [hac, this.1], this.2⟩

/-- For a track that is not a sub-track the key is the URI. -/
theorem format_uri_plain (it : DB_playItem_t) (uri : CStr)
    (hf : ¬ (it.flags &&& DDB_IS_SUBTRACK ≠ 0)) :
    waveform_format_uri (some it) (some uri) = some uri := by
  simp only [waveform_format_uri, strlen]
  rw [if_neg hf, snprintf_fits _ _ (by omega)]

/-- For a sub-track whose ordinal prints in at most nine characters the key is
the decimal ordinal followed by the whole URI. -/
theorem format_uri_subtrack (it : DB_playItem_t) (uri : CStr)
    (hf : it.flags &&& DDB_IS_SUBTRACK ≠ 0)
    (hlen : (fmt_d (pl_find_meta_int_TRACKNUM it 0)).length ≤ 9) :
    waveform_format_uri (some it) (some uri) =
      some (fmt_d (pl_find_meta_int_TRACKNUM it 0) ++ uri) := by
  simp only [waveform_format_uri, strlen]
  rw [if_pos hf, snprintf_fits _ _ (by rw [List.length_append]; omega)]

/-- C1, at the failing input: for the sub-track with ordinal 1000000000 and the
URI `/a.flac` the key is `1000000000/a.fla`, which is not the decimal ordinal
followed by the complete URI: the last character of the URI is cut off. -/
theorem format_uri_cuts_uri :
    waveform_format_uri (some (track 1 (some 1000000000) 10))
        (some ['/', 'a', '.', 'f', 'l', 'a', 'c']) =
      some ['1', '0', '0', '0', '0', '0', '0', '0', '0', '0', '/', 'a', '.', 'f', 'l', 'a'] ∧
    waveform_format_uri (some (track 1 (some 1000000000) 10))
        (some ['/', 'a', '.', 'f', 'l', 'a', 'c']) ≠
      some (fmt_d 1000000000 ++ ['/', 'a', '.', 'f', 'l', 'a', 'c']) := by
  constructor <;> decide

/-- C2, counter-example: the sub-track with ordinal 1 of the URI `2/a` and the
sub-track with ordinal 12 of the URI `/a` differ in ordinal and URI and have the
same key `12/a`. -/
theorem format_uri_collision :
    (1 : Int) ≠ 12 ∧ ['2', '/', 'a'] ≠ ['/', 'a'] ∧
    waveform_format_uri (some (track 1 (some 1) 10)) (some ['2', '/', 'a']) =
      waveform_format_uri (some (track 1 (some 12) 10)) (some ['/', 'a']) := by
  refine ⟨by decide, by decide, by decide⟩

/-- C2, amended: when neither URI begins with a decimal digit or a minus sign
and the ordinal of each flagged track lies between -99999999 and 999999999, two
tracks that differ in the sub-track flag, in the ordinal when flagged, or in the
URI have different keys. -/
theorem format_uri_injective (a b : DB_playItem_t) (ua ub : CStr)
    (hua : ∀ c ∈ ua.head?, numeralChar c = false)
    (hub : ∀ c ∈ ub.head?, numeralChar c = false)
    (ha : a.flags &&& DDB_IS_SUBTRACK ≠ 0 →
      -99999999 ≤ pl_find_meta_int_TRACKNUM a 0 ∧ pl_find_meta_int_TRACKNUM a 0 ≤ 999999999)
    (hb : b.flags &&& DDB_IS_SUBTRACK ≠ 0 →
      -99999999 ≤ pl_find_meta_int_TRACKNUM b 0 ∧ pl_find_meta_int_TRACKNUM b 0 ≤ 999999999)
    (hdiff : ¬ ((a.flags &&& DDB_IS_SUBTRACK ≠ 0 ↔ b.flags &&& DDB_IS_SUBTRACK ≠ 0) ∧
      (a.flags &&& DDB_IS_SUBTRACK ≠ 0 →
        pl_find_meta_int_TRACKNUM a 0 = pl_find_meta_int_TRACKNUM b 0) ∧
      ua = ub)) :
    waveform_format_uri (some a) (some ua) ≠ waveform_format_uri (some b) (some ub) := by
  intro hkey
  apply hdiff
  by_cases hfa : a.flags &&& DDB_IS_SUBTRACK ≠ 0
  · have hla := fmt_d_length_le _ (ha hfa).1 (ha hfa).2
    rw [format_uri_subtrack a ua hfa hla] at hkey
    by_cases hfb : b.flags &&& DDB_IS_SUBTRACK ≠ 0
    · have hlb := fmt_d_length_le _ (hb hfb).1 (hb hfb).2
      rw [format_uri_subtrack b ub hfb hlb] at hkey
      have hs := numeral_split _ _ ua ub (fmt_d_numeral _) (fmt_d_numeral _) hua hub
        (Option.some.inj hkey)
      exact ⟨⟨fun _ => hfb, fun _ => hfa⟩, fun _ => fmt_d_injective _ _ hs.1, hs.2⟩
    · exfalso
      rw [format_uri_plain b ub hfb] at hkey
      have hk := Option.some.inj hkey
      obtain ⟨c, t, hct⟩ := List.exists_cons_of_ne_nil (fmt_d_ne_nil (pl_find_meta_int_TRACKNUM a 0))
      have hc := fmt_d_numeral (pl_find_meta_int_TRACKNUM a 0) c (by rw [hct]; simp)
      have := hub c (by rw [← hk, hct]; simp)
      rw [hc] at this
      exact absurd this (by decide)
  · rw [format_uri_plain a ua hfa] at hkey
    by_cases hfb : b.flags &&& DDB_IS_SUBTRACK ≠ 0
    · exfalso
      have hlb := fmt_d_length_le _ (hb hfb).1 (hb hfb).2
      rw [format_uri_subtrack b ub hfb hlb] at hkey
      have hk := Option.some.inj hkey
      obtain ⟨c, t, hct⟩ := List.exists_cons_of_ne_nil (fmt_d_ne_nil (pl_find_meta_int_TRACKNUM b 0))
      have hc := fmt_d_numeral (pl_find_meta_int_TRACKNUM b 0) c (by rw [hct]; simp)
      have := hua c (by rw [hk, hct]; simp)
      rw [hc] at this
      exact absurd this (by decide)
    · rw [format_uri_plain b ub hfb] at hkey
      exact ⟨⟨fun h => absurd h hfa, fun h => absurd h hfb⟩, fun h => absurd h hfa,
        Option.some.inj hkey⟩

/-- C2, amended, at a concrete pair: the sub-tracks 1 and 2 of `/a`. -/
theorem format_uri_injective_witness :
    waveform_format_uri (some (track 1 (some 1) 10)) (some ['/', 'a']) ≠
      waveform_format_uri (some (track 1 (some 2) 10)) (some ['/', 'a']) :=
  format_uri_injective (track 1 (some 1) 10) (track 1 (some 2) 10) ['/', 'a'] ['/', 'a']
    (by decide) (by decide) (by decide) (by decide) (by decide)

/-- C3, at the failing input: with the URI `1`, the sub-tracks with the
different ordinals 111111111 and 1111111111 receive the same key `1111111111`. -/
theorem format_uri_ordinals_collide :
    (111111111 : Int) ≠ 1111111111 ∧
    waveform_format_uri (some (track 1 (some 111111111) 10)) (some ['1']) =
      waveform_format_uri (some (track 1 (some 1111111111) 10)) (some ['1']) := by
  refine ⟨by decide, by decide⟩

/-- C4, counter-example: for the empty URI a key is returned (the empty key
for a plain track, the ordinal for a sub-track). -/
theorem format_uri_empty_uri :
    waveform_format_uri (some (track 0 none 10)) (some []) = some [] ∧
    waveform_format_uri (some (track 1 (some 3) 10)) (some []) = some ['3'] := by
  refine ⟨by decide, by decide⟩

/-- C4, amended: no key is returned exactly when the track or the URI is NULL;
in particular the empty URI yields a key for every track. -/
theorem format_uri_none_iff (it : Option DB_playItem_t) (uri : Option CStr) :
    (waveform_format_uri it uri = none ↔ it = none ∨ uri = none) ∧
    (∀ t : DB_playItem_t, waveform_format_uri (some t) (some []) ≠ none) := by
  constructor
  · cases it with
    | none => simp [waveform_format_uri]
    | some t =>
      cases uri with
      | none => simp [waveform_format_uri]
      | some u =>
        simp only [waveform_format_uri]
        split <;> simp
  · intro t
    simp only [waveform_format_uri]
    split <;> simp

/-! ## The track gate -/

/-- C6: when the playing track is rejected by `waveform_valid_track`, the worker
returns with the in-flight tracker, the cache, the shared buffer (data, length,
channels) and the trace unchanged; the trace being unchanged, no `queue_add`, no
summarizer run and no cache call took place. -/
theorem get_wavedata_rejected (env : Env) (fuel : Nat) (W : World) (it : DB_playItem_t)
    (uri : CStr) (hp : env.playing W.polls = some it) (hu : it.uri = some uri)
    (hv : waveform_valid_track env it uri = 0) :
    ∃ W', waveform_get_wavedata env fuel W = some W' ∧ W'.queue = W.queue ∧
      W'.cache = W.cache ∧ W'.log = W.log ∧ W'.wave.data = W.wave.data ∧
      W'.wave.data_len = W.wave.data_len ∧ W'.wave.channels = W.wave.channels := by
  refine ⟨{ W with polls := W.polls + 1 }, ?_, rfl, rfl, rfl, rfl, rfl, rfl⟩
  simp [waveform_get_wavedata, streamer_get_playing_track, hp, hu, hv]

/-- C6 at a concrete input: a playing `cdda` track. -/
theorem get_wavedata_rejected_witness :
    ∃ W', waveform_get_wavedata (host cdda_track ⟨16, 2, 44100⟩ 441000 2048 (-1)) 0
        (init_world []) = some W' ∧ W'.queue = (init_world []).queue ∧
      W'.cache = (init_world []).cache ∧ W'.log = (init_world []).log ∧
      W'.wave.data = (init_world []).wave.data ∧
      W'.wave.data_len = (init_world []).wave.data_len ∧
      W'.wave.channels = (init_world []).wave.channels :=
  get_wavedata_rejected (host cdda_track ⟨16, 2, 44100⟩ 441000 2048 (-1)) 0 (init_world [])
    cdda_track ['/', 'a'] rfl rfl (by simp [waveform_valid_track, host, cdda_track])

/-! ## The summary array -/

theorem store_triplet_snd (t : Int × Int × Int) (acc : List Int × Nat) :
    (store_triplet t acc).2 = acc.2 + 3 := rfl

theorem store_triplet_length (t : Int × Int × Int) (acc : List Int × Nat) :
    (store_triplet t acc).1.length = acc.1.length := by
  simp [store_triplet]

theorem store_triplet_get_out (t : Int × Int × Int) (acc : List Int × Nat) (j : Nat)
    (h : j < acc.2 ∨ acc.2 + 3 ≤ j) : (store_triplet t acc).1[j]? = acc.1[j]? := by
  simp only [store_triplet]
  rw [List.getElem?_set_ne (by omega), List.getElem?_set_ne (by omega),
    List.getElem?_set_ne (by omega)]

theorem store_triplet_get_in (t : Int × Int × Int) (acc : List Int × Nat)
    (h : acc.2 + 3 ≤ acc.1.length) :
    (store_triplet t acc).1[acc.2]? = some t.1 ∧
    (store_triplet t acc).1[acc.2 + 1]? = some t.2.1 ∧
    (store_triplet t acc).1[acc.2 + 2]? = some t.2.2 := by
  simp only [store_triplet]
  refine ⟨?_, ?_, ?_⟩
  · rw [List.getElem?_set_ne (by omega), List.getElem?_set_ne (by omega),
      List.getElem?_set_self (by omega)]
  · rw [List.getElem?_set_ne (by omega),
      List.getElem?_set_self (by rw [List.length_set]; omega)]
  · rw [List.getElem?_set_self (by rw [List.length_set, List.length_set]; omega)]

theorem store_fold_snd (g : Nat → Int × Int × Int) : ∀ (chs : List Nat) (acc : List Int × Nat),
    (chs.foldl (fun acc ch => store_triplet (g ch) acc) acc).2 = acc.2 + 3 * chs.length := by
  intro chs
  induction chs with
  | nil => intro acc; simp
  | cons c cs ih =>
    intro acc
    simp only [List.foldl_cons, List.length_cons]
    rw [ih, store_triplet_snd]
    omega

theorem store_fold_length (g : Nat → Int × Int × Int) :
    ∀ (chs : List Nat) (acc : List Int × Nat),
    (chs.foldl (fun acc ch => store_triplet (g ch) acc) acc).1.length = acc.1.length := by
  intro chs
  induction chs with
  | nil => intro acc; simp
  | cons c cs ih =>
    intro acc
    simp only [List.foldl_cons]
    rw [ih, store_triplet_length]

theorem store_fold_get_out (g : Nat → Int × Int × Int) :
    ∀ (chs : List Nat) (acc : List Int × Nat) (j : Nat),
    (j < acc.2 ∨ acc.2 + 3 * chs.length ≤ j) →
    (chs.foldl (fun acc ch => store_triplet (g ch) acc) acc).1[j]? = acc.1[j]? := by
  intro chs
  induction chs with
  | nil => intro acc j _; simp
  | cons c cs ih =>
    intro acc j h
    simp only [List.foldl_cons, List.length_cons] at h ⊢
    rw [ih (store_triplet (g c) acc) j (by rw [store_triplet_snd]; omega)]
    exact store_triplet_get_out _ _ _ (by omega)

theorem store_fold_get_in (g : Nat → Int × Int × Int) :
    ∀ (chs : List Nat) (acc : List Int × Nat) (i : Nat) (c : Nat),
    chs[i]? = some c → acc.2 + 3 * chs.length ≤ acc.1.length →
    (chs.foldl (fun acc ch => store_triplet (g ch) acc) acc).1[acc.2 + 3 * i]? = some (g c).1 ∧
    (chs.foldl (fun acc ch => store_triplet (g ch) acc) acc).1[acc.2 + 3 * i + 1]? =
      some (g c).2.1 ∧
    (chs.foldl (fun acc ch => store_triplet (g ch) acc) acc).1[acc.2 + 3 * i + 2]? =
      some (g c).2.2 := by
  intro chs
  induction chs with
  | nil => intro acc i c hc; simp at hc
  | cons d cs ih =>
    intro acc i c hc hlen
    simp only [List.foldl_cons, List.length_cons] at hlen ⊢
    cases i with
    | zero =>
      simp only [List.getElem?_cons_zero, Option.some.injEq] at hc
      subst hc
      have hin := store_triplet_get_in (g d) acc (by omega)
      refine ⟨?_, ?_, ?_⟩
      · rw [store_fold_get_out g cs _ _ (by rw [store_triplet_snd]; omega)]
        exact hin.1
      · rw [store_fold_get_out g cs _ _ (by rw [store_triplet_snd]; omega)]
        exact hin.2.1
      · rw [store_fold_get_out g cs _ _ (by rw [store_triplet_snd]; omega)]
        exact hin.2.2
    | succ i =>
      simp only [List.getElem?_cons_succ] at hc
      have := ih (store_triplet (g d) acc) i c hc
        (by rw [store_triplet_snd, store_triplet_length]; omega)
      rw [store_triplet_snd] at this
      have e0 : acc.2 + 3 * (i + 1) = acc.2 + 3 + 3 * i := by omega
      rw [e0]
      exact this

/-- The function `write_triplets` advances `counter` by three cells per channel. -/
theorem write_triplets_snd (env : Env) (data : List ℚ) (channels buffer_len sz samplesize : Int)
    (out : List Int) (counter : Nat) :
    (write_triplets env data channels buffer_len sz samplesize out counter).2 =
      counter + 3 * channels.toNat := by
  unfold write_triplets
  rw [store_fold_snd (fun ch => channel_triplet env data channels buffer_len sz samplesize ch)]
  simp

theorem write_triplets_length (env : Env) (data : List ℚ)
    (channels buffer_len sz samplesize : Int) (out : List Int) (counter : Nat) :
    (write_triplets env data channels buffer_len sz samplesize out counter).1.length =
      out.length := by
  unfold write_triplets
  rw [store_fold_length (fun ch => channel_triplet env data channels buffer_len sz samplesize ch)]

/-- The function `write_triplets` leaves the cells outside `counter .. counter + 3 * channels`
alone. -/
theorem write_triplets_get_out (env : Env) (data : List ℚ)
    (channels buffer_len sz samplesize : Int) (out : List Int) (counter j : Nat)
    (h : j < counter ∨ counter + 3 * channels.toNat ≤ j) :
    (write_triplets env data channels buffer_len sz samplesize out counter).1[j]? = out[j]? := by
  unfold write_triplets
  rw [store_fold_get_out (fun ch => channel_triplet env data channels buffer_len sz samplesize ch)]
  simpa using h

/-- The cells `write_triplets` stores for channel `ch`. -/
theorem write_triplets_get_in (env : Env) (data : List ℚ)
    (channels buffer_len sz samplesize : Int) (out : List Int) (counter ch : Nat)
    (hch : ch < channels.toNat) (hlen : counter + 3 * channels.toNat ≤ out.length) :
    (write_triplets env data channels buffer_len sz samplesize out counter).1[counter + 3 * ch]? =
      some (channel_triplet env data channels buffer_len sz samplesize ch).1 ∧
    (write_triplets env data channels buffer_len sz samplesize out counter).1[counter + 3 * ch + 1]? =
      some (channel_triplet env data channels buffer_len sz samplesize ch).2.1 ∧
    (write_triplets env data channels buffer_len sz samplesize out counter).1[counter + 3 * ch + 2]? =
      some (channel_triplet env data channels buffer_len sz samplesize ch).2.2 := by
  unfold write_triplets
  exact store_fold_get_in
    (fun ch => channel_triplet env data channels buffer_len sz samplesize ch)
    (List.range channels.toNat) (out, counter) ch ch
    (by rw [List.getElem?_range hch]) (by simpa using hlen)

/-! ## The decode loop -/

theorem publish_step_out (env : Env) (it : DB_playItem_t) (fmt : ddb_waveformat_t) (u : Int)
    (s : LoopState) :
    (publish_step env it fmt u s).out = s.out ∧ (publish_step env it fmt u s).counter = s.counter ∧
    (publish_step env it fmt u s).reads = s.reads ∧ (publish_step env it fmt u s).data = s.data := by
  unfold publish_step
  split <;> simp

theorem chunk_step_reads (env : Env) (it : DB_playItem_t) (fmt : ddb_waveformat_t)
    (ss bl u : Int) (r : ReadResult) (s : LoopState) :
    (chunk_step env it fmt ss bl u r s).reads = s.reads := by
  unfold chunk_step
  rw [(publish_step_out _ _ _ _ _).2.2.1]

theorem chunk_step_out (env : Env) (it : DB_playItem_t) (fmt : ddb_waveformat_t)
    (ss bl u : Int) (r : ReadResult) (s : LoopState) :
    (chunk_step env it fmt ss bl u r s).out =
      (write_triplets env (pcm_convert s.data r.pcm) fmt.channels bl r.sz ss s.out s.counter).1 := by
  unfold chunk_step
  rw [(publish_step_out _ _ _ _ _).1]

theorem chunk_step_counter (env : Env) (it : DB_playItem_t) (fmt : ddb_waveformat_t)
    (ss bl u : Int) (r : ReadResult) (s : LoopState) :
    (chunk_step env it fmt ss bl u r s).counter = s.counter + 3 * fmt.channels.toNat := by
  unfold chunk_step
  rw [(publish_step_out _ _ _ _ _).2.1]
  exact write_triplets_snd _ _ _ _ _ _ _ _

theorem chunk_step_out_length (env : Env) (it : DB_playItem_t) (fmt : ddb_waveformat_t)
    (ss bl u : Int) (r : ReadResult) (s : LoopState) :
    (chunk_step env it fmt ss bl u r s).out.length = s.out.length := by
  rw [chunk_step_out]
  exact write_triplets_length _ _ _ _ _ _ _ _

theorem after_read_counter (s : LoopState) : (after_read s).counter = s.counter := rfl

theorem after_read_out (s : LoopState) : (after_read s).out = s.out := rfl

theorem after_read_data (s : LoopState) : (after_read s).data = s.data := rfl

theorem after_read_reads (s : LoopState) : (after_read s).reads = s.reads + 1 := rfl

theorem run_chunks_reads (env : Env) (it : DB_playItem_t) (dec : DB_decoder_t)
    (fmt : ddb_waveformat_t) (ss bl u : Int) : ∀ (k : Nat) (s : LoopState),
    (run_chunks env it dec fmt ss bl u k s).reads = s.reads + k := by
  intro k
  induction k with
  | zero => intro s; rfl
  | succ k ih =>
    intro s
    simp only [run_chunks]
    rw [ih, chunk_step_reads]
    simp only [after_read]
    omega

theorem run_chunks_counter (env : Env) (it : DB_playItem_t) (dec : DB_decoder_t)
    (fmt : ddb_waveformat_t) (ss bl u : Int) : ∀ (k : Nat) (s : LoopState),
    (run_chunks env it dec fmt ss bl u k s).counter = s.counter + 3 * fmt.channels.toNat * k := by
  intro k
  induction k with
  | zero => intro s; rfl
  | succ k ih =>
    intro s
    simp only [run_chunks]
    rw [ih, chunk_step_counter]
    simp only [after_read]
    ring

theorem run_chunks_out_length (env : Env) (it : DB_playItem_t) (dec : DB_decoder_t)
    (fmt : ddb_waveformat_t) (ss bl u : Int) : ∀ (k : Nat) (s : LoopState),
    (run_chunks env it dec fmt ss bl u k s).out.length = s.out.length := by
  intro k
  induction k with
  | zero => intro s; rfl
  | succ k ih =>
    intro s
    simp only [run_chunks]
    rw [ih, chunk_step_out_length]
    rfl

/-- When the next `k` reads return the full length asked for, which is not 0,
and the read after them returns another length, the loop ends after exactly
these `k + 1` reads, the last chunk included. -/
theorem wave_loop_short (env : Env) (it : DB_playItem_t) (dec : DB_decoder_t)
    (fmt : ddb_waveformat_t) (ss bl u : Int) (hbl : bl ≠ 0) :
    ∀ (k : Nat) (s : LoopState) (fuel : Nat),
    (∀ j, j < k → (dec.read it (s.reads + j) bl).sz = bl) →
    (dec.read it (s.reads + k) bl).sz ≠ bl → k < fuel →
    wave_loop env it dec fmt ss bl u fuel s =
      some (chunk_step env it fmt ss bl u
        (dec.read it (s.reads + k) bl) (after_read (run_chunks env it dec fmt ss bl u k s))) := by
  intro k
  induction k with
  | zero =>
    intro s fuel _ hshort hfuel
    obtain ⟨f, rfl⟩ : ∃ f, fuel = f + 1 := ⟨fuel - 1, by omega⟩
    simp only [Nat.add_zero] at hshort
    simp only [wave_loop, run_chunks, Nat.add_zero]
    rw [if_pos hshort]
  | succ k ih =>
    intro s fuel hfull hshort hfuel
    obtain ⟨f, rfl⟩ : ∃ f, fuel = f + 1 := ⟨fuel - 1, by omega⟩
    have h0 : (dec.read it s.reads bl).sz = bl := by simpa using hfull 0 (by omega)
    simp only [wave_loop, run_chunks]
    rw [if_neg (by rw [h0]; simp), if_neg (by rw [h0]; exact hbl)]
    have hr : (chunk_step env it fmt ss bl u (dec.read it s.reads bl) (after_read s)).reads =
        s.reads + 1 := by
      rw [chunk_step_reads]; rfl
    have := ih (chunk_step env it fmt ss bl u (dec.read it s.reads bl) (after_read s)) f
      (by
        intro j hj
        rw [hr]
        have := hfull (j + 1) (by omega)
        rwa [show s.reads + 1 + j = s.reads + (j + 1) by omega])
      (by
        rw [hr]
        rwa [show s.reads + 1 + k = s.reads + (k + 1) by omega])
      (by omega)
    rw [this, hr, show s.reads + 1 + k = s.reads + (k + 1) by omega]

/-- The summarizer on a track whose decoder opens and initialises, with a
positive duration and both allocations succeeding: when the first `k` reads
return the full length asked for and the next one another length, the result is
the state after `k + 1` chunks. -/
theorem generate_run (env : Env) (fuel : Nat) (W : World) (it : DB_playItem_t) (uri : CStr)
    (wavedata : wavedata_t) (dec : DB_decoder_t) (k : Nat)
    (hdec : find_decoder env it = some dec) (ho : dec.has_open = true)
    (hok : dec.open_ok = true) (hinit : dec.init it = 0) (hdur : 0 < it.duration)
    (hm1 : env.malloc_data = true) (hm2 : env.malloc_buffer = true)
    (hbl : buffer_len env it (dec.fmt it) ≠ 0)
    (hfull : ∀ j, j < k →
      (dec.read it j (buffer_len env it (dec.fmt it))).sz = buffer_len env it (dec.fmt it))
    (hshort :
      (dec.read it k (buffer_len env it (dec.fmt it))).sz ≠ buffer_len env it (dec.fmt it))
    (hfuel : k < fuel) :
    ∃ s, s = chunk_step env it (dec.fmt it) (samplesize (dec.fmt it))
        (buffer_len env it (dec.fmt it)) (update_after_nsamples env it)
        (dec.read it k (buffer_len env it (dec.fmt it)))
        (after_read (run_chunks env it dec (dec.fmt it) (samplesize (dec.fmt it))
          (buffer_len env it (dec.fmt it)) (update_after_nsamples env it) k
          (loop_entry env it (dec.fmt it)
            (reset_shared env (dec.fmt it) (W.emit (Event.generate it.addr)))
            { wavedata with data_len := 0, channels := 0 }))) ∧
      waveform_generate_wavedata env fuel W it uri wavedata =
        some (s.W, { data := s.out, fname := it.uri, data_len := s.counter,
                     channels := (dec.fmt it).channels }) := by
  refine ⟨_, rfl, ?_⟩
  have hloop := wave_loop_short env it dec (dec.fmt it) (samplesize (dec.fmt it))
    (buffer_len env it (dec.fmt it)) (update_after_nsamples env it) hbl k
    (loop_entry env it (dec.fmt it)
      (reset_shared env (dec.fmt it) (W.emit (Event.generate it.addr)))
      { wavedata with data_len := 0, channels := 0 }) fuel
    (by intro j hj; simpa [loop_entry] using hfull j hj)
    (by simpa [loop_entry] using hshort) hfuel
  simp only [loop_entry, Nat.zero_add] at hloop
  simp only [waveform_generate_wavedata, hdec, ho, hok, hinit, hm1, hm2, not_le.mpr hdur]
  simp only [loop_entry]
  simp [hloop]

/-! ## A read that returns no bytes -/

theorem to_short_neg_1000 : to_short (-1 * 1000) = -1000 := by
  have h : ¬ (0 : ℚ) ≤ -1 * 1000 := by norm_num
  have hc : ⌈(-1 * 1000 : ℚ)⌉ = -1000 := by
    rw [Int.ceil_eq_iff]; norm_num
  simp only [to_short, trunc, if_neg h, hc]
  decide

theorem to_short_1000 : to_short (1 * 1000) = 1000 := by
  have h : (0 : ℚ) ≤ 1 * 1000 := by norm_num
  have hc : ⌊(1 * 1000 : ℚ)⌋ = 1000 := by
    rw [Int.floor_eq_iff]; norm_num
  simp only [to_short, trunc, if_pos h, hc]
  decide

/-- The triplet stored for a chunk of no bytes: the initial values of `max` and
`min`, and the cast of the NaN that `0.0 / 0` yields. -/
theorem channel_triplet_zero (env : Env) (data : List ℚ) (channels bl ss : Int) (ch : Nat) :
    channel_triplet env data channels bl 0 ss ch = (-1000, 1000, env.nan_short) := by
  simp only [channel_triplet, Int.zero_tdiv, Int.toNat_zero, sample_loop, if_true,
    to_short_neg_1000, to_short_1000]

theorem const_decoder_sz (id : CStr) (fmt : ddb_waveformat_t) (total : Int) (v : ℚ)
    (it : DB_playItem_t) (n : Nat) (len : Int) :
    ((const_decoder id fmt total v).read it n len).sz =
      max 0 (min len (total * samplesize fmt - n * len)) := rfl

/-- The summarizer under the conditions of `generate_run`: the number of cells
produced is three per channel for each of the `k + 1` reads. -/
theorem generate_count (env : Env) (fuel : Nat) (W : World) (it : DB_playItem_t) (uri : CStr)
    (wavedata : wavedata_t) (dec : DB_decoder_t) (k : Nat)
    (hdec : find_decoder env it = some dec) (ho : dec.has_open = true)
    (hok : dec.open_ok = true) (hinit : dec.init it = 0) (hdur : 0 < it.duration)
    (hm1 : env.malloc_data = true) (hm2 : env.malloc_buffer = true)
    (hbl : buffer_len env it (dec.fmt it) ≠ 0)
    (hfull : ∀ j, j < k →
      (dec.read it j (buffer_len env it (dec.fmt it))).sz = buffer_len env it (dec.fmt it))
    (hshort :
      (dec.read it k (buffer_len env it (dec.fmt it))).sz ≠ buffer_len env it (dec.fmt it))
    (hfuel : k < fuel) :
    ∃ r, waveform_generate_wavedata env fuel W it uri wavedata = some r ∧
      r.2.data_len = ((3 * (dec.fmt it).channels.toNat * (k + 1) : Nat) : Int) ∧
      r.2.channels = (dec.fmt it).channels := by
  obtain ⟨s, hs, hgen⟩ := generate_run env fuel W it uri wavedata dec k hdec ho hok hinit hdur
    hm1 hm2 hbl hfull hshort hfuel
  refine ⟨_, hgen, ?_, rfl⟩
  show ((s.counter : Nat) : Int) = _
  rw [hs, chunk_step_counter, after_read_counter, run_chunks_counter]
  have : (loop_entry env it (dec.fmt it)
      (reset_shared env (dec.fmt it) (W.emit (Event.generate it.addr)))
      { wavedata with data_len := 0, channels := 0 }).counter = 0 := rfl
  rw [this]
  congr 1
  ring

/-- The summarizer under the conditions of `generate_run` when the last read
returns no bytes: the triplet stored for that read holds -1000 in its first
cell, 1000 in its second and the cast of a NaN in its third, for every channel. -/
theorem generate_zero_read (env : Env) (fuel : Nat) (W : World) (it : DB_playItem_t)
    (uri : CStr) (wavedata : wavedata_t) (dec : DB_decoder_t) (k ch : Nat)
    (hdec : find_decoder env it = some dec) (ho : dec.has_open = true)
    (hok : dec.open_ok = true) (hinit : dec.init it = 0) (hdur : 0 < it.duration)
    (hm1 : env.malloc_data = true) (hm2 : env.malloc_buffer = true)
    (hbl : buffer_len env it (dec.fmt it) ≠ 0)
    (hfull : ∀ j, j < k →
      (dec.read it j (buffer_len env it (dec.fmt it))).sz = buffer_len env it (dec.fmt it))
    (hzero : (dec.read it k (buffer_len env it (dec.fmt it))).sz = 0)
    (hfuel : k < fuel) (hch : ch < (dec.fmt it).channels.toNat)
    (hcap : 3 * (dec.fmt it).channels.toNat * (k + 1) ≤ wavedata.data.length) :
    ∃ r, waveform_generate_wavedata env fuel W it uri wavedata = some r ∧
      r.2.data[3 * (dec.fmt it).channels.toNat * k + 3 * ch]? = some (-1000) ∧
      r.2.data[3 * (dec.fmt it).channels.toNat * k + 3 * ch + 1]? = some 1000 ∧
      r.2.data[3 * (dec.fmt it).channels.toNat * k + 3 * ch + 2]? = some env.nan_short := by
  obtain ⟨s, hs, hgen⟩ := generate_run env fuel W it uri wavedata dec k hdec ho hok hinit hdur
    hm1 hm2 hbl hfull (by rw [hzero]; exact fun h => hbl h.symm) hfuel
  have hc0 : (loop_entry env it (dec.fmt it)
      (reset_shared env (dec.fmt it) (W.emit (Event.generate it.addr)))
      { wavedata with data_len := 0, channels := 0 }).counter = 0 := rfl
  have hl0 : (loop_entry env it (dec.fmt it)
      (reset_shared env (dec.fmt it) (W.emit (Event.generate it.addr)))
      { wavedata with data_len := 0, channels := 0 }).out = wavedata.data := rfl
  have hout : s.out = (write_triplets env
      (pcm_convert (after_read (run_chunks env it dec (dec.fmt it) (samplesize (dec.fmt it))
          (buffer_len env it (dec.fmt it)) (update_after_nsamples env it) k
          (loop_entry env it (dec.fmt it)
            (reset_shared env (dec.fmt it) (W.emit (Event.generate it.addr)))
            { wavedata with data_len := 0, channels := 0 }))).data
        (dec.read it k (buffer_len env it (dec.fmt it))).pcm)
      (dec.fmt it).channels (buffer_len env it (dec.fmt it)) 0 (samplesize (dec.fmt it))
      (run_chunks env it dec (dec.fmt it) (samplesize (dec.fmt it))
          (buffer_len env it (dec.fmt it)) (update_after_nsamples env it) k
          (loop_entry env it (dec.fmt it)
            (reset_shared env (dec.fmt it) (W.emit (Event.generate it.addr)))
            { wavedata with data_len := 0, channels := 0 })).out
      (3 * (dec.fmt it).channels.toNat * k)).1 := by
    rw [hs, chunk_step_out, hzero, after_read_counter, after_read_out, run_chunks_counter, hc0,
      Nat.zero_add]
  have hwt := write_triplets_get_in env
    (pcm_convert (after_read (run_chunks env it dec (dec.fmt it) (samplesize (dec.fmt it))
          (buffer_len env it (dec.fmt it)) (update_after_nsamples env it) k
          (loop_entry env it (dec.fmt it)
            (reset_shared env (dec.fmt it) (W.emit (Event.generate it.addr)))
            { wavedata with data_len := 0, channels := 0 }))).data
        (dec.read it k (buffer_len env it (dec.fmt it))).pcm)
    (dec.fmt it).channels (buffer_len env it (dec.fmt it)) 0 (samplesize (dec.fmt it))
    (run_chunks env it dec (dec.fmt it) (samplesize (dec.fmt it))
          (buffer_len env it (dec.fmt it)) (update_after_nsamples env it) k
          (loop_entry env it (dec.fmt it)
            (reset_shared env (dec.fmt it) (W.emit (Event.generate it.addr)))
            { wavedata with data_len := 0, channels := 0 })).out
    (3 * (dec.fmt it).channels.toNat * k) ch hch
    (by
      rw [run_chunks_out_length, hl0]
      have : 3 * (dec.fmt it).channels.toNat * (k + 1) =
          3 * (dec.fmt it).channels.toNat * k + 3 * (dec.fmt it).channels.toNat := by ring
      omega)
  rw [channel_triplet_zero, ← hout] at hwt
  exact ⟨_, hgen, hwt.1, hwt.2.1, hwt.2.2⟩

theorem buffer_len_8k : buffer_len host_8k track_8k ⟨16, 1, 8000⟩ = 80 := by
  have h1 : (⌊(10 : ℚ) * ((8000 : Int) : ℚ)⌋ : Int) = 80000 := by
    rw [Int.floor_eq_iff]; norm_num
  have h2 : (⌈((80000 : Int) : ℚ) / ((2048 : Int) : ℚ)⌉ : Int) = 40 := by
    rw [Int.ceil_eq_iff]; norm_num
  simp only [buffer_len, samples_per_buf, nsamples_per_channel, samplesize, bytes_per_sample,
    host_8k, track_8k, host, track, h1, h2]
  decide

/-- C8, at the failing input: for the 10-second mono track at 8000 Hz with the
constant signal 1.0 and the sample bound 2048, the decoder's 2001st read returns
no bytes and the summarizer still stores a triplet for it, which holds -1000 in
its first cell (index 6000) and 1000 in its second, not 1000 in every cell. -/
theorem const_signal_last_triplet :
    ∃ r, waveform_generate_wavedata host_8k 4096 (init_world []) track_8k ['/', 'a']
        fresh_wavedata = some r ∧
      r.2.data[6000]? = some (-1000) ∧ r.2.data[6001]? = some 1000 := by
  have hb := buffer_len_8k
  have hfmt : (const_decoder ['d'] ⟨16, 1, 8000⟩ 80000 1).fmt track_8k = ⟨16, 1, 8000⟩ := rfl
  have hss : samplesize ⟨16, 1, 8000⟩ = 2 := by decide
  obtain ⟨r, hgen, h0, h1, _⟩ := generate_zero_read host_8k 4096 (init_world []) track_8k
    ['/', 'a'] fresh_wavedata (const_decoder ['d'] ⟨16, 1, 8000⟩ 80000 1) 2000 0
    rfl rfl rfl rfl (by norm_num [track_8k, track]) rfl rfl
    (by rw [hfmt, hb]; decide)
    (by
      intro j hj
      rw [hfmt, hb, const_decoder_sz, hss]
      have : (j : Int) < 2000 := by exact_mod_cast hj
      omega)
    (by
      rw [hfmt, hb, const_decoder_sz, hss]
      decide)
    (by norm_num) (by decide)
    (by
      have : fresh_wavedata.data.length = 147456 := List.length_replicate _ _
      rw [this]
      decide)
  exact ⟨r, hgen, h0, h1⟩

theorem buffer_len_48k : buffer_len host_48k track_48k ⟨16, 1, 48000⟩ = 750 := by
  have h1 : (⌊(16 : ℚ) * ((48000 : Int) : ℚ)⌋ : Int) = 768000 := by
    rw [Int.floor_eq_iff]; norm_num
  have h2 : (⌈((768000 : Int) : ℚ) / ((2048 : Int) : ℚ)⌉ : Int) = 375 := by
    rw [Int.ceil_eq_iff]; norm_num
  simp only [buffer_len, samples_per_buf, nsamples_per_channel, samplesize, bytes_per_sample,
    host_48k, track_48k, host, track, h1, h2]
  decide

theorem buffer_len_32k : buffer_len host_32k track_32k ⟨16, 2, 32000⟩ = 500 := by
  have h1 : (⌊(8 : ℚ) * ((32000 : Int) : ℚ)⌋ : Int) = 256000 := by
    rw [Int.floor_eq_iff]; norm_num
  have h2 : (⌈((256000 : Int) : ℚ) / ((2048 : Int) : ℚ)⌉ : Int) = 125 := by
    rw [Int.ceil_eq_iff]; norm_num
  simp only [buffer_len, samples_per_buf, nsamples_per_channel, samplesize, bytes_per_sample,
    host_32k, track_32k, host, track, h1, h2]
  decide

/-- C7, at the failing input: for the 16-second mono track at 48000 Hz and the
sample bound 2048, whose decoder delivers exactly the 768000 frames and then
nothing, the summarizer produces 6147 cells for one channel, that is 2049
triplets, one more than the bound. -/
theorem bucket_count_exceeds_bound :
    ∃ r, waveform_generate_wavedata host_48k 4096 (init_world []) track_48k ['/', 'a']
        fresh_wavedata = some r ∧
      r.2.data_len = 6147 ∧ r.2.channels = 1 ∧
      r.2.data_len / (3 * r.2.channels) = 2049 ∧
      ¬ (r.2.data_len / (3 * r.2.channels) ≤ host_48k.conf.CONFIG_NUM_SAMPLES) := by
  have hb := buffer_len_48k
  have hfmt : (const_decoder ['d'] ⟨16, 1, 48000⟩ 768000 1).fmt track_48k = ⟨16, 1, 48000⟩ := rfl
  have hss : samplesize ⟨16, 1, 48000⟩ = 2 := by decide
  obtain ⟨r, hgen, hlen, hch⟩ := generate_count host_48k 4096 (init_world []) track_48k
    ['/', 'a'] fresh_wavedata (const_decoder ['d'] ⟨16, 1, 48000⟩ 768000 1) 2048
    rfl rfl rfl rfl (by norm_num [track_48k, track]) rfl rfl
    (by rw [hfmt, hb]; decide)
    (by
      intro j hj
      rw [hfmt, hb, const_decoder_sz, hss]
      have : (j : Int) < 2048 := by exact_mod_cast hj
      omega)
    (by
      rw [hfmt, hb, const_decoder_sz, hss]
      decide)
    (by norm_num)
  rw [hfmt] at hlen hch
  have hlen2 : r.2.data_len = 6147 := by rw [hlen]; rfl
  have hch2 : r.2.channels = 1 := by rw [hch]
  refine ⟨r, hgen, hlen2, hch2, ?_, ?_⟩
  · rw [hlen2, hch2]; decide
  · rw [hlen2, hch2]; decide

/-- C9, at the failing input: for the 8-second stereo track at 32000 Hz and the
sample bound 2048, the decoder's 2049th read returns no bytes; in the triplet
stored for it the max cell (index 12288) holds -1000 and the min cell (index
12289) holds 1000, so the stored min is greater than the stored max. -/
theorem zero_read_min_above_max :
    ∃ r max_cell min_cell,
      waveform_generate_wavedata host_32k 4096 (init_world []) track_32k ['/', 'a']
        fresh_wavedata = some r ∧
      r.2.data[12288]? = some max_cell ∧ r.2.data[12289]? = some min_cell ∧
      max_cell = -1000 ∧ min_cell = 1000 ∧ ¬ (min_cell ≤ max_cell) := by
  have hb := buffer_len_32k
  have hfmt : (const_decoder ['d'] ⟨16, 2, 32000⟩ 256000 1).fmt track_32k = ⟨16, 2, 32000⟩ := rfl
  have hss : samplesize ⟨16, 2, 32000⟩ = 4 := by decide
  obtain ⟨r, hgen, h0, h1, _⟩ := generate_zero_read host_32k 4096 (init_world []) track_32k
    ['/', 'a'] fresh_wavedata (const_decoder ['d'] ⟨16, 2, 32000⟩ 256000 1) 2048 0
    rfl rfl rfl rfl (by norm_num [track_32k, track]) rfl rfl
    (by rw [hfmt, hb]; decide)
    (by
      intro j hj
      rw [hfmt, hb, const_decoder_sz, hss]
      have : (j : Int) < 2048 := by exact_mod_cast hj
      omega)
    (by
      rw [hfmt, hb, const_decoder_sz, hss]
      decide)
    (by norm_num) (by decide)
    (by
      have : fresh_wavedata.data.length = 147456 := List.length_replicate _ _
      rw [this]
      decide)
  exact ⟨r, -1000, 1000, hgen, h0, h1, rfl, rfl, by decide⟩

/-! ## The triplet of a chunk -/

/-- In an interleaved array built from frames of `n` samples each, the sample of
channel `ch` in frame `i` is found at index `i * n + ch`. -/
theorem flatten_getD (n ch : Nat) (hch : ch < n) :
    ∀ (frames : List (List ℚ)) (rest : List ℚ) (i : Nat),
    (∀ f ∈ frames, f.length = n) → i < frames.length →
    (frames.flatten ++ rest).getD (i * n + ch) 0 =
      (frames.map (fun f => f.getD ch 0)).getD i 0 := by
  intro frames
  induction frames with
  | nil => intro rest i _ hi; simp at hi
  | cons f fs ih =>
    intro rest i hlen hi
    have hf : f.length = n := hlen f (List.mem_cons_self _ _)
    rw [List.flatten_cons, List.append_assoc]
    cases i with
    | zero =>
      rw [Nat.zero_mul, Nat.zero_add, List.getD_append _ _ _ _ (by omega)]
      simp
    | succ i =>
      rw [List.getD_append_right _ _ _ _ (by rw [hf]; nlinarith)]
      have e : (i + 1) * n + ch - f.length = i * n + ch := by
        rw [hf, Nat.succ_mul]; omega
      rw [e, ih rest i (fun g hg => hlen g (List.mem_cons_of_mem _ hg))
        (by simpa using hi)]
      simp

theorem sample_loop_eq (data : List ℚ) (n : Nat) (bl : Int) (ch : Nat) (xs : List ℚ)
    (hdata : ∀ i, i < xs.length → data.getD (i * n + ch) 0 = xs.getD i 0)
    (hguard : ∀ i : Nat, i < xs.length → ¬ ((i : Int) * (n : Int) > bl)) :
    ∀ (fuel : Nat) (a : Acc), a.sample + fuel = xs.length →
    sample_loop data n bl ch xs.length fuel a =
      { min := (xs.drop a.sample).foldl MIN a.min
        max := (xs.drop a.sample).foldl MAX a.max
        rms := a.rms + ((xs.drop a.sample).map (fun x => x * x)).sum
        sample := xs.length } := by
  intro fuel
  induction fuel with
  | zero =>
    intro a ha
    have : a.sample = xs.length := by omega
    cases a
    simp only [sample_loop] at *
    subst this
    simp
  | succ fuel ih =>
    intro a ha
    have hlt : a.sample < xs.length := by omega
    have h1 : ((a.sample : Int) < (xs.length : Int)) := by exact_mod_cast hlt
    have hidx : ((a.sample : Int) * (n : Int) + (ch : Int)).toNat = a.sample * n + ch := by
      have : ((a.sample : Int) * (n : Int) + (ch : Int)) = ((a.sample * n + ch : Nat) : Int) := by
        push_cast; ring
      rw [this, Int.toNat_natCast]
    simp only [sample_loop]
    rw [if_neg (not_not.mpr h1), if_neg (hguard a.sample hlt), hidx, hdata a.sample hlt]
    rw [ih _ (by simp only; omega)]
    rw [List.drop_eq_getElem_cons hlt]
    have hx : xs.getD a.sample 0 = xs[a.sample] := by
      rw [List.getD_eq_getElem?_getD, List.getElem?_eq_getElem hlt]; rfl
    simp only [hx, List.foldl_cons, List.map_cons, List.sum_cons]
    congr 1
    ring

theorem foldl_MAX_spec : ∀ (xs : List ℚ) (m : ℚ),
    (xs.foldl MAX m = m ∨ xs.foldl MAX m ∈ xs) ∧ m ≤ xs.foldl MAX m ∧
      ∀ x ∈ xs, x ≤ xs.foldl MAX m := by
  intro xs
  induction xs with
  | nil => intro m; simp
  | cons y ys ih =>
    intro m
    simp only [List.foldl_cons]
    obtain ⟨h1, h2, h3⟩ := ih (MAX m y)
    have hm : MAX m y = m ∨ MAX m y = y := by
      unfold MAX; split <;> simp
    have hge : m ≤ MAX m y ∧ y ≤ MAX m y := by
      unfold MAX; split
      · constructor <;> linarith
      · constructor <;> linarith
    refine ⟨?_, le_trans hge.1 h2, ?_⟩
    · rcases h1 with h1 | h1
      · rcases hm with hm | hm
        · left; rw [h1, hm]
        · right; rw [h1, hm]; exact List.mem_cons_self _ _
      · right; exact List.mem_cons_of_mem _ h1
    · intro x hx
      rcases List.mem_cons.mp hx with hx | hx
      · rw [hx]; exact le_trans hge.2 h2
      · exact h3 x hx

theorem foldl_MIN_spec : ∀ (xs : List ℚ) (m : ℚ),
    (xs.foldl MIN m = m ∨ xs.foldl MIN m ∈ xs) ∧ xs.foldl MIN m ≤ m ∧
      ∀ x ∈ xs, xs.foldl MIN m ≤ x := by
  intro xs
  induction xs with
  | nil => intro m; simp
  | cons y ys ih =>
    intro m
    simp only [List.foldl_cons]
    obtain ⟨h1, h2, h3⟩ := ih (MIN m y)
    have hm : MIN m y = m ∨ MIN m y = y := by
      unfold MIN; split <;> simp
    have hge : MIN m y ≤ m ∧ MIN m y ≤ y := by
      unfold MIN; split
      · constructor <;> linarith
      · constructor <;> linarith
    refine ⟨?_, le_trans h2 hge.1, ?_⟩
    · rcases h1 with h1 | h1
      · rcases hm with hm | hm
        · left; rw [h1, hm]
        · right; rw [h1, hm]; exact List.mem_cons_self _ _
      · right; exact List.mem_cons_of_mem _ h1
    · intro x hx
      rcases List.mem_cons.mp hx with hx | hx
      · rw [hx]; exact le_trans h2 hge.2
      · exact h3 x hx

/-- The running maximum started at -1 over a non-empty list of values not below
-1 is the greatest element of the list. -/
theorem foldl_MAX_mem (xs : List ℚ) (hne : xs ≠ []) (hr : ∀ x ∈ xs, -1 ≤ x) :
    xs.foldl MAX (-1) ∈ xs ∧ ∀ x ∈ xs, x ≤ xs.foldl MAX (-1) := by
  obtain ⟨h1, _, h3⟩ := foldl_MAX_spec xs (-1)
  refine ⟨?_, h3⟩
  rcases h1 with h1 | h1
  · obtain ⟨y, ys, rfl⟩ := List.exists_cons_of_ne_nil hne
    have hy1 := h3 y (List.mem_cons_self _ _)
    have hy2 := hr y (List.mem_cons_self _ _)
    rw [h1] at hy1 ⊢
    have : y = -1 := le_antisymm hy1 hy2
    rw [← this]; exact List.mem_cons_self _ _
  · exact h1

/-- The running minimum started at 1 over a non-empty list of values not above 1
is the least element of the list. -/
theorem foldl_MIN_mem (xs : List ℚ) (hne : xs ≠ []) (hr : ∀ x ∈ xs, x ≤ 1) :
    xs.foldl MIN 1 ∈ xs ∧ ∀ x ∈ xs, xs.foldl MIN 1 ≤ x := by
  obtain ⟨h1, _, h3⟩ := foldl_MIN_spec xs 1
  refine ⟨?_, h3⟩
  rcases h1 with h1 | h1
  · obtain ⟨y, ys, rfl⟩ := List.exists_cons_of_ne_nil hne
    have hy1 := h3 y (List.mem_cons_self _ _)
    have hy2 := hr y (List.mem_cons_self _ _)
    rw [h1] at hy1 ⊢
    have : y = 1 := le_antisymm hy2 hy1
    rw [← this]; exact List.mem_cons_self _ _
  · exact h1

theorem sum_squares_bounds : ∀ (xs : List ℚ), (∀ x ∈ xs, -1 ≤ x ∧ x ≤ 1) →
    0 ≤ (xs.map (fun x => x * x)).sum ∧ (xs.map (fun x => x * x)).sum ≤ xs.length := by
  intro xs
  induction xs with
  | nil => intro _; simp
  | cons y ys ih =>
    intro h
    obtain ⟨h1, h2⟩ := ih (fun x hx => h x (List.mem_cons_of_mem _ hx))
    obtain ⟨hy1, hy2⟩ := h y (List.mem_cons_self _ _)
    simp only [List.map_cons, List.sum_cons, List.length_cons, Nat.cast_add, Nat.cast_one]
    constructor
    · nlinarith [mul_self_nonneg y]
    · nlinarith

theorem wrap_short_id (z : Int) (h1 : -32768 ≤ z) (h2 : z ≤ 32767) : wrap_short z = z := by
  unfold wrap_short
  omega

theorem trunc_bounds (x : ℚ) (h1 : -1000 ≤ x) (h2 : x ≤ 1000) :
    -1000 ≤ trunc x ∧ trunc x ≤ 1000 := by
  unfold trunc
  split
  · rename_i h
    constructor
    · have : (0 : Int) ≤ ⌊x⌋ := Int.floor_nonneg.mpr h
      omega
    · have : ((⌊x⌋ : Int) : ℚ) ≤ 1000 := le_trans (Int.floor_le x) h2
      exact_mod_cast this
  · rename_i h
    constructor
    · have : (-1001 : Int) < ⌈x⌉ := Int.lt_ceil.mpr (by push_cast; linarith)
      omega
    · exact Int.ceil_le.mpr (by push_cast; linarith)

theorem to_short_scaled (m : ℚ) (h1 : -1 ≤ m) (h2 : m ≤ 1) :
    to_short (m * 1000) = trunc (m * 1000) ∧ -1000 ≤ trunc (m * 1000) ∧
      trunc (m * 1000) ≤ 1000 := by
  obtain ⟨hb1, hb2⟩ := trunc_bounds (m * 1000) (by linarith) (by linarith)
  exact ⟨wrap_short_id _ (by omega) (by omega), hb1, hb2⟩

/-- The integer square root used for the RMS cell is the truncation of the real
`sqrt (q) * 1000`. -/
theorem sqrt_cell (q : ℚ) (hq : 0 ≤ q) :
    ((Nat.sqrt (⌊q * 1000000⌋).toNat : Nat) : Int) = ⌊Real.sqrt (q : ℝ) * 1000⌋ := by
  have hq' : (0 : ℝ) ≤ (q : ℝ) := by exact_mod_cast hq
  have hfl : (0 : Int) ≤ ⌊q * 1000000⌋ := Int.floor_nonneg.mpr (by linarith)
  have hm : (((⌊q * 1000000⌋).toNat : Nat) : Int) = ⌊q * 1000000⌋ := Int.toNat_of_nonneg hfl
  have hmr : (((⌊q * 1000000⌋).toNat : Nat) : ℝ) = ((⌊q * 1000000⌋ : Int) : ℝ) := by
    rw [← @Int.cast_natCast ℝ _ (⌊q * 1000000⌋).toNat, hm]
  have hcast : ⌊((q * 1000000 : ℚ) : ℝ)⌋ = ⌊q * 1000000⌋ := Rat.floor_cast _
  have hle : ((⌊q * 1000000⌋ : Int) : ℝ) ≤ (q : ℝ) * 1000000 := by
    have := Int.floor_le ((q * 1000000 : ℚ) : ℝ)
    rw [hcast] at this
    simpa using this
  have hlt : (q : ℝ) * 1000000 < ((⌊q * 1000000⌋ : Int) : ℝ) + 1 := by
    have := Int.lt_floor_add_one ((q * 1000000 : ℚ) : ℝ)
    rw [hcast] at this
    simpa using this
  have hs : Real.sqrt ((q : ℝ) * 1000000) = Real.sqrt (q : ℝ) * 1000 := by
    rw [Real.sqrt_mul hq']
    have : Real.sqrt (1000000 : ℝ) = 1000 := by
      rw [show (1000000 : ℝ) = 1000 ^ 2 by norm_num]
      exact Real.sqrt_sq (by norm_num)
    rw [this]
  have hk1 : ((Nat.sqrt (⌊q * 1000000⌋).toNat : Nat) : ℝ) ^ 2 ≤
      (((⌊q * 1000000⌋).toNat : Nat) : ℝ) := by
    exact_mod_cast Nat.sqrt_le' _
  have hk2 : (((⌊q * 1000000⌋).toNat : Nat) : ℝ) + 1 ≤
      (((Nat.sqrt (⌊q * 1000000⌋).toNat : Nat) : ℝ) + 1) ^ 2 := by
    have := Nat.lt_succ_sqrt' (⌊q * 1000000⌋).toNat
    have h2 : (⌊q * 1000000⌋).toNat + 1 ≤ ((Nat.sqrt (⌊q * 1000000⌋).toNat) + 1) ^ 2 := this
    exact_mod_cast h2
  symm
  rw [Int.floor_eq_iff]
  constructor
  · rw [← hs]
    have : ((Nat.sqrt (⌊q * 1000000⌋).toNat : Nat) : ℝ) =
        Real.sqrt (((Nat.sqrt (⌊q * 1000000⌋).toNat : Nat) : ℝ) ^ 2) :=
      (Real.sqrt_sq (Nat.cast_nonneg _)).symm
    push_cast
    rw [this]
    apply Real.sqrt_le_sqrt
    rw [hmr] at hk1
    exact le_trans hk1 hle
  · rw [← hs]
    have : (((Nat.sqrt (⌊q * 1000000⌋).toNat : Nat) : ℝ) + 1) =
        Real.sqrt ((((Nat.sqrt (⌊q * 1000000⌋).toNat : Nat) : ℝ) + 1) ^ 2) :=
      (Real.sqrt_sq (by positivity)).symm
    push_cast
    rw [this]
    apply Real.sqrt_lt_sqrt (by positivity)
    rw [hmr] at hk2
    linarith

/-- The triplet computed, in the exact arithmetic of the embedding, for channel
`ch` of a chunk of at least one frame whose samples lie in `[-1, 1]`: the
greatest and the least sample of that channel in the chunk and the root of the
mean of their squares, each times 1000 and truncated. Neither the previous
contents `old` of the float array nor the samples of the other channels enter
the result. -/
theorem channel_triplet_chunk (env : Env) (frames : List (List ℚ)) (rest old : List ℚ)
    (n ch : Nat) (bps8 bl sz : Int) (hne : frames ≠ []) (hlen : ∀ f ∈ frames, f.length = n)
    (hch : ch < n) (hb : 0 < bps8) (hsz0 : 0 ≤ sz) (hbl : sz ≤ bl)
    (hfr : Int.tdiv sz ((n : Int) * bps8) = (frames.length : Int))
    (hrange : ∀ f ∈ frames, ∀ x ∈ f, -1 ≤ x ∧ x ≤ 1) :
    ∃ mx ∈ frames.map (fun f => f.getD ch 0), ∃ mn ∈ frames.map (fun f => f.getD ch 0),
      (∀ x ∈ frames.map (fun f => f.getD ch 0), mn ≤ x ∧ x ≤ mx) ∧
      channel_triplet env (pcm_convert old (frames.flatten ++ rest)) n bl sz
          ((n : Int) * bps8) ch =
        (trunc (mx * 1000), trunc (mn * 1000),
          ⌊Real.sqrt ((((frames.map (fun f => f.getD ch 0)).map (fun x => x * x)).sum /
            (frames.map (fun f => f.getD ch 0)).length : ℚ) : ℝ) * 1000⌋) ∧
      -1000 ≤ trunc (mx * 1000) ∧ trunc (mx * 1000) ≤ 1000 ∧
      -1000 ≤ trunc (mn * 1000) ∧ trunc (mn * 1000) ≤ 1000 := by
  have hxr : ∀ x ∈ frames.map (fun f => f.getD ch 0), -1 ≤ x ∧ x ≤ 1 := by
    intro x hx
    obtain ⟨f, hf, rfl⟩ := List.mem_map.mp hx
    have hcf : ch < f.length := by rw [hlen f hf]; exact hch
    have : f.getD ch 0 = f[ch] := by
      rw [List.getD_eq_getElem?_getD, List.getElem?_eq_getElem hcf]; rfl
    rw [this]
    exact hrange f hf _ (List.getElem_mem _)
  have hxne : frames.map (fun f => f.getD ch 0) ≠ [] := by
    simpa using hne
  have hxl : (frames.map (fun f => f.getD ch 0)).length = frames.length := List.length_map _ _
  have hLpos : 0 < frames.length := List.length_pos.mpr hne
  have hnpos : (0 : Int) < n := by exact_mod_cast (by omega : 0 < n)
  have hss : (0 : Int) < (n : Int) * bps8 := Int.mul_pos hnpos hb
  have hdiv : Int.tdiv sz ((n : Int) * bps8) =
      ((frames.map (fun f => f.getD ch 0)).length : Int) := by
    rw [hfr, hxl]
  have hfull : (frames.length : Int) * ((n : Int) * bps8) ≤ sz := by
    have := Int.ediv_mul_le sz (ne_of_gt hss)
    rwa [← Int.tdiv_eq_ediv hsz0 (le_of_lt hss), hfr] at this
  have hcat : pcm_convert old (frames.flatten ++ rest) =
      frames.flatten ++ (rest ++ old.drop (frames.flatten ++ rest).length) := by
    unfold pcm_convert
    rw [List.append_assoc]
  have hloop := sample_loop_eq (pcm_convert old (frames.flatten ++ rest)) n bl ch
    (frames.map (fun f => f.getD ch 0))
    (by
      intro i hi
      rw [hxl] at hi
      rw [hcat]
      exact flatten_getD n ch hch frames _ i hlen hi)
    (by
      intro i hi
      rw [hxl] at hi
      have h1 : (i : Int) < frames.length := by exact_mod_cast hi
      have h2 : (i : Int) * (n : Int) ≤ (i : Int) * ((n : Int) * bps8) := by
        have : (0 : Int) ≤ (i : Int) * (n : Int) := by positivity
        nlinarith
      have h3 : (i : Int) * ((n : Int) * bps8) ≤ (frames.length : Int) * ((n : Int) * bps8) := by
        nlinarith
      omega)
    (frames.map (fun f => f.getD ch 0)).length { min := 1, max := -1, rms := 0, sample := 0 }
    (by simp)
  obtain ⟨hmx1, hmx2⟩ := foldl_MAX_mem _ hxne (fun x hx => (hxr x hx).1)
  obtain ⟨hmn1, hmn2⟩ := foldl_MIN_mem _ hxne (fun x hx => (hxr x hx).2)
  obtain ⟨hs1, hs2⟩ := sum_squares_bounds _ hxr
  have hLq : (0 : ℚ) < ((frames.map (fun f => f.getD ch 0)).length : ℚ) := by
    rw [hxl]; exact_mod_cast hLpos
  have hq0 : (0 : ℚ) ≤ ((frames.map (fun f => f.getD ch 0)).map (fun x => x * x)).sum /
      ((frames.map (fun f => f.getD ch 0)).length : ℚ) := div_nonneg hs1 (le_of_lt hLq)
  have hq1 : ((frames.map (fun f => f.getD ch 0)).map (fun x => x * x)).sum /
      ((frames.map (fun f => f.getD ch 0)).length : ℚ) ≤ 1 := by
    rw [div_le_one hLq]; exact hs2
  obtain ⟨tmx, bmx1, bmx2⟩ := to_short_scaled _ (hxr _ hmx1).1 (hxr _ hmx1).2
  obtain ⟨tmn, bmn1, bmn2⟩ := to_short_scaled _ (hxr _ hmn1).1 (hxr _ hmn1).2
  refine ⟨_, hmx1, _, hmn1, fun x hx => ⟨hmn2 x hx, hmx2 x hx⟩, ?_, bmx1, bmx2, bmn1, bmn2⟩
  have hcell := sqrt_cell _ hq0
  have hroot : Nat.sqrt (⌊((frames.map (fun f => f.getD ch 0)).map (fun x => x * x)).sum /
      ((frames.map (fun f => f.getD ch 0)).length : ℚ) * 1000000⌋).toNat ≤ 1000 := by
    have h1 : ⌊((frames.map (fun f => f.getD ch 0)).map (fun x => x * x)).sum /
        ((frames.map (fun f => f.getD ch 0)).length : ℚ) * 1000000⌋ ≤ 1000000 := by
      have := Int.floor_le (((frames.map (fun f => f.getD ch 0)).map (fun x => x * x)).sum /
        ((frames.map (fun f => f.getD ch 0)).length : ℚ) * 1000000)
      have h2 : ((⌊((frames.map (fun f => f.getD ch 0)).map (fun x => x * x)).sum /
        ((frames.map (fun f => f.getD ch 0)).length : ℚ) * 1000000⌋ : Int) : ℚ) ≤ 1000000 := by
        linarith
      exact_mod_cast h2
    have h3 : (⌊((frames.map (fun f => f.getD ch 0)).map (fun x => x * x)).sum /
        ((frames.map (fun f => f.getD ch 0)).length : ℚ) * 1000000⌋).toNat ≤ 1000 ^ 2 := by
      omega
    calc _ ≤ Nat.sqrt (1000 ^ 2) := Nat.sqrt_le_sqrt h3
      _ = 1000 := Nat.sqrt_eq' 1000
  simp only [channel_triplet]
  rw [hdiv, Int.toNat_natCast, hloop]
  simp only [List.drop_zero, zero_add]
  rw [if_neg (by rw [hxl]; omega), tmx, tmn]
  simp only [short_of_sqrt_times_1000]
  rw [wrap_short_id _ (by omega) (by omega), hcell]

/-! ## What the decode loop leaves alone -/

theorem publish_step_frame (env : Env) (it : DB_playItem_t) (fmt : ddb_waveformat_t) (u : Int)
    (s : LoopState) :
    (publish_step env it fmt u s).W.queue = s.W.queue ∧
    (publish_step env it fmt u s).W.cache = s.W.cache ∧
    (publish_step env it fmt u s).W.max_buffer_len = s.W.max_buffer_len ∧
    s.W.polls ≤ (publish_step env it fmt u s).W.polls ∧
    ∃ evs, (publish_step env it fmt u s).W.log = s.W.log ++ evs ∧
      ∀ e ∈ evs, e = Event.redraw := by
  by_cases hu : s.update_counter = u
  · cases hp : env.playing s.W.polls with
    | none =>
      refine ⟨?_, ?_, ?_, ?_, [], ?_, by simp⟩ <;>
        simp [publish_step, hu, hp, streamer_get_playing_track, World.emit]
    | some p =>
      by_cases ha : p.addr = it.addr
      · refine ⟨?_, ?_, ?_, ?_, [Event.redraw], ?_, by simp⟩ <;>
          simp [publish_step, hu, hp, ha, streamer_get_playing_track, World.emit]
      · refine ⟨?_, ?_, ?_, ?_, [], ?_, by simp⟩ <;>
          simp [publish_step, hu, hp, ha, streamer_get_playing_track, World.emit]
  · refine ⟨?_, ?_, ?_, ?_, [], ?_, by simp⟩ <;>
      simp [publish_step, hu, streamer_get_playing_track, World.emit]

/-- The publish block leaves the shared buffer alone when the query it may make
does not find the summarized track playing. -/
theorem publish_step_wave (env : Env) (it : DB_playItem_t) (fmt : ddb_waveformat_t) (u : Int)
    (s : LoopState) (h : ∀ p, env.playing s.W.polls = some p → p.addr ≠ it.addr) :
    (publish_step env it fmt u s).W.wave = s.W.wave := by
  unfold publish_step
  by_cases hu : s.update_counter = u
  · simp only [hu, if_true, streamer_get_playing_track]
    cases hp : env.playing s.W.polls with
    | none => rfl
    | some p =>
      have ha : ¬ p.addr = it.addr := h p hp
      simp only [ha, if_false]
  · simp only [hu, if_false]

theorem chunk_step_frame (env : Env) (it : DB_playItem_t) (fmt : ddb_waveformat_t)
    (ss bl u : Int) (r : ReadResult) (s : LoopState) :
    (chunk_step env it fmt ss bl u r s).W.queue = s.W.queue ∧
    (chunk_step env it fmt ss bl u r s).W.cache = s.W.cache ∧
    (chunk_step env it fmt ss bl u r s).W.max_buffer_len = s.W.max_buffer_len ∧
    s.W.polls ≤ (chunk_step env it fmt ss bl u r s).W.polls ∧
    ∃ evs, (chunk_step env it fmt ss bl u r s).W.log = s.W.log ++ evs ∧
      ∀ e ∈ evs, e = Event.redraw := by
  unfold chunk_step
  exact publish_step_frame env it fmt u _

theorem chunk_step_wave (env : Env) (it : DB_playItem_t) (fmt : ddb_waveformat_t)
    (ss bl u : Int) (r : ReadResult) (s : LoopState)
    (h : ∀ p, env.playing s.W.polls = some p → p.addr ≠ it.addr) :
    (chunk_step env it fmt ss bl u r s).W.wave = s.W.wave := by
  unfold chunk_step
  exact publish_step_wave env it fmt u _ h

theorem after_read_W (s : LoopState) :
    (after_read s).W.queue = s.W.queue ∧ (after_read s).W.cache = s.W.cache ∧
    (after_read s).W.max_buffer_len = s.W.max_buffer_len ∧
    (after_read s).W.polls = s.W.polls ∧ (after_read s).W.wave = s.W.wave ∧
    (after_read s).W.log = s.W.log ++ [Event.dec_read s.reads] :=
  ⟨rfl, rfl, rfl, rfl, rfl, rfl⟩

/-- The decode loop, when it ends, has left the in-flight tracker, the cache and
the capacity alone and has added reads and redraw requests to the trace only. -/
theorem wave_loop_frame (env : Env) (it : DB_playItem_t) (dec : DB_decoder_t)
    (fmt : ddb_waveformat_t) (ss bl u : Int) :
    ∀ (fuel : Nat) (s s' : LoopState), wave_loop env it dec fmt ss bl u fuel s = some s' →
    s'.W.queue = s.W.queue ∧ s'.W.cache = s.W.cache ∧
    s'.W.max_buffer_len = s.W.max_buffer_len ∧ s.W.polls ≤ s'.W.polls ∧
    ∃ evs, s'.W.log = s.W.log ++ evs ∧ ∀ e ∈ evs, loop_event e = true := by
  intro fuel
  induction fuel with
  | zero => intro s s' h; simp [wave_loop] at h
  | succ fuel ih =>
    intro s s' h
    simp only [wave_loop] at h
    obtain ⟨a1, a2, a3, a4, a5, a6⟩ := after_read_W s
    by_cases h1 : (dec.read it s.reads bl).sz ≠ bl
    · rw [if_pos h1] at h
      have hs := Option.some.inj h
      obtain ⟨c1, c2, c3, c4, evs, c5, c6⟩ :=
        chunk_step_frame env it fmt ss bl u (dec.read it s.reads bl) (after_read s)
      rw [← hs]
      refine ⟨by rw [c1, a1], by rw [c2, a2], by rw [c3, a3], by rw [← a4]; exact c4,
        Event.dec_read s.reads :: evs, by rw [c5, a6]; simp, ?_⟩
      intro e he
      rcases List.mem_cons.mp he with he | he
      · rw [he]; rfl
      · rw [c6 e he]; rfl
    · rw [if_neg h1] at h
      by_cases h2 : (dec.read it s.reads bl).sz = 0
      · rw [if_pos h2] at h
        have hs := Option.some.inj h
        rw [← hs]
        refine ⟨a1, a2, a3, le_of_eq a4.symm, [Event.dec_read s.reads], a6, ?_⟩
        intro e he
        rw [List.mem_singleton.mp he]; rfl
      · rw [if_neg h2] at h
        obtain ⟨c1, c2, c3, c4, evs, c5, c6⟩ :=
          chunk_step_frame env it fmt ss bl u (dec.read it s.reads bl) (after_read s)
        obtain ⟨d1, d2, d3, d4, evs2, d5, d6⟩ := ih _ s' h
        refine ⟨by rw [d1, c1, a1], by rw [d2, c2, a2], by rw [d3, c3, a3],
          by rw [← a4]; exact le_trans c4 d4,
          Event.dec_read s.reads :: (evs ++ evs2), by rw [d5, c5, a6]; simp, ?_⟩
        intro e he
        rcases List.mem_cons.mp he with he | he
        · rw [he]; rfl
        · rcases List.mem_append.mp he with he | he
          · rw [c6 e he]; rfl
          · exact d6 e he

/-- The decode loop ends within the fuel when one of the next `fuel` reads
returns another length than the one asked for. -/
theorem wave_loop_terminates (env : Env) (it : DB_playItem_t) (dec : DB_decoder_t)
    (fmt : ddb_waveformat_t) (ss bl u : Int) :
    ∀ (k : Nat) (s : LoopState) (fuel : Nat), k < fuel →
    (dec.read it (s.reads + k) bl).sz ≠ bl →
    ∃ s', wave_loop env it dec fmt ss bl u fuel s = some s' := by
  intro k
  induction k with
  | zero =>
    intro s fuel hf hk
    obtain ⟨f, rfl⟩ : ∃ f, fuel = f + 1 := ⟨fuel - 1, by omega⟩
    simp only [Nat.add_zero] at hk
    simp only [wave_loop]
    rw [if_pos hk]
    exact ⟨_, rfl⟩
  | succ k ih =>
    intro s fuel hf hk
    obtain ⟨f, rfl⟩ : ∃ f, fuel = f + 1 := ⟨fuel - 1, by omega⟩
    simp only [wave_loop]
    by_cases h1 : (dec.read it s.reads bl).sz ≠ bl
    · rw [if_pos h1]; exact ⟨_, rfl⟩
    · rw [if_neg h1]
      by_cases h2 : (dec.read it s.reads bl).sz = 0
      · rw [if_pos h2]; exact ⟨_, rfl⟩
      · rw [if_neg h2]
        apply ih _ f (by omega)
        rw [chunk_step_reads, after_read_reads]
        rwa [show s.reads + 1 + k = s.reads + (k + 1) by omega]

/-- The decode loop leaves the shared buffer alone when no query from its start
on finds the summarized track playing. -/
theorem wave_loop_wave (env : Env) (it : DB_playItem_t) (dec : DB_decoder_t)
    (fmt : ddb_waveformat_t) (ss bl u : Int) (n0 : Nat)
    (hnot : ∀ n, n0 ≤ n → ∀ p, env.playing n = some p → p.addr ≠ it.addr) :
    ∀ (fuel : Nat) (s s' : LoopState), n0 ≤ s.W.polls →
    wave_loop env it dec fmt ss bl u fuel s = some s' → s'.W.wave = s.W.wave := by
  intro fuel
  induction fuel with
  | zero => intro s s' _ h; simp [wave_loop] at h
  | succ fuel ih =>
    intro s s' hn h
    simp only [wave_loop] at h
    obtain ⟨_, _, _, a4, a5, _⟩ := after_read_W s
    have hw := chunk_step_wave env it fmt ss bl u (dec.read it s.reads bl) (after_read s)
      (by rw [a4]; exact hnot _ hn)
    by_cases h1 : (dec.read it s.reads bl).sz ≠ bl
    · rw [if_pos h1] at h
      rw [← Option.some.inj h, hw, a5]
    · rw [if_neg h1] at h
      by_cases h2 : (dec.read it s.reads bl).sz = 0
      · rw [if_pos h2] at h
        rw [← Option.some.inj h, a5]
      · rw [if_neg h2] at h
        obtain ⟨_, _, _, c4, _⟩ :=
          chunk_step_frame env it fmt ss bl u (dec.read it s.reads bl) (after_read s)
        rw [ih _ s' (by rw [a4] at c4; exact le_trans hn c4) h, hw, a5]

/-! ## The ways the summarizer ends -/

/-- The three ways `waveform_generate_wavedata` proceeds: it gives up before
touching the shared buffer (no decoder, no `open`, no `fileinfo`, failed `init`,
duration not positive); it resets the shared buffer and gives up on an
allocation failure; or it resets the shared buffer and runs the decode loop. -/
theorem generate_cases (env : Env) (fuel : Nat) (W : World) (it : DB_playItem_t) (uri : CStr)
    (wavedata : wavedata_t) :
    ((find_decoder env it = none ∨
        (∃ dec, find_decoder env it = some dec ∧
          (dec.has_open = false ∨ dec.open_ok = false ∨ dec.init it ≠ 0)) ∨
        it.duration ≤ 0) ∧
      waveform_generate_wavedata env fuel W it uri wavedata =
        some (W.emit (Event.generate it.addr), { wavedata with data_len := 0, channels := 0 })) ∨
    (∃ dec, find_decoder env it = some dec ∧ dec.has_open = true ∧ dec.open_ok = true ∧
      dec.init it = 0 ∧ 0 < it.duration ∧
      (env.malloc_data = false ∨ env.malloc_buffer = false) ∧
      waveform_generate_wavedata env fuel W it uri wavedata =
        some (reset_shared env (dec.fmt it) (W.emit (Event.generate it.addr)),
          { wavedata with data_len := 0, channels := 0 })) ∨
    (∃ dec, find_decoder env it = some dec ∧ dec.has_open = true ∧ dec.open_ok = true ∧
      dec.init it = 0 ∧ 0 < it.duration ∧ env.malloc_data = true ∧ env.malloc_buffer = true ∧
      waveform_generate_wavedata env fuel W it uri wavedata =
        (wave_loop env it dec (dec.fmt it) (samplesize (dec.fmt it))
          (buffer_len env it (dec.fmt it)) (update_after_nsamples env it) fuel
          (loop_entry env it (dec.fmt it)
            (reset_shared env (dec.fmt it) (W.emit (Event.generate it.addr)))
            { wavedata with data_len := 0, channels := 0 })).map
          (fun s => (s.W, { data := s.out, fname := it.uri, data_len := (s.counter : Int),
                            channels := (dec.fmt it).channels }))) := by
  cases hd : find_decoder env it with
  | none =>
    left
    exact ⟨Or.inl rfl, by simp [waveform_generate_wavedata, hd]⟩
  | some dec =>
    by_cases ho : dec.has_open = true
    · by_cases hok : dec.open_ok = true
      · by_cases hi : dec.init it = 0
        · by_cases hdur : it.duration ≤ 0
          · left
            exact ⟨Or.inr (Or.inr hdur),
              by simp [waveform_generate_wavedata, hd, ho, hok, hi, hdur]⟩
          · have hpos : 0 < it.duration := not_le.mp hdur
            by_cases hm1 : env.malloc_data = true
            · by_cases hm2 : env.malloc_buffer = true
              · right; right
                refine ⟨dec, rfl, ho, hok, hi, hpos, hm1, hm2, ?_⟩
                simp only [waveform_generate_wavedata, hd, ho, hok, hi, hdur, hm1, hm2]
                simp only [loop_entry]
                cases wave_loop env it dec (dec.fmt it) (samplesize (dec.fmt it))
                  (buffer_len env it (dec.fmt it)) (update_after_nsamples env it) fuel _ <;> simp
              · right; left
                refine ⟨dec, rfl, ho, hok, hi, hpos, Or.inr (by simpa using hm2), ?_⟩
                simp [waveform_generate_wavedata, hd, ho, hok, hi, hdur, hm1, hm2]
            · right; left
              refine ⟨dec, rfl, ho, hok, hi, hpos, Or.inl (by simpa using hm1), ?_⟩
              simp [waveform_generate_wavedata, hd, ho, hok, hi, hdur, hm1]
        · left
          exact ⟨Or.inr (Or.inl ⟨dec, rfl, Or.inr (Or.inr hi)⟩),
            by simp [waveform_generate_wavedata, hd, ho, hok, hi]⟩
      · left
        exact ⟨Or.inr (Or.inl ⟨dec, rfl, Or.inr (Or.inl (by simpa using hok))⟩),
          by simp [waveform_generate_wavedata, hd, ho, hok]⟩
    · left
      exact ⟨Or.inr (Or.inl ⟨dec, rfl, Or.inl (by simpa using ho)⟩),
        by simp [waveform_generate_wavedata, hd, ho]⟩

/-- The summarizer gives up without touching the shared buffer, the tracker or
the cache, and without a read, when no decoder is found, the decoder has no
`open`, `open` yields no `fileinfo`, `init` fails, or the duration is not
positive. -/
theorem generate_gives_up (env : Env) (fuel : Nat) (W : World) (it : DB_playItem_t)
    (uri : CStr) (wavedata : wavedata_t)
    (h : find_decoder env it = none ∨
      (∃ dec, find_decoder env it = some dec ∧
        (dec.has_open = false ∨ dec.open_ok = false ∨ dec.init it ≠ 0)) ∨
      it.duration ≤ 0) :
    waveform_generate_wavedata env fuel W it uri wavedata =
      some (W.emit (Event.generate it.addr), { wavedata with data_len := 0, channels := 0 }) := by
  rcases generate_cases env fuel W it uri wavedata with ⟨_, h1⟩ | ⟨dec, hd, ho, hok, hi, hdur, _⟩ |
    ⟨dec, hd, ho, hok, hi, hdur, _⟩
  · exact h1
  · exfalso
    rcases h with h | ⟨d, hd2, h⟩ | h
    · rw [h] at hd; exact Option.noConfusion hd
    · rw [hd] at hd2
      have := Option.some.inj hd2
      subst this
      rcases h with h | h | h
      · rw [ho] at h; exact Bool.noConfusion h
      · rw [hok] at h; exact Bool.noConfusion h
      · exact h hi
    · exact absurd hdur (not_lt.mpr h)
  · exfalso
    rcases h with h | ⟨d, hd2, h⟩ | h
    · rw [h] at hd; exact Option.noConfusion hd
    · rw [hd] at hd2
      have := Option.some.inj hd2
      subst this
      rcases h with h | h | h
      · rw [ho] at h; exact Bool.noConfusion h
      · rw [hok] at h; exact Bool.noConfusion h
      · exact h hi
    · exact absurd hdur (not_lt.mpr h)

theorem filterMap_loop_events {β : Type} (f : Event → Option β)
    (hf : ∀ e, loop_event e = true → (∀ n, e ≠ Event.dec_read n) → f e = none)
    (hr : ∀ n, f (Event.dec_read n) = none) (evs : List Event)
    (h : ∀ e ∈ evs, loop_event e = true) : evs.filterMap f = [] := by
  rw [List.filterMap_eq_nil_iff]
  intro e he
  by_cases hd : ∃ n, e = Event.dec_read n
  · obtain ⟨n, rfl⟩ := hd
    exact hr n
  · exact hf e (h e he) (fun n hn => hd ⟨n, hn⟩)

theorem loop_events_no_generate (evs : List Event) (h : ∀ e ∈ evs, loop_event e = true) :
    generate_events evs = [] := by
  apply filterMap_loop_events _ _ _ evs h
  · intro e he _
    cases e <;> simp_all [loop_event]
  · intro n; rfl

theorem loop_events_no_queue_pop (evs : List Event) (h : ∀ e ∈ evs, loop_event e = true) :
    queue_pop_events evs = [] := by
  apply filterMap_loop_events _ _ _ evs h
  · intro e he _
    cases e <;> simp_all [loop_event]
  · intro n; rfl

theorem loop_events_no_queue_add (evs : List Event) (h : ∀ e ∈ evs, loop_event e = true) :
    queue_add_events evs = [] := by
  apply filterMap_loop_events _ _ _ evs h
  · intro e he _
    cases e <;> simp_all [loop_event]
  · intro n; rfl

theorem loop_events_no_write (evs : List Event) (h : ∀ e ∈ evs, loop_event e = true) :
    write_events evs = [] := by
  apply filterMap_loop_events _ _ _ evs h
  · intro e he _
    cases e <;> simp_all [loop_event]
  · intro n; rfl

/-- Whenever the summarizer returns, it has left the in-flight tracker, the cache
and the capacity alone, and has added to the trace the mark of its run followed
by reads and redraw requests only. -/
theorem generate_frame (env : Env) (fuel : Nat) (W : World) (it : DB_playItem_t) (uri : CStr)
    (wavedata : wavedata_t) (r : World × wavedata_t)
    (h : waveform_generate_wavedata env fuel W it uri wavedata = some r) :
    r.1.queue = W.queue ∧ r.1.cache = W.cache ∧ r.1.max_buffer_len = W.max_buffer_len ∧
    W.polls ≤ r.1.polls ∧
    ∃ evs, r.1.log = W.log ++ Event.generate it.addr :: evs ∧
      ∀ e ∈ evs, loop_event e = true := by
  rcases generate_cases env fuel W it uri wavedata with ⟨_, h1⟩ | ⟨dec, _, _, _, _, _, _, h1⟩ |
    ⟨dec, _, _, _, _, _, _, _, h1⟩
  · rw [h1] at h
    rw [← Option.some.inj h]
    exact ⟨rfl, rfl, rfl, le_refl _, [], rfl, by simp⟩
  · rw [h1] at h
    rw [← Option.some.inj h]
    exact ⟨rfl, rfl, rfl, le_refl _, [], rfl, by simp⟩
  · rw [h1] at h
    cases hl : wave_loop env it dec (dec.fmt it) (samplesize (dec.fmt it))
        (buffer_len env it (dec.fmt it)) (update_after_nsamples env it) fuel
        (loop_entry env it (dec.fmt it)
          (reset_shared env (dec.fmt it) (W.emit (Event.generate it.addr)))
          { wavedata with data_len := 0, channels := 0 }) with
    | none => rw [hl] at h; exact Option.noConfusion h
    | some s =>
      rw [hl] at h
      have hr := Option.some.inj h
      obtain ⟨f1, f2, f3, f4, evs, f5, f6⟩ := wave_loop_frame _ _ _ _ _ _ _ _ _ _ hl
      rw [← hr]
      exact ⟨f1, f2, f3, f4, evs, by rw [f5]; simp [loop_entry, reset_shared, World.emit], f6⟩

/-- The summarizer returns when, in case it reaches the decode loop, one of the
first `fuel` reads returns another length than the one asked for. -/
theorem generate_terminates (env : Env) (fuel : Nat) (W : World) (it : DB_playItem_t)
    (uri : CStr) (wavedata : wavedata_t)
    (hterm : ∀ dec, find_decoder env it = some dec → dec.has_open = true →
      dec.open_ok = true → dec.init it = 0 → 0 < it.duration → env.malloc_data = true →
      env.malloc_buffer = true →
      ∃ k, k < fuel ∧ (dec.read it k (buffer_len env it (dec.fmt it))).sz ≠
        buffer_len env it (dec.fmt it)) :
    ∃ r, waveform_generate_wavedata env fuel W it uri wavedata = some r := by
  rcases generate_cases env fuel W it uri wavedata with ⟨_, h1⟩ | ⟨dec, _, _, _, _, _, _, h1⟩ |
    ⟨dec, hd, ho, hok, hi, hdur, hm1, hm2, h1⟩
  · exact ⟨_, h1⟩
  · exact ⟨_, h1⟩
  · obtain ⟨k, hk, hshort⟩ := hterm dec hd ho hok hi hdur hm1 hm2
    obtain ⟨s, hs⟩ := wave_loop_terminates env it dec (dec.fmt it) (samplesize (dec.fmt it))
      (buffer_len env it (dec.fmt it)) (update_after_nsamples env it) k
      (loop_entry env it (dec.fmt it)
        (reset_shared env (dec.fmt it) (W.emit (Event.generate it.addr)))
        { wavedata with data_len := 0, channels := 0 }) fuel hk
      (by simpa [loop_entry] using hshort)
    rw [h1, hs]
    exact ⟨_, rfl⟩

/-! ## Reads and cells of a run that ends on a short read -/

theorem read_events_append (a b : List Event) :
    read_events (a ++ b) = read_events a ++ read_events b := by
  simp [read_events, List.filterMap_append]

theorem read_events_redraw (evs : List Event) (h : ∀ e ∈ evs, e = Event.redraw) :
    read_events evs = [] := by
  unfold read_events
  rw [List.filterMap_eq_nil_iff]
  intro e he
  rw [h e he]

theorem chunk_step_read_events (env : Env) (it : DB_playItem_t) (fmt : ddb_waveformat_t)
    (ss bl u : Int) (r : ReadResult) (s : LoopState) :
    read_events (chunk_step env it fmt ss bl u r s).W.log = read_events s.W.log := by
  obtain ⟨_, _, _, _, evs, h1, h2⟩ := chunk_step_frame env it fmt ss bl u r s
  rw [h1, read_events_append, read_events_redraw evs h2, List.append_nil]

theorem after_read_read_events (s : LoopState) :
    read_events (after_read s).W.log = read_events s.W.log ++ [s.reads] := by
  rw [(after_read_W s).2.2.2.2.2, read_events_append]
  rfl

theorem run_chunks_read_events (env : Env) (it : DB_playItem_t) (dec : DB_decoder_t)
    (fmt : ddb_waveformat_t) (ss bl u : Int) : ∀ (k : Nat) (s : LoopState),
    read_events (run_chunks env it dec fmt ss bl u k s).W.log =
      read_events s.W.log ++ List.range' s.reads k := by
  intro k
  induction k with
  | zero => intro s; simp [run_chunks]
  | succ k ih =>
    intro s
    simp only [run_chunks]
    rw [ih, chunk_step_read_events, after_read_read_events, chunk_step_reads, after_read_reads,
      List.append_assoc]
    congr 1

/-- The summarizer under the conditions of `generate_run`: the reads made are
the calls number 0 to `k`, in order, and no other. -/
theorem generate_reads (env : Env) (fuel : Nat) (W : World) (it : DB_playItem_t) (uri : CStr)
    (wavedata : wavedata_t) (dec : DB_decoder_t) (k : Nat)
    (hdec : find_decoder env it = some dec) (ho : dec.has_open = true)
    (hok : dec.open_ok = true) (hinit : dec.init it = 0) (hdur : 0 < it.duration)
    (hm1 : env.malloc_data = true) (hm2 : env.malloc_buffer = true)
    (hbl : buffer_len env it (dec.fmt it) ≠ 0)
    (hfull : ∀ j, j < k →
      (dec.read it j (buffer_len env it (dec.fmt it))).sz = buffer_len env it (dec.fmt it))
    (hshort :
      (dec.read it k (buffer_len env it (dec.fmt it))).sz ≠ buffer_len env it (dec.fmt it))
    (hfuel : k < fuel) :
    ∃ r, waveform_generate_wavedata env fuel W it uri wavedata = some r ∧
      read_events r.1.log = read_events W.log ++ List.range (k + 1) := by
  obtain ⟨s, hs, hgen⟩ := generate_run env fuel W it uri wavedata dec k hdec ho hok hinit hdur
    hm1 hm2 hbl hfull hshort hfuel
  refine ⟨_, hgen, ?_⟩
  show read_events s.W.log = _
  rw [hs, chunk_step_read_events, after_read_read_events, run_chunks_read_events,
    run_chunks_reads]
  have h0 : (loop_entry env it (dec.fmt it)
      (reset_shared env (dec.fmt it) (W.emit (Event.generate it.addr)))
      { wavedata with data_len := 0, channels := 0 }).reads = 0 := rfl
  have hl : read_events (loop_entry env it (dec.fmt it)
      (reset_shared env (dec.fmt it) (W.emit (Event.generate it.addr)))
      { wavedata with data_len := 0, channels := 0 }).W.log = read_events W.log := by
    show read_events (W.log ++ [Event.generate it.addr]) = read_events W.log
    rw [read_events_append]
    simp [read_events]
  rw [h0, hl, Nat.zero_add, List.append_assoc]
  congr 1
  rw [List.range_eq_range', List.range'_concat]
  simp

/-- The summarizer under the conditions of `generate_run`: the cells stored for
the last read are the triplet of that chunk, computed on the float array into
which the chunk was converted. -/
theorem generate_last_cells (env : Env) (fuel : Nat) (W : World) (it : DB_playItem_t)
    (uri : CStr) (wavedata : wavedata_t) (dec : DB_decoder_t) (k ch : Nat)
    (hdec : find_decoder env it = some dec) (ho : dec.has_open = true)
    (hok : dec.open_ok = true) (hinit : dec.init it = 0) (hdur : 0 < it.duration)
    (hm1 : env.malloc_data = true) (hm2 : env.malloc_buffer = true)
    (hbl : buffer_len env it (dec.fmt it) ≠ 0)
    (hfull : ∀ j, j < k →
      (dec.read it j (buffer_len env it (dec.fmt it))).sz = buffer_len env it (dec.fmt it))
    (hshort :
      (dec.read it k (buffer_len env it (dec.fmt it))).sz ≠ buffer_len env it (dec.fmt it))
    (hfuel : k < fuel) (hch : ch < (dec.fmt it).channels.toNat)
    (hcap : 3 * (dec.fmt it).channels.toNat * (k + 1) ≤ wavedata.data.length) :
    ∃ r old, waveform_generate_wavedata env fuel W it uri wavedata = some r ∧
      r.2.data[3 * (dec.fmt it).channels.toNat * k + 3 * ch]? =
        some (channel_triplet env
          (pcm_convert old (dec.read it k (buffer_len env it (dec.fmt it))).pcm)
          (dec.fmt it).channels (buffer_len env it (dec.fmt it))
          (dec.read it k (buffer_len env it (dec.fmt it))).sz (samplesize (dec.fmt it)) ch).1 ∧
      r.2.data[3 * (dec.fmt it).channels.toNat * k + 3 * ch + 1]? =
        some (channel_triplet env
          (pcm_convert old (dec.read it k (buffer_len env it (dec.fmt it))).pcm)
          (dec.fmt it).channels (buffer_len env it (dec.fmt it))
          (dec.read it k (buffer_len env it (dec.fmt it))).sz (samplesize (dec.fmt it)) ch).2.1 ∧
      r.2.data[3 * (dec.fmt it).channels.toNat * k + 3 * ch + 2]? =
        some (channel_triplet env
          (pcm_convert old (dec.read it k (buffer_len env it (dec.fmt it))).pcm)
          (dec.fmt it).channels (buffer_len env it (dec.fmt it))
          (dec.read it k (buffer_len env it (dec.fmt it))).sz (samplesize (dec.fmt it)) ch).2.2 := by
  obtain ⟨s, hs, hgen⟩ := generate_run env fuel W it uri wavedata dec k hdec ho hok hinit hdur
    hm1 hm2 hbl hfull hshort hfuel
  have hc0 : (loop_entry env it (dec.fmt it)
      (reset_shared env (dec.fmt it) (W.emit (Event.generate it.addr)))
      { wavedata with data_len := 0, channels := 0 }).counter = 0 := rfl
  have hl0 : (loop_entry env it (dec.fmt it)
      (reset_shared env (dec.fmt it) (W.emit (Event.generate it.addr)))
      { wavedata with data_len := 0, channels := 0 }).out = wavedata.data := rfl
  have hwt := write_triplets_get_in env
    (pcm_convert (after_read (run_chunks env it dec (dec.fmt it) (samplesize (dec.fmt it))
          (buffer_len env it (dec.fmt it)) (update_after_nsamples env it) k
          (loop_entry env it (dec.fmt it)
            (reset_shared env (dec.fmt it) (W.emit (Event.generate it.addr)))
            { wavedata with data_len := 0, channels := 0 }))).data
        (dec.read it k (buffer_len env it (dec.fmt it))).pcm)
    (dec.fmt it).channels (buffer_len env it (dec.fmt it))
    (dec.read it k (buffer_len env it (dec.fmt it))).sz (samplesize (dec.fmt it))
    (run_chunks env it dec (dec.fmt it) (samplesize (dec.fmt it))
          (buffer_len env it (dec.fmt it)) (update_after_nsamples env it) k
          (loop_entry env it (dec.fmt it)
            (reset_shared env (dec.fmt it) (W.emit (Event.generate it.addr)))
            { wavedata with data_len := 0, channels := 0 })).out
    (3 * (dec.fmt it).channels.toNat * k) ch hch
    (by
      rw [run_chunks_out_length, hl0]
      have : 3 * (dec.fmt it).channels.toNat * (k + 1) =
          3 * (dec.fmt it).channels.toNat * k + 3 * (dec.fmt it).channels.toNat := by ring
      omega)
  have hout : s.out = (write_triplets env
      (pcm_convert (after_read (run_chunks env it dec (dec.fmt it) (samplesize (dec.fmt it))
          (buffer_len env it (dec.fmt it)) (update_after_nsamples env it) k
          (loop_entry env it (dec.fmt it)
            (reset_shared env (dec.fmt it) (W.emit (Event.generate it.addr)))
            { wavedata with data_len := 0, channels := 0 }))).data
        (dec.read it k (buffer_len env it (dec.fmt it))).pcm)
      (dec.fmt it).channels (buffer_len env it (dec.fmt it))
      (dec.read it k (buffer_len env it (dec.fmt it))).sz (samplesize (dec.fmt it))
      (run_chunks env it dec (dec.fmt it) (samplesize (dec.fmt it))
          (buffer_len env it (dec.fmt it)) (update_after_nsamples env it) k
          (loop_entry env it (dec.fmt it)
            (reset_shared env (dec.fmt it) (W.emit (Event.generate it.addr)))
            { wavedata with data_len := 0, channels := 0 })).out
      (3 * (dec.fmt it).channels.toNat * k)).1 := by
    rw [hs, chunk_step_out, after_read_counter, after_read_out, run_chunks_counter, hc0,
      Nat.zero_add]
  rw [← hout] at hwt
  exact ⟨_, _, hgen, hwt.1, hwt.2.1, hwt.2.2⟩

/-! ## A run that ends on a short read (C12) and a run on a track without length (C13) -/

/-- C12: when the decoder opens and initialises, the duration is positive, both
allocations succeed, the first `k` reads return the full length asked for (which
is not 0) and the read after them returns another length (possibly 0), the
summarizer makes exactly these `k + 1` reads and returns; the last chunk
contributes its triplet for every channel, the summary has the channel count of
the decoded format and `data_len` is 3 cells per channel for each of the
`k + 1` reads. -/
theorem short_read_ends_run (env : Env) (fuel : Nat) (W : World) (it : DB_playItem_t)
    (uri : CStr) (wavedata : wavedata_t) (dec : DB_decoder_t) (k : Nat)
    (hdec : find_decoder env it = some dec) (ho : dec.has_open = true)
    (hok : dec.open_ok = true) (hinit : dec.init it = 0) (hdur : 0 < it.duration)
    (hm1 : env.malloc_data = true) (hm2 : env.malloc_buffer = true)
    (hchan : 0 ≤ (dec.fmt it).channels)
    (hbl : buffer_len env it (dec.fmt it) ≠ 0)
    (hfull : ∀ j, j < k →
      (dec.read it j (buffer_len env it (dec.fmt it))).sz = buffer_len env it (dec.fmt it))
    (hshort :
      (dec.read it k (buffer_len env it (dec.fmt it))).sz ≠ buffer_len env it (dec.fmt it))
    (hfuel : k < fuel)
    (hcap : 3 * (dec.fmt it).channels.toNat * (k + 1) ≤ wavedata.data.length) :
    ∃ r, waveform_generate_wavedata env fuel W it uri wavedata = some r ∧
      read_events r.1.log = read_events W.log ++ List.range (k + 1) ∧
      r.2.channels = (dec.fmt it).channels ∧
      r.2.data_len = 3 * (dec.fmt it).channels * ((k : Int) + 1) ∧
      ∀ ch, ch < (dec.fmt it).channels.toNat → ∃ old,
        r.2.data[3 * (dec.fmt it).channels.toNat * k + 3 * ch]? =
          some (channel_triplet env
            (pcm_convert old (dec.read it k (buffer_len env it (dec.fmt it))).pcm)
            (dec.fmt it).channels (buffer_len env it (dec.fmt it))
            (dec.read it k (buffer_len env it (dec.fmt it))).sz
            (samplesize (dec.fmt it)) ch).1 ∧
        r.2.data[3 * (dec.fmt it).channels.toNat * k + 3 * ch + 1]? =
          some (channel_triplet env
            (pcm_convert old (dec.read it k (buffer_len env it (dec.fmt it))).pcm)
            (dec.fmt it).channels (buffer_len env it (dec.fmt it))
            (dec.read it k (buffer_len env it (dec.fmt it))).sz
            (samplesize (dec.fmt it)) ch).2.1 ∧
        r.2.data[3 * (dec.fmt it).channels.toNat * k + 3 * ch + 2]? =
          some (channel_triplet env
            (pcm_convert old (dec.read it k (buffer_len env it (dec.fmt it))).pcm)
            (dec.fmt it).channels (buffer_len env it (dec.fmt it))
            (dec.read it k (buffer_len env it (dec.fmt it))).sz
            (samplesize (dec.fmt it)) ch).2.2 := by
  obtain ⟨r, hgen, hreads⟩ := generate_reads env fuel W it uri wavedata dec k hdec ho hok hinit
    hdur hm1 hm2 hbl hfull hshort hfuel
  obtain ⟨r2, hgen2, hlen, hch⟩ := generate_count env fuel W it uri wavedata dec k hdec ho hok
    hinit hdur hm1 hm2 hbl hfull hshort hfuel
  have e2 : r2 = r := Option.some.inj (hgen2.symm.trans hgen)
  subst e2
  refine ⟨r2, hgen, hreads, hch, ?_, ?_⟩
  · rw [hlen]
    push_cast
    rw [Int.toNat_of_nonneg hchan]
  · intro ch hc
    obtain ⟨r3, old, hgen3, c1, c2, c3⟩ := generate_last_cells env fuel W it uri wavedata dec k
      ch hdec ho hok hinit hdur hm1 hm2 hbl hfull hshort hfuel hc hcap
    have e3 : r3 = r2 := Option.some.inj (hgen3.symm.trans hgen)
    subst e3
    exact ⟨old, c1, c2, c3⟩

/-- C13: for a track whose duration is zero or negative the summarizer returns,
whatever the fuel, a summary with `data_len = 0` and `channels = 0`; it makes no
read and leaves the shared buffer as it was. -/
theorem nonpositive_duration_aborts (env : Env) (fuel : Nat) (W : World) (it : DB_playItem_t)
    (uri : CStr) (wavedata : wavedata_t) (hdur : it.duration ≤ 0) :
    ∃ r, waveform_generate_wavedata env fuel W it uri wavedata = some r ∧
      r.2.data_len = 0 ∧ r.2.channels = 0 ∧ read_events r.1.log = read_events W.log ∧
      r.1.wave = W.wave := by
  refine ⟨_, generate_gives_up env fuel W it uri wavedata (Or.inr (Or.inr hdur)), rfl, rfl, ?_,
    rfl⟩
  show read_events (W.log ++ [Event.generate it.addr]) = read_events W.log
  rw [read_events_append]
  simp [read_events]

/-- C13 at a concrete input: a track of duration 0 and no fuel. -/
theorem nonpositive_duration_aborts_witness :
    ∃ r, waveform_generate_wavedata host_8k 0 busy_world (track 0 none 0) ['/', 'a']
        fresh_wavedata = some r ∧
      r.2.data_len = 0 ∧ r.2.channels = 0 ∧ read_events r.1.log = read_events busy_world.log ∧
      r.1.wave = busy_world.wave :=
  nonpositive_duration_aborts host_8k 0 busy_world (track 0 none 0) ['/', 'a'] fresh_wavedata
    (by simp [track])

/-- C12 at a concrete input: the 10-second mono track at 8000 Hz, whose decoder
returns 2000 full chunks and then no bytes. -/
theorem short_read_ends_run_witness :
    ∃ r, waveform_generate_wavedata host_8k 4096 (init_world []) track_8k ['/', 'a']
        fresh_wavedata = some r ∧
      read_events r.1.log = read_events (init_world []).log ++ List.range (2000 + 1) ∧
      r.2.channels = 1 ∧ r.2.data_len = 3 * 1 * ((2000 : Int) + 1) := by
  have hb := buffer_len_8k
  have hfmt : (const_decoder ['d'] ⟨16, 1, 8000⟩ 80000 1).fmt track_8k = ⟨16, 1, 8000⟩ := rfl
  have hss : samplesize ⟨16, 1, 8000⟩ = 2 := by decide
  obtain ⟨r, h1, h2, h3, h4, _⟩ := short_read_ends_run host_8k 4096 (init_world []) track_8k
    ['/', 'a'] fresh_wavedata (const_decoder ['d'] ⟨16, 1, 8000⟩ 80000 1) 2000
    rfl rfl rfl rfl (by norm_num [track_8k, track]) rfl rfl (by decide)
    (by rw [hfmt, hb]; decide)
    (by
      intro j hj
      rw [hfmt, hb, const_decoder_sz, hss]
      have : (j : Int) < 2000 := by exact_mod_cast hj
      omega)
    (by
      rw [hfmt, hb, const_decoder_sz, hss]
      decide)
    (by norm_num)
    (by
      have : fresh_wavedata.data.length = 147456 := List.length_replicate _ _
      rw [this]
      decide)
  exact ⟨r, h1, h2, h3, h4⟩

/-! ## The order of the cells (C11) -/

theorem buffer_len_short_file : buffer_len host_short_file track_8k ⟨16, 2, 44100⟩ = 864 := by
  have h1 : (⌊(10 : ℚ) * ((44100 : Int) : ℚ)⌋ : Int) = 441000 := by
    rw [Int.floor_eq_iff]; norm_num
  have h2 : (⌈((441000 : Int) : ℚ) / ((2048 : Int) : ℚ)⌉ : Int) = 216 := by
    rw [Int.ceil_eq_iff]; norm_num
  simp only [buffer_len, samples_per_buf, nsamples_per_channel, samplesize, bytes_per_sample,
    host_short_file, host_8k, track_8k, host, track, h1, h2]
  decide

/-- C11, at the failing input: for a stereo file of two frames whose channel 1
holds the samples -1/4 and 3/4, the triplet of bucket 0 and channel 1 starts at
index 3; the cell at index 3 holds 750, the maximum, and the cell at index 4
holds -250, the minimum: the stored order is (max, min, RMS). -/
theorem cells_hold_max_first :
    ∃ r, waveform_generate_wavedata host_short_file 4096 (init_world []) track_8k ['/', 'a']
        fresh_wavedata = some r ∧
      r.2.channels = 2 ∧ r.2.data[3 * (0 * 2 + 1)]? = some 750 ∧
      r.2.data[3 * (0 * 2 + 1) + 1]? = some (-250) := by
  have hb := buffer_len_short_file
  have hfmt : short_file_decoder.fmt track_8k = ⟨16, 2, 44100⟩ := rfl
  obtain ⟨r, old, hgen, c1, c2, _⟩ := generate_last_cells host_short_file 4096 (init_world [])
    track_8k ['/', 'a'] fresh_wavedata short_file_decoder 0 1
    rfl rfl rfl rfl (by norm_num [track_8k, track]) rfl rfl
    (by rw [hfmt, hb]; decide)
    (by intro j hj; omega)
    (by rw [hfmt, hb]; decide)
    (by norm_num) (by decide)
    (by
      have : fresh_wavedata.data.length = 147456 := List.length_replicate _ _
      rw [this]
      decide)
  obtain ⟨mx, hmx, mn, hmn, hall, htrip, _⟩ :=
    channel_triplet_chunk host_short_file two_frames [] old 2 1 2 864 8 (by simp [two_frames])
      (by simp [two_frames]) (by decide) (by decide) (by decide) (by decide) (by decide)
      (by simp [two_frames]; norm_num)
  have hxs : two_frames.map (fun f => f.getD 1 0) = [-1 / 4, 3 / 4] := by
    simp [two_frames]
  rw [hxs] at hmx hmn hall
  have hmx' : mx = 3 / 4 := by
    have h1 := (hall (3 / 4) (by simp)).2
    simp only [List.mem_cons, List.mem_singleton, List.not_mem_nil, or_false] at hmx
    rcases hmx with h | h
    · rw [h] at h1; norm_num at h1
    · exact h
  have hmn' : mn = -1 / 4 := by
    have h1 := (hall (-1 / 4) (by simp)).1
    simp only [List.mem_cons, List.mem_singleton, List.not_mem_nil, or_false] at hmn
    rcases hmn with h | h
    · exact h
    · rw [h] at h1; norm_num at h1
  have t1 : trunc (3 / 4 * 1000) = 750 := by
    have h : (0 : ℚ) ≤ 3 / 4 * 1000 := by norm_num
    have hf : ⌊(3 / 4 * 1000 : ℚ)⌋ = 750 := by rw [Int.floor_eq_iff]; norm_num
    simp only [trunc, if_pos h, hf]
  have t2 : trunc (-1 / 4 * 1000) = -250 := by
    have h : ¬ (0 : ℚ) ≤ -1 / 4 * 1000 := by norm_num
    have hf : ⌈(-1 / 4 * 1000 : ℚ)⌉ = -250 := by rw [Int.ceil_eq_iff]; norm_num
    simp only [trunc, if_neg h, hf]
  rw [hmx', hmn', t1, t2] at htrip
  have hpcm : (short_file_decoder.read track_8k 0
      (buffer_len host_short_file track_8k (short_file_decoder.fmt track_8k))).pcm =
      two_frames.flatten ++ [] := rfl
  have hsz : (short_file_decoder.read track_8k 0
      (buffer_len host_short_file track_8k (short_file_decoder.fmt track_8k))).sz = 8 := rfl
  have hss : samplesize ⟨16, 2, 44100⟩ = ((2 : Nat) : Int) * 2 := by decide
  rw [hpcm, hsz, hfmt, hb, hss] at c1 c2
  have hch : (⟨16, 2, 44100⟩ : ddb_waveformat_t).channels = ((2 : Nat) : Int) := rfl
  rw [hch, htrip] at c1 c2
  obtain ⟨r2, hgen2, _, hch2⟩ := generate_count host_short_file 4096 (init_world [])
    track_8k ['/', 'a'] fresh_wavedata short_file_decoder 0
    rfl rfl rfl rfl (by norm_num [track_8k, track]) rfl rfl
    (by rw [hfmt, hb]; decide)
    (by intro j hj; omega)
    (by rw [hfmt, hb]; decide)
    (by norm_num)
  have e2 : r2 = r := Option.some.inj (hgen2.symm.trans hgen)
  subst e2
  exact ⟨r2, hgen, hch2, c1, c2⟩

/-! ## The worker around the summarizer -/

theorem format_uri_some (it : DB_playItem_t) (uri : CStr) :
    ∃ key, waveform_format_uri (some it) (some uri) = some key := by
  simp only [waveform_format_uri]
  split <;> exact ⟨_, rfl⟩

/-- What `waveform_db_cache` does: nothing when the summary has no file name,
one cache write under the key of the track otherwise. -/
theorem db_cache_frame (W : World) (it : DB_playItem_t) (wavedata : wavedata_t) :
    (waveform_db_cache W it wavedata).wave = W.wave ∧
    (waveform_db_cache W it wavedata).queue = W.queue ∧
    (waveform_db_cache W it wavedata).polls = W.polls ∧
    (waveform_db_cache W it wavedata).max_buffer_len = W.max_buffer_len ∧
    ((waveform_format_uri (some it) wavedata.fname = none ∧
        waveform_db_cache W it wavedata = W) ∨
      (∃ key, waveform_format_uri (some it) wavedata.fname = some key ∧
        (waveform_db_cache W it wavedata).log =
          W.log ++ [Event.db_write key (wavedata.data_len * sizeof_short) wavedata.channels] ∧
        (waveform_db_cache W it wavedata).cache =
          (key, { channels := wavedata.channels,
                  data := wavedata.data.take
                    ((wavedata.data_len * sizeof_short).toNat / sizeof_short) }) ::
            W.cache.filter (fun e => e.1 ≠ key))) := by
  unfold waveform_db_cache
  cases h : waveform_format_uri (some it) wavedata.fname with
  | none => exact ⟨rfl, rfl, rfl, rfl, Or.inl ⟨rfl, rfl⟩⟩
  | some key => exact ⟨rfl, rfl, rfl, rfl, Or.inr ⟨key, rfl, rfl, rfl⟩⟩

theorem summarize_admitted_eq (env : Env) (fuel : Nat) (W : World) (it : DB_playItem_t)
    (uri : CStr) :
    summarize_admitted env fuel W it uri =
      (waveform_generate_wavedata env fuel W it uri
        { data := List.replicate W.max_buffer_len 0, data_len := 0, channels := 0,
          fname := none }).map (fun r => finish_admitted env r.1 it uri r.2) := by
  cases hg : waveform_generate_wavedata env fuel W it uri
      { data := List.replicate W.max_buffer_len 0, data_len := 0, channels := 0,
        fname := none } with
  | none => simp [summarize_admitted, hg]
  | some r =>
    obtain ⟨W1, wd⟩ := r
    simp only [summarize_admitted, hg, Option.map_some', finish_admitted, final_copy]
    cases hp : (streamer_get_playing_track env
        (queue_pop (if env.conf.CONFIG_CACHE_ENABLED ≠ 0 then waveform_db_cache W1 it wd else W1)
          uri)).1 with
    | none => rfl
    | some p =>
      by_cases ha : it.addr = p.addr
      · simp [ha]
      · simp [ha]

/-- The final query and copy: the tracker, the cache and the capacity stay, one
query is made, the trace gains at most a redraw request, and the shared buffer
receives the summary exactly when the query finds the track playing. -/
theorem final_copy_frame (env : Env) (W3 : World) (it : DB_playItem_t)
    (wavedata : wavedata_t) :
    (final_copy env W3 it wavedata).queue = W3.queue ∧
    (final_copy env W3 it wavedata).cache = W3.cache ∧
    (final_copy env W3 it wavedata).max_buffer_len = W3.max_buffer_len ∧
    (final_copy env W3 it wavedata).polls = W3.polls + 1 ∧
    (∃ fin, (final_copy env W3 it wavedata).log = W3.log ++ fin ∧
      (fin = [] ∨ fin = [Event.redraw])) ∧
    ((∃ p, env.playing W3.polls = some p ∧ it.addr = p.addr) →
      (final_copy env W3 it wavedata).wave =
        { W3.wave with
          data := memcpy W3.wave.data wavedata.data wavedata.data_len.toNat
          data_len := wavedata.data_len
          channels := wavedata.channels }) ∧
    (¬ (∃ p, env.playing W3.polls = some p ∧ it.addr = p.addr) →
      (final_copy env W3 it wavedata).wave = W3.wave) := by
  cases hp : env.playing W3.polls with
  | none =>
    have e : final_copy env W3 it wavedata = { W3 with polls := W3.polls + 1 } := by
      simp [final_copy, streamer_get_playing_track, hp]
    rw [e]
    exact ⟨rfl, rfl, rfl, rfl, ⟨[], by simp, Or.inl rfl⟩, by simp, fun _ => rfl⟩
  | some p =>
    by_cases ha : it.addr = p.addr
    · have e : final_copy env W3 it wavedata =
          ({ W3 with
            polls := W3.polls + 1
            wave := { W3.wave with
              data := memcpy W3.wave.data wavedata.data wavedata.data_len.toNat
              data_len := wavedata.data_len
              channels := wavedata.channels } }).emit Event.redraw := by
        simp [final_copy, streamer_get_playing_track, hp, ha]
      rw [e]
      refine ⟨rfl, rfl, rfl, rfl, ⟨[Event.redraw], rfl, Or.inr rfl⟩, fun _ => rfl, ?_⟩
      intro hn
      exact absurd ⟨p, rfl, ha⟩ hn
    · have e : final_copy env W3 it wavedata = { W3 with polls := W3.polls + 1 } := by
        simp [final_copy, streamer_get_playing_track, hp, ha]
      rw [e]
      refine ⟨rfl, rfl, rfl, rfl, ⟨[], by simp, Or.inl rfl⟩, ?_, fun _ => rfl⟩
      rintro ⟨q, hq, hqa⟩
      have := Option.some.inj hq
      subst this
      exact absurd hqa ha

/-- The steps after the summarizer: `queue_pop` is called once, after the cache
write if there is one; the shared buffer receives the summary exactly when the
final query finds the track playing. -/
theorem finish_admitted_frame (env : Env) (W1 : World) (it : DB_playItem_t) (uri : CStr)
    (wavedata : wavedata_t) :
    (finish_admitted env W1 it uri wavedata).queue = W1.queue.filter (fun k => k ≠ uri) ∧
    (finish_admitted env W1 it uri wavedata).max_buffer_len = W1.max_buffer_len ∧
    (finish_admitted env W1 it uri wavedata).polls = W1.polls + 1 ∧
    (∃ cw fin, (finish_admitted env W1 it uri wavedata).log =
        W1.log ++ cw ++ Event.queue_pop uri :: fin ∧
      (fin = [] ∨ fin = [Event.redraw]) ∧
      ((cw = [] ∧ (finish_admitted env W1 it uri wavedata).cache = W1.cache ∧
          (env.conf.CONFIG_CACHE_ENABLED = 0 ∨
            waveform_format_uri (some it) wavedata.fname = none)) ∨
        (∃ key, env.conf.CONFIG_CACHE_ENABLED ≠ 0 ∧
          waveform_format_uri (some it) wavedata.fname = some key ∧
          cw = [Event.db_write key (wavedata.data_len * sizeof_short) wavedata.channels] ∧
          (finish_admitted env W1 it uri wavedata).cache =
            (key, { channels := wavedata.channels,
                    data := wavedata.data.take
                      ((wavedata.data_len * sizeof_short).toNat / sizeof_short) }) ::
              W1.cache.filter (fun e => e.1 ≠ key)))) ∧
    ((∃ p, env.playing W1.polls = some p ∧ it.addr = p.addr) →
      (finish_admitted env W1 it uri wavedata).wave =
        { W1.wave with
          data := memcpy W1.wave.data wavedata.data wavedata.data_len.toNat
          data_len := wavedata.data_len
          channels := wavedata.channels }) ∧
    (¬ (∃ p, env.playing W1.polls = some p ∧ it.addr = p.addr) →
      (finish_admitted env W1 it uri wavedata).wave = W1.wave) := by
  have hgen : ∀ W2 : World, W2.wave = W1.wave → W2.polls = W1.polls → W2.queue = W1.queue →
      W2.max_buffer_len = W1.max_buffer_len →
      (final_copy env (queue_pop W2 uri) it wavedata).queue =
        W1.queue.filter (fun k => k ≠ uri) ∧
      (final_copy env (queue_pop W2 uri) it wavedata).max_buffer_len = W1.max_buffer_len ∧
      (final_copy env (queue_pop W2 uri) it wavedata).polls = W1.polls + 1 ∧
      (final_copy env (queue_pop W2 uri) it wavedata).cache = W2.cache ∧
      (∃ fin, (final_copy env (queue_pop W2 uri) it wavedata).log =
          W2.log ++ Event.queue_pop uri :: fin ∧ (fin = [] ∨ fin = [Event.redraw])) ∧
      ((∃ p, env.playing W1.polls = some p ∧ it.addr = p.addr) →
        (final_copy env (queue_pop W2 uri) it wavedata).wave =
          { W1.wave with
            data := memcpy W1.wave.data wavedata.data wavedata.data_len.toNat
            data_len := wavedata.data_len
            channels := wavedata.channels }) ∧
      (¬ (∃ p, env.playing W1.polls = some p ∧ it.addr = p.addr) →
        (final_copy env (queue_pop W2 uri) it wavedata).wave = W1.wave) := by
    intro W2 hw hp hq hm
    obtain ⟨c1, c2, c3, c4, ⟨fin, c5, c6⟩, c7, c8⟩ :=
      final_copy_frame env (queue_pop W2 uri) it wavedata
    have q1 : (queue_pop W2 uri).queue = W1.queue.filter (fun k => k ≠ uri) := by
      simp [queue_pop, World.emit, hq]
    have q2 : (queue_pop W2 uri).polls = W1.polls := by simp [queue_pop, World.emit, hp]
    have q3 : (queue_pop W2 uri).wave = W1.wave := by simp [queue_pop, World.emit, hw]
    have q4 : (queue_pop W2 uri).log = W2.log ++ [Event.queue_pop uri] := rfl
    have q5 : (queue_pop W2 uri).cache = W2.cache := rfl
    have q6 : (queue_pop W2 uri).max_buffer_len = W1.max_buffer_len := by
      simp [queue_pop, World.emit, hm]
    rw [q2, q3] at c7 c8
    refine ⟨by rw [c1, q1], by rw [c3, q6], by rw [c4, q2], by rw [c2, q5],
      ⟨fin, by rw [c5, q4]; simp, c6⟩, c7, c8⟩
  unfold finish_admitted
  by_cases hc : env.conf.CONFIG_CACHE_ENABLED ≠ 0
  · have e : (if env.conf.CONFIG_CACHE_ENABLED ≠ 0 then waveform_db_cache W1 it wavedata
        else W1) = waveform_db_cache W1 it wavedata := if_pos hc
    rw [e]
    obtain ⟨f1, f2, f3, f4, f5⟩ := db_cache_frame W1 it wavedata
    obtain ⟨g1, g2, g3, g4, ⟨fin, g5, g6⟩, g7, g8⟩ := hgen _ f1 f3 f2 f4
    refine ⟨g1, g2, g3, ?_, g7, g8⟩
    rcases f5 with ⟨hn, hW⟩ | ⟨key, hk, hlog, hcache⟩
    · refine ⟨[], fin, by rw [g5, hW]; simp, g6, Or.inl ⟨rfl, by rw [g4, hW], Or.inr hn⟩⟩
    · refine ⟨_, fin, by rw [g5, hlog], g6, Or.inr ⟨key, hc, hk, rfl, by rw [g4, hcache]⟩⟩
  · have e : (if env.conf.CONFIG_CACHE_ENABLED ≠ 0 then waveform_db_cache W1 it wavedata
        else W1) = W1 := if_neg hc
    rw [e]
    obtain ⟨g1, g2, g3, g4, ⟨fin, g5, g6⟩, g7, g8⟩ := hgen W1 rfl rfl rfl rfl
    refine ⟨g1, g2, g3, ⟨[], fin, by rw [g5]; simp, g6,
      Or.inl ⟨rfl, g4, Or.inl (by simpa using hc)⟩⟩, g7, g8⟩

theorem is_cached_frame (W : World) (it : DB_playItem_t) (uri : CStr) :
    (waveform_is_cached W (some it) (some uri)).2.wave = W.wave ∧
    (waveform_is_cached W (some it) (some uri)).2.cache = W.cache ∧
    (waveform_is_cached W (some it) (some uri)).2.queue = W.queue ∧
    (waveform_is_cached W (some it) (some uri)).2.polls = W.polls ∧
    (waveform_is_cached W (some it) (some uri)).2.max_buffer_len = W.max_buffer_len ∧
    ∃ key, waveform_format_uri (some it) (some uri) = some key ∧
      (waveform_is_cached W (some it) (some uri)).2.log = W.log ++ [Event.db_cached key] ∧
      (waveform_is_cached W (some it) (some uri)).1 =
        if (W.cache.lookup key).isSome then 1 else 0 := by
  obtain ⟨key, hk⟩ := format_uri_some it uri
  have e : waveform_is_cached W (some it) (some uri) =
      (if (W.cache.lookup key).isSome then 1 else 0, W.emit (Event.db_cached key)) := by
    unfold waveform_is_cached
    rw [hk]
    rfl
  rw [e]
  exact ⟨rfl, rfl, rfl, rfl, rfl, key, hk, rfl, rfl⟩

/-- The result of the cache lookup depends on the cache only. -/
theorem is_cached_fst (W W2 : World) (it : DB_playItem_t) (uri : CStr)
    (h : W2.cache = W.cache) :
    (waveform_is_cached W2 (some it) (some uri)).1 =
      (waveform_is_cached W (some it) (some uri)).1 := by
  obtain ⟨_, _, _, _, _, key, hk, _, h1⟩ := is_cached_frame W it uri
  obtain ⟨_, _, _, _, _, key2, hk2, _, h2⟩ := is_cached_frame W2 it uri
  rw [hk] at hk2
  have := Option.some.inj hk2
  subst this
  rw [h1, h2, h]

/-- The state in which the admitted block starts, or in which the worker stops
when `queue_add` refuses: the shared buffer and the cache are as before, one
query has been made, and the trace holds the cache lookup, if caching is
enabled, followed by the `queue_add` call with the URI. -/
theorem admitted_world_frame (env : Env) (W : World) (it : DB_playItem_t) (uri : CStr) :
    (admitted_world env W it uri).wave = W.wave ∧
    (admitted_world env W it uri).cache = W.cache ∧
    (admitted_world env W it uri).max_buffer_len = W.max_buffer_len ∧
    (admitted_world env W it uri).polls = W.polls + 1 ∧
    ∃ pre, ((pre = [] ∧ env.conf.CONFIG_CACHE_ENABLED = 0) ∨
        (∃ key, waveform_format_uri (some it) (some uri) = some key ∧
          env.conf.CONFIG_CACHE_ENABLED ≠ 0 ∧ pre = [Event.db_cached key])) ∧
      (uri ∉ W.queue → (admitted_world env W it uri).queue = uri :: W.queue ∧
        (admitted_world env W it uri).log = W.log ++ pre ++ [Event.queue_add uri true]) ∧
      (uri ∈ W.queue → (admitted_world env W it uri).queue = W.queue ∧
        (admitted_world env W it uri).log = W.log ++ pre ++ [Event.queue_add uri false]) := by
  have hq : ∀ Wc : World, Wc.wave = W.wave → Wc.cache = W.cache →
      Wc.max_buffer_len = W.max_buffer_len → Wc.polls = W.polls + 1 → Wc.queue = W.queue →
      (queue_add Wc uri).2.wave = W.wave ∧ (queue_add Wc uri).2.cache = W.cache ∧
      (queue_add Wc uri).2.max_buffer_len = W.max_buffer_len ∧
      (queue_add Wc uri).2.polls = W.polls + 1 ∧
      (uri ∉ W.queue → (queue_add Wc uri).2.queue = uri :: W.queue ∧
        (queue_add Wc uri).2.log = Wc.log ++ [Event.queue_add uri true]) ∧
      (uri ∈ W.queue → (queue_add Wc uri).2.queue = W.queue ∧
        (queue_add Wc uri).2.log = Wc.log ++ [Event.queue_add uri false]) := by
    intro Wc h1 h2 h3 h4 h5
    by_cases hin : uri ∈ W.queue
    · have hin2 : uri ∈ Wc.queue := by rw [h5]; exact hin
      have e : queue_add Wc uri = (false, Wc.emit (Event.queue_add uri false)) := by
        unfold queue_add
        rw [if_pos hin2]
      rw [e]
      exact ⟨h1, h2, h3, h4, fun h => absurd hin h, fun _ => ⟨h5, rfl⟩⟩
    · have hin2 : ¬ uri ∈ Wc.queue := by rw [h5]; exact hin
      have e : queue_add Wc uri =
          (true, { Wc.emit (Event.queue_add uri true) with queue := uri :: Wc.queue }) := by
        unfold queue_add
        rw [if_neg hin2]
      rw [e]
      exact ⟨h1, h2, h3, h4, fun _ => ⟨by rw [← h5], rfl⟩, fun h => absurd h hin⟩
  unfold admitted_world
  by_cases hc : env.conf.CONFIG_CACHE_ENABLED ≠ 0
  · rw [if_pos hc]
    obtain ⟨f1, f2, f3, f4, f5, key, hk, hlog, _⟩ :=
      is_cached_frame (streamer_get_playing_track env W).2 it uri
    obtain ⟨g1, g2, g3, g4, g5, g6⟩ := hq _ f1 f2 f5 f4 f3
    refine ⟨g1, g2, g3, g4, [Event.db_cached key], Or.inr ⟨key, hk, hc, rfl⟩, ?_, ?_⟩
    · intro h
      obtain ⟨a, b⟩ := g5 h
      exact ⟨a, by rw [b, hlog]; rfl⟩
    · intro h
      obtain ⟨a, b⟩ := g6 h
      exact ⟨a, by rw [b, hlog]; rfl⟩
  · rw [if_neg hc]
    obtain ⟨g1, g2, g3, g4, g5, g6⟩ :=
      hq (streamer_get_playing_track env W).2 rfl rfl rfl rfl rfl
    refine ⟨g1, g2, g3, g4, [], Or.inl ⟨rfl, by simpa using hc⟩, ?_, ?_⟩
    · intro h
      obtain ⟨a, b⟩ := g5 h
      exact ⟨a, by rw [b]; simp [streamer_get_playing_track]⟩
    · intro h
      obtain ⟨a, b⟩ := g6 h
      exact ⟨a, by rw [b]; simp [streamer_get_playing_track]⟩

/-- The worker on a valid playing track whose key is not found in the cache (or
with caching disabled) and whose URI is not in flight: it runs the admitted
block. -/
theorem get_wavedata_admitted (env : Env) (fuel : Nat) (W : World) (it : DB_playItem_t)
    (uri : CStr) (hp : env.playing W.polls = some it) (hu : it.uri = some uri)
    (hv : waveform_valid_track env it uri ≠ 0)
    (hmiss : env.conf.CONFIG_CACHE_ENABLED = 0 ∨
      (waveform_is_cached W (some it) (some uri)).1 = 0)
    (hq : uri ∉ W.queue) :
    waveform_get_wavedata env fuel W =
      summarize_admitted env fuel (admitted_world env W it uri) it uri := by
  have hq2 : ∀ Wc : World, Wc.queue = W.queue → (queue_add Wc uri).1 = true := by
    intro Wc h
    have : ¬ uri ∈ Wc.queue := by rw [h]; exact hq
    simp [queue_add, this]
  have hp1 : (streamer_get_playing_track env W).1 = some it := hp
  simp only [waveform_get_wavedata, hp1, hu, hv, not_false_eq_true, if_true, ne_eq]
  unfold admitted_world
  by_cases hc : env.conf.CONFIG_CACHE_ENABLED = 0
  · simp only [hc, not_true_eq_false, if_false, false_and, ne_eq]
    rw [if_pos (hq2 (streamer_get_playing_track env W).2 rfl)]
  · have h1 : (waveform_is_cached (streamer_get_playing_track env W).2 (some it) (some uri)).1 =
        0 := by
      rw [is_cached_fst W (streamer_get_playing_track env W).2 it uri rfl]
      rcases hmiss with h0 | h0
      · exact absurd h0 hc
      · exact h0
    simp only [hc, not_false_eq_true, if_true, true_and, ne_eq]
    rw [if_neg (not_not.mpr h1),
      if_pos (hq2 (waveform_is_cached (streamer_get_playing_track env W).2 (some it) (some uri)).2
        (is_cached_frame _ it uri).2.2.1)]

/-- The worker on a valid playing track whose key is not found in the cache (or
with caching disabled) and whose URI is in flight: it stops after the refused
`queue_add`. -/
theorem get_wavedata_blocked (env : Env) (fuel : Nat) (W : World) (it : DB_playItem_t)
    (uri : CStr) (hp : env.playing W.polls = some it) (hu : it.uri = some uri)
    (hv : waveform_valid_track env it uri ≠ 0)
    (hmiss : env.conf.CONFIG_CACHE_ENABLED = 0 ∨
      (waveform_is_cached W (some it) (some uri)).1 = 0)
    (hq : uri ∈ W.queue) :
    waveform_get_wavedata env fuel W = some (admitted_world env W it uri) := by
  have hq2 : ∀ Wc : World, Wc.queue = W.queue → (queue_add Wc uri).1 = false := by
    intro Wc h
    have : uri ∈ Wc.queue := by rw [h]; exact hq
    simp [queue_add, this]
  have hp1 : (streamer_get_playing_track env W).1 = some it := hp
  simp only [waveform_get_wavedata, hp1, hu, hv, not_false_eq_true, if_true, ne_eq]
  unfold admitted_world
  by_cases hc : env.conf.CONFIG_CACHE_ENABLED = 0
  · simp only [hc, not_true_eq_false, if_false, false_and, ne_eq]
    rw [if_neg (by rw [hq2 (streamer_get_playing_track env W).2 rfl]; simp)]
  · have h1 : (waveform_is_cached (streamer_get_playing_track env W).2 (some it) (some uri)).1 =
        0 := by
      rw [is_cached_fst W (streamer_get_playing_track env W).2 it uri rfl]
      rcases hmiss with h0 | h0
      · exact absurd h0 hc
      · exact h0
    simp only [hc, not_false_eq_true, if_true, true_and, ne_eq]
    rw [if_neg (not_not.mpr h1),
      if_neg (by
        rw [hq2 (waveform_is_cached (streamer_get_playing_track env W).2 (some it) (some uri)).2
          (is_cached_frame _ it uri).2.2.1]
        simp)]

/-! ## Runs that give up, and runs whose track is no longer playing (C14, C15) -/

theorem memcpy_zero (dst src : List Int) : memcpy dst src 0 = dst := by
  simp [memcpy]

theorem memset_zero_replicate (n : Nat) (a : Int) :
    memset_zero (List.replicate n a) n = List.replicate n 0 := by
  simp [memset_zero, List.drop_replicate]

/-- The worker on an admitted track for which the summarizer gives up before the
shared buffer is reset: the cells of the shared buffer, the cache and the
in-flight tracker end as they began; length and channel count of the shared
buffer become 0 when the final query finds the track playing and stay as they
were when it does not. -/
theorem worker_gives_up (env : Env) (fuel : Nat) (W : World) (it : DB_playItem_t)
    (uri : CStr) (hp : env.playing W.polls = some it) (hu : it.uri = some uri)
    (hv : waveform_valid_track env it uri ≠ 0)
    (hmiss : env.conf.CONFIG_CACHE_ENABLED = 0 ∨
      (waveform_is_cached W (some it) (some uri)).1 = 0)
    (hq : uri ∉ W.queue)
    (h : find_decoder env it = none ∨
      (∃ dec, find_decoder env it = some dec ∧
        (dec.has_open = false ∨ dec.open_ok = false ∨ dec.init it ≠ 0)) ∨
      it.duration ≤ 0) :
    ∃ W', waveform_get_wavedata env fuel W = some W' ∧ W'.wave.data = W.wave.data ∧
      W'.cache = W.cache ∧ W'.queue = W.queue ∧ write_events W'.log = write_events W.log ∧
      ((∃ p, env.playing (W.polls + 1) = some p ∧ it.addr = p.addr) →
        W'.wave.data_len = 0 ∧ W'.wave.channels = 0) ∧
      (¬ (∃ p, env.playing (W.polls + 1) = some p ∧ it.addr = p.addr) →
        W'.wave.data_len = W.wave.data_len ∧ W'.wave.channels = W.wave.channels) := by
  obtain ⟨a1, a2, _, a4, pre, apre, a5, _⟩ := admitted_world_frame env W it uri
  obtain ⟨a5q, a5l⟩ := a5 hq
  have hgen := generate_gives_up env fuel (admitted_world env W it uri) it uri
    { data := List.replicate (admitted_world env W it uri).max_buffer_len 0, data_len := 0,
      channels := 0, fname := none } h
  obtain ⟨f1, _, _, ⟨cw, fin, f4, f5, f6⟩, f7, f8⟩ := finish_admitted_frame env
    ((admitted_world env W it uri).emit (Event.generate it.addr)) it uri
    { data := List.replicate (admitted_world env W it uri).max_buffer_len 0, data_len := 0,
      channels := 0, fname := none }
  have hnone : waveform_format_uri (some it) (none : Option CStr) = none := rfl
  have hpolls : ((admitted_world env W it uri).emit (Event.generate it.addr)).polls =
      W.polls + 1 := a4
  have hwave : ((admitted_world env W it uri).emit (Event.generate it.addr)).wave = W.wave := a1
  rw [hpolls, hwave] at f7 f8
  refine ⟨_, by rw [get_wavedata_admitted env fuel W it uri hp hu hv hmiss hq,
    summarize_admitted_eq, hgen]; rfl, ?_, ?_, ?_, ?_, ?_, ?_⟩
  · by_cases hpl : ∃ p, env.playing (W.polls + 1) = some p ∧ it.addr = p.addr
    · rw [f7 hpl]
      show memcpy W.wave.data _ (0 : Int).toNat = W.wave.data
      exact memcpy_zero _ _
    · rw [f8 hpl]
  · rcases f6 with ⟨_, hc, _⟩ | ⟨key, _, hk, _⟩
    · rw [hc]; exact a2
    · rw [hnone] at hk; exact Option.noConfusion hk
  · rw [f1]
    show List.filter (fun k => decide (k ≠ uri)) (admitted_world env W it uri).queue = W.queue
    rw [a5q]
    have : ∀ k ∈ W.queue, decide (k ≠ uri) = true := by
      intro k hk
      have : k ≠ uri := fun e => hq (e ▸ hk)
      simpa using this
    have hne : ∀ a ∈ W.queue, ¬ a = uri := fun a ha e => hq (e ▸ ha)
    simpa [List.filter_cons] using hne
  · rcases f6 with ⟨hcw, _, _⟩ | ⟨key, _, hk, _⟩
    · rw [f4, hcw]
      show write_events ((admitted_world env W it uri).log ++ [Event.generate it.addr] ++ [] ++
        Event.queue_pop uri :: fin) = _
      rw [a5l]
      rcases apre with ⟨hpre, _⟩ | ⟨key, _, _, hpre⟩ <;> rcases f5 with hf | hf <;>
        simp [write_events, List.filterMap_append, hpre, hf]
    · rw [hnone] at hk; exact Option.noConfusion hk
  · intro hpl
    rw [f7 hpl]
    exact ⟨rfl, rfl⟩
  · intro hpl
    rw [f8 hpl]
    exact ⟨rfl, rfl⟩

/-- C14, counter-example: the shared buffer shows 12 cells on 2 channels; the
decoder fails to initialise for the playing track, which is still the playing
track at the final check; afterwards the shared buffer has length 0 and 0
channels. -/
theorem init_failure_clears_length :
    busy_world.wave.data_len = 12 ∧ busy_world.wave.channels = 2 ∧
    failing_decoder.init track_8k ≠ 0 ∧
    ∃ W', waveform_get_wavedata host_failing 4096 busy_world = some W' ∧
      W'.wave.data_len = 0 ∧ W'.wave.channels = 0 := by
  refine ⟨rfl, rfl, by decide, ?_⟩
  obtain ⟨W', h1, _, _, _, _, h2, _⟩ := worker_gives_up host_failing 4096 busy_world track_8k
    ['/', 'a'] rfl rfl
    (by simp [waveform_valid_track, host_failing, host_8k, host, track_8k, track])
    (Or.inr rfl) (by simp [busy_world])
    (Or.inr (Or.inl ⟨failing_decoder, rfl, Or.inr (Or.inr (by decide))⟩))
  exact ⟨W', h1, h2 ⟨track_8k, rfl, rfl⟩⟩

/-- C14, amended: when the decoder fails to initialise for the playing track
(valid, not served from the cache, admitted by `queue_add`), the worker returns
with the data cells of the shared buffer unchanged; its length and channel count
are unchanged when the track is no longer the playing track at the final check,
and are both set to 0 when it still is. -/
theorem init_failure_buffer (env : Env) (fuel : Nat) (W : World) (it : DB_playItem_t)
    (uri : CStr) (dec : DB_decoder_t) (hp : env.playing W.polls = some it)
    (hu : it.uri = some uri) (hv : waveform_valid_track env it uri ≠ 0)
    (hmiss : env.conf.CONFIG_CACHE_ENABLED = 0 ∨
      (waveform_is_cached W (some it) (some uri)).1 = 0)
    (hq : uri ∉ W.queue) (hdec : find_decoder env it = some dec)
    (hinit : dec.init it ≠ 0) :
    ∃ W', waveform_get_wavedata env fuel W = some W' ∧ W'.wave.data = W.wave.data ∧
      ((∃ p, env.playing (W.polls + 1) = some p ∧ it.addr = p.addr) →
        W'.wave.data_len = 0 ∧ W'.wave.channels = 0) ∧
      (¬ (∃ p, env.playing (W.polls + 1) = some p ∧ it.addr = p.addr) →
        W'.wave.data_len = W.wave.data_len ∧ W'.wave.channels = W.wave.channels) := by
  obtain ⟨W', h1, h2, _, _, _, h3, h4⟩ := worker_gives_up env fuel W it uri hp hu hv hmiss hq
    (Or.inr (Or.inl ⟨dec, hdec, Or.inr (Or.inr hinit)⟩))
  exact ⟨W', h1, h2, h3, h4⟩

/-- C14, amended, at a concrete input: the failing decoder on the playing track
with the shared buffer showing another summary. -/
theorem init_failure_buffer_witness :
    ∃ W', waveform_get_wavedata host_failing 4096 busy_world = some W' ∧
      W'.wave.data = busy_world.wave.data ∧
      ((∃ p, host_failing.playing (busy_world.polls + 1) = some p ∧ track_8k.addr = p.addr) →
        W'.wave.data_len = 0 ∧ W'.wave.channels = 0) ∧
      (¬ (∃ p, host_failing.playing (busy_world.polls + 1) = some p ∧
          track_8k.addr = p.addr) →
        W'.wave.data_len = busy_world.wave.data_len ∧
        W'.wave.channels = busy_world.wave.channels) :=
  init_failure_buffer host_failing 4096 busy_world track_8k ['/', 'a'] failing_decoder rfl rfl
    (by simp [waveform_valid_track, host_failing, host_8k, host, track_8k, track])
    (Or.inr rfl) (by simp [busy_world]) rfl (by decide)

/-- The worker on an admitted track whose decoder opens and initialises, with
both allocations succeeding and a short read within the fuel: the decode loop
ends in some state, and the worker finishes from it with the summary the loop
has written. -/
theorem worker_runs_loop (env : Env) (fuel : Nat) (W : World) (it : DB_playItem_t)
    (uri : CStr) (dec : DB_decoder_t) (hp : env.playing W.polls = some it)
    (hu : it.uri = some uri) (hv : waveform_valid_track env it uri ≠ 0)
    (hmiss : env.conf.CONFIG_CACHE_ENABLED = 0 ∨
      (waveform_is_cached W (some it) (some uri)).1 = 0)
    (hq : uri ∉ W.queue) (hdec : find_decoder env it = some dec)
    (ho : dec.has_open = true) (hok : dec.open_ok = true) (hinit : dec.init it = 0)
    (hdur : 0 < it.duration) (hm1 : env.malloc_data = true) (hm2 : env.malloc_buffer = true)
    (k : Nat) (hk : k < fuel)
    (hshort : (dec.read it k (buffer_len env it (dec.fmt it))).sz ≠
      buffer_len env it (dec.fmt it)) :
    ∃ s, wave_loop env it dec (dec.fmt it) (samplesize (dec.fmt it))
        (buffer_len env it (dec.fmt it)) (update_after_nsamples env it) fuel
        (loop_entry env it (dec.fmt it)
          (reset_shared env (dec.fmt it)
            ((admitted_world env W it uri).emit (Event.generate it.addr)))
          { data := List.replicate (admitted_world env W it uri).max_buffer_len 0,
            data_len := 0, channels := 0, fname := none }) = some s ∧
      waveform_generate_wavedata env fuel (admitted_world env W it uri) it uri
        { data := List.replicate (admitted_world env W it uri).max_buffer_len 0,
          data_len := 0, channels := 0, fname := none } =
        some (s.W, { data := s.out, fname := it.uri, data_len := (s.counter : Int),
                     channels := (dec.fmt it).channels }) ∧
      waveform_get_wavedata env fuel W =
        some (finish_admitted env s.W it uri
          { data := s.out, fname := it.uri, data_len := (s.counter : Int),
            channels := (dec.fmt it).channels }) := by
  obtain ⟨s, hs⟩ := wave_loop_terminates env it dec (dec.fmt it) (samplesize (dec.fmt it))
    (buffer_len env it (dec.fmt it)) (update_after_nsamples env it) k
    (loop_entry env it (dec.fmt it)
      (reset_shared env (dec.fmt it)
        ((admitted_world env W it uri).emit (Event.generate it.addr)))
      { data := List.replicate (admitted_world env W it uri).max_buffer_len 0,
        data_len := 0, channels := 0, fname := none }) fuel hk
    (by simpa [loop_entry] using hshort)
  suffices hgen : waveform_generate_wavedata env fuel (admitted_world env W it uri) it uri
      { data := List.replicate (admitted_world env W it uri).max_buffer_len 0,
        data_len := 0, channels := 0, fname := none } =
      some (s.W, { data := s.out, fname := it.uri, data_len := (s.counter : Int),
                   channels := (dec.fmt it).channels }) by
    refine ⟨s, hs, hgen, ?_⟩
    rw [get_wavedata_admitted env fuel W it uri hp hu hv hmiss hq, summarize_admitted_eq, hgen]
    rfl
  rcases generate_cases env fuel (admitted_world env W it uri) it uri
      { data := List.replicate (admitted_world env W it uri).max_buffer_len 0,
        data_len := 0, channels := 0, fname := none } with
    ⟨h, _⟩ | ⟨d, hd, _, _, _, _, hm, _⟩ | ⟨d, hd, _, _, _, _, _, _, h1⟩
  · exfalso
    rcases h with h | ⟨d, hd, h⟩ | h
    · rw [h] at hdec; exact Option.noConfusion hdec
    · rw [hdec] at hd
      have := Option.some.inj hd
      subst this
      rcases h with h | h | h
      · rw [ho] at h; exact Bool.noConfusion h
      · rw [hok] at h; exact Bool.noConfusion h
      · exact h hinit
    · exact absurd hdur (not_lt.mpr h)
  · exfalso
    rcases hm with hm | hm
    · rw [hm1] at hm; exact Bool.noConfusion hm
    · rw [hm2] at hm; exact Bool.noConfusion hm
  · rw [hdec] at hd
    have := Option.some.inj hd
    subst this
    rw [h1]
    have hs2 : wave_loop env it dec (dec.fmt it) (samplesize (dec.fmt it))
        (buffer_len env it (dec.fmt it)) (update_after_nsamples env it) fuel
        (loop_entry env it (dec.fmt it)
          (reset_shared env (dec.fmt it)
            ((admitted_world env W it uri).emit (Event.generate it.addr)))
          { ({ data := List.replicate (admitted_world env W it uri).max_buffer_len 0,
               data_len := 0, channels := 0, fname := none } : wavedata_t) with
            data_len := 0, channels := 0 }) = some s := hs
    rw [hs2]
    rfl

/-- The worker on an admitted track that no query after the first finds playing:
the decode loop runs to its end, and on return the shared buffer is as the reset
of waveform.c:584-588 left it: the channel count of the track, the length
channels * 3 * N, and zeroed cells. -/
theorem worker_track_skipped (env : Env) (fuel : Nat) (W : World) (it : DB_playItem_t)
    (uri : CStr) (dec : DB_decoder_t) (hp : env.playing W.polls = some it)
    (hu : it.uri = some uri) (hv : waveform_valid_track env it uri ≠ 0)
    (hmiss : env.conf.CONFIG_CACHE_ENABLED = 0 ∨
      (waveform_is_cached W (some it) (some uri)).1 = 0)
    (hq : uri ∉ W.queue) (hdec : find_decoder env it = some dec)
    (ho : dec.has_open = true) (hok : dec.open_ok = true) (hinit : dec.init it = 0)
    (hdur : 0 < it.duration) (hm1 : env.malloc_data = true) (hm2 : env.malloc_buffer = true)
    (k : Nat) (hk : k < fuel)
    (hshort : (dec.read it k (buffer_len env it (dec.fmt it))).sz ≠
      buffer_len env it (dec.fmt it))
    (hnot : ∀ n, W.polls + 1 ≤ n → ∀ p, env.playing n = some p → p.addr ≠ it.addr) :
    ∃ W', waveform_get_wavedata env fuel W = some W' ∧
      W'.wave.channels = (dec.fmt it).channels ∧
      W'.wave.data_len = (dec.fmt it).channels * 3 * env.conf.CONFIG_NUM_SAMPLES ∧
      W'.wave.data = memset_zero W.wave.data W.max_buffer_len := by
  obtain ⟨s, hs, _, hget⟩ := worker_runs_loop env fuel W it uri dec hp hu hv hmiss hq hdec ho hok
    hinit hdur hm1 hm2 k hk hshort
  obtain ⟨a1, _, a3, a4, _⟩ := admitted_world_frame env W it uri
  have hentry : W.polls + 1 ≤ (loop_entry env it (dec.fmt it)
      (reset_shared env (dec.fmt it)
        ((admitted_world env W it uri).emit (Event.generate it.addr)))
      { data := List.replicate (admitted_world env W it uri).max_buffer_len 0,
        data_len := 0, channels := 0, fname := none }).W.polls := by
    show W.polls + 1 ≤ (admitted_world env W it uri).polls
    rw [a4]
  have hw := wave_loop_wave env it dec (dec.fmt it) (samplesize (dec.fmt it))
    (buffer_len env it (dec.fmt it)) (update_after_nsamples env it) (W.polls + 1) hnot
    fuel _ s hentry hs
  obtain ⟨_, _, _, f4, _⟩ := wave_loop_frame env it dec (dec.fmt it) (samplesize (dec.fmt it))
    (buffer_len env it (dec.fmt it)) (update_after_nsamples env it) fuel _ s hs
  have hpl : ¬ (∃ p, env.playing s.W.polls = some p ∧ it.addr = p.addr) := by
    rintro ⟨p, h1, h2⟩
    exact hnot s.W.polls (le_trans hentry f4) p h1 h2.symm
  obtain ⟨_, _, _, _, _, f8⟩ := finish_admitted_frame env s.W it uri
    { data := s.out, fname := it.uri, data_len := (s.counter : Int),
      channels := (dec.fmt it).channels }
  have hfin := f8 hpl
  refine ⟨_, hget, ?_, ?_, ?_⟩
  · rw [hfin, hw]; rfl
  · rw [hfin, hw]; rfl
  · rw [hfin, hw]
    show memset_zero (admitted_world env W it uri).wave.data
      (admitted_world env W it uri).max_buffer_len = _
    rw [a1, a3]

/-- C15: a run on the track that only the first query finds playing (every later
query returns another track) still changes the shared buffer, which showed 12
cells of value 5 on 2 channels: on return it shows 1 channel, the length
1 * 3 * 2048 = 6144, and zeroed cells. The reset of waveform.c:584-588 is not
guarded by the check that guards the partial and the final copy. -/
theorem skipped_track_resets_buffer :
    busy_world.wave.data_len = 12 ∧ busy_world.wave.channels = 2 ∧
    busy_world.wave.data = List.replicate init_max_buffer_len 5 ∧
    (∀ n, 1 ≤ n → host_skipped.playing n = some other_track) ∧
    other_track.addr ≠ track_8k.addr ∧
    ∃ W', waveform_get_wavedata host_skipped 4096 busy_world = some W' ∧
      W'.wave.channels = 1 ∧ W'.wave.data_len = 6144 ∧
      W'.wave.data = List.replicate init_max_buffer_len 0 := by
  have hpl : ∀ n, 1 ≤ n → host_skipped.playing n = some other_track := by
    intro n hn
    have : n ≠ 0 := by omega
    simp [host_skipped, this]
  have hbl : buffer_len host_skipped track_8k ⟨16, 1, 8000⟩ = 80 := buffer_len_8k
  have hsz : ((const_decoder ['d'] ⟨16, 1, 8000⟩ 80000 1).read track_8k 2000 80).sz ≠ 80 := by
    rw [const_decoder_sz]; decide
  refine ⟨rfl, rfl, rfl, hpl, by decide, ?_⟩
  obtain ⟨W', h1, h2, h3, h4⟩ := worker_track_skipped host_skipped 4096 busy_world track_8k
    ['/', 'a'] (const_decoder ['d'] ⟨16, 1, 8000⟩ 80000 1) rfl rfl
    (by simp [waveform_valid_track, host_skipped, host_8k, host, track_8k, track])
    (Or.inr rfl) (by simp [busy_world]) rfl rfl rfl rfl (by decide) rfl rfl 2000 (by decide)
    (by
      show ((const_decoder ['d'] ⟨16, 1, 8000⟩ 80000 1).read track_8k 2000
        (buffer_len host_skipped track_8k ⟨16, 1, 8000⟩)).sz ≠
          buffer_len host_skipped track_8k ⟨16, 1, 8000⟩
      rw [hbl]; exact hsz)
    (by
      intro n hn p hp
      rw [hpl n hn] at hp
      rw [← Option.some.inj hp]
      decide)
  refine ⟨W', h1, h2, h3, ?_⟩
  rw [h4]
  exact memset_zero_replicate init_max_buffer_len 5

/-! ## The admitted run as a whole (C16, C17, C19) -/

/-- The worker on an admitted track, whatever the outcome of the summarizer: the
summarizer returns (a short read comes within the fuel whenever the decode loop
is entered), the worker finishes from its result, the in-flight tracker ends as
it began, and the trace gains, in this order, the cache lookup (when caching is
enabled), the admitting `queue_add`, the mark of the summarizer run, the reads
and redraw requests of the decode loop, the cache write (when one is made),
`queue_pop`, and the final redraw request (when the track is still playing). -/
theorem worker_admitted_trace (env : Env) (fuel : Nat) (W : World) (it : DB_playItem_t)
    (uri : CStr) (hp : env.playing W.polls = some it) (hu : it.uri = some uri)
    (hv : waveform_valid_track env it uri ≠ 0)
    (hmiss : env.conf.CONFIG_CACHE_ENABLED = 0 ∨
      (waveform_is_cached W (some it) (some uri)).1 = 0)
    (hq : uri ∉ W.queue)
    (hterm : ∀ dec, find_decoder env it = some dec → dec.has_open = true →
      dec.open_ok = true → dec.init it = 0 → 0 < it.duration → env.malloc_data = true →
      env.malloc_buffer = true →
      ∃ k, k < fuel ∧ (dec.read it k (buffer_len env it (dec.fmt it))).sz ≠
        buffer_len env it (dec.fmt it)) :
    ∃ r, waveform_generate_wavedata env fuel (admitted_world env W it uri) it uri
        { data := List.replicate (admitted_world env W it uri).max_buffer_len 0,
          data_len := 0, channels := 0, fname := none } = some r ∧
      waveform_get_wavedata env fuel W = some (finish_admitted env r.1 it uri r.2) ∧
      W.polls + 1 ≤ r.1.polls ∧
      (finish_admitted env r.1 it uri r.2).queue = W.queue ∧
      ∃ pre evs cw fin,
        (finish_admitted env r.1 it uri r.2).log =
          W.log ++ pre ++ Event.queue_add uri true :: Event.generate it.addr ::
            (evs ++ cw ++ Event.queue_pop uri :: fin) ∧
        (pre = [] ∨ ∃ key, pre = [Event.db_cached key]) ∧
        (∀ e ∈ evs, loop_event e = true) ∧
        (fin = [] ∨ fin = [Event.redraw]) ∧
        ((cw = [] ∧ (finish_admitted env r.1 it uri r.2).cache = W.cache ∧
            (env.conf.CONFIG_CACHE_ENABLED = 0 ∨
              waveform_format_uri (some it) r.2.fname = none)) ∨
          (∃ key, env.conf.CONFIG_CACHE_ENABLED ≠ 0 ∧
            waveform_format_uri (some it) r.2.fname = some key ∧
            cw = [Event.db_write key (r.2.data_len * sizeof_short) r.2.channels] ∧
            (finish_admitted env r.1 it uri r.2).cache =
              (key, { channels := r.2.channels,
                      data := r.2.data.take
                        ((r.2.data_len * sizeof_short).toNat / sizeof_short) }) ::
                W.cache.filter (fun e => e.1 ≠ key))) := by
  obtain ⟨_, a2, _, a4, pre, apre, a5, _⟩ := admitted_world_frame env W it uri
  obtain ⟨a5q, a5l⟩ := a5 hq
  obtain ⟨r, hr⟩ := generate_terminates env fuel (admitted_world env W it uri) it uri
    { data := List.replicate (admitted_world env W it uri).max_buffer_len 0,
      data_len := 0, channels := 0, fname := none } hterm
  obtain ⟨g1, g2, _, g4, evs, g5, g6⟩ := generate_frame env fuel _ it uri _ r hr
  obtain ⟨f1, _, _, ⟨cw, fin, f4, f5, f6⟩, _, _⟩ := finish_admitted_frame env r.1 it uri r.2
  have hne : ∀ a ∈ W.queue, ¬ a = uri := fun a ha e => hq (e ▸ ha)
  refine ⟨r, hr, ?_, by rw [← a4]; exact g4, ?_, pre, evs, cw, fin, ?_, ?_, g6, f5, ?_⟩
  · rw [get_wavedata_admitted env fuel W it uri hp hu hv hmiss hq, summarize_admitted_eq, hr]
    rfl
  · rw [f1, g1, a5q]
    simpa [List.filter_cons] using hne
  · rw [f4, g5, a5l]
    simp
  · rcases apre with ⟨h, _⟩ | ⟨key, _, _, h⟩
    · exact Or.inl h
    · exact Or.inr ⟨key, h⟩
  · rw [g2, a2] at f6
    exact f6

/-- C16: when `queue_add (uri)` admits the playing track, the worker returns and
its trace reads: no read and no summarizer run before the admitting `queue_add`;
then the summarizer run; then exactly one `queue_pop`, with the same URI, after
which nothing is read; no other `queue_add` or `queue_pop` follows the admitting
one. This holds for every outcome of the summarizer (completed, decoder failure,
non-positive duration, allocation failure), and the in-flight tracker ends as it
was before the call, without the URI. -/
theorem in_flight_entry_released (env : Env) (fuel : Nat) (W : World) (it : DB_playItem_t)
    (uri : CStr) (hp : env.playing W.polls = some it) (hu : it.uri = some uri)
    (hv : waveform_valid_track env it uri ≠ 0)
    (hmiss : env.conf.CONFIG_CACHE_ENABLED = 0 ∨
      (waveform_is_cached W (some it) (some uri)).1 = 0)
    (hq : uri ∉ W.queue)
    (hterm : ∀ dec, find_decoder env it = some dec → dec.has_open = true →
      dec.open_ok = true → dec.init it = 0 → 0 < it.duration → env.malloc_data = true →
      env.malloc_buffer = true →
      ∃ k, k < fuel ∧ (dec.read it k (buffer_len env it (dec.fmt it))).sz ≠
        buffer_len env it (dec.fmt it)) :
    ∃ W' pre mid post, waveform_get_wavedata env fuel W = some W' ∧
      W'.log = W.log ++ pre ++ Event.queue_add uri true ::
        (mid ++ Event.queue_pop uri :: post) ∧
      read_events pre = [] ∧ generate_events pre = [] ∧
      generate_events mid = [it.addr] ∧
      queue_pop_events mid = [] ∧ queue_pop_events post = [] ∧
      queue_add_events mid = [] ∧ queue_add_events post = [] ∧
      read_events post = [] ∧ generate_events post = [] ∧
      W'.queue = W.queue ∧ uri ∉ W'.queue := by
  obtain ⟨r, _, hget, _, hqueue, pre, evs, cw, fin, hlog, hpre, hevs, hfin, hcw⟩ :=
    worker_admitted_trace env fuel W it uri hp hu hv hmiss hq hterm
  have e1 := loop_events_no_generate evs hevs
  have e2 := loop_events_no_queue_pop evs hevs
  have e3 := loop_events_no_queue_add evs hevs
  have hcw2 : cw = [] ∨ ∃ key b c, cw = [Event.db_write key b c] := by
    rcases hcw with ⟨h, _⟩ | ⟨key, _, _, h, _⟩
    · exact Or.inl h
    · exact Or.inr ⟨key, _, _, h⟩
  refine ⟨_, pre, Event.generate it.addr :: (evs ++ cw), fin, hget, ?_, ?_, ?_, ?_, ?_, ?_, ?_,
    ?_, ?_, ?_, hqueue, by rw [hqueue]; exact hq⟩
  · rw [hlog]; simp
  · rcases hpre with h | ⟨key, h⟩ <;> rw [h] <;> rfl
  · rcases hpre with h | ⟨key, h⟩ <;> rw [h] <;> rfl
  · have : generate_events (Event.generate it.addr :: (evs ++ cw)) =
        it.addr :: (generate_events evs ++ generate_events cw) := by
      simp [generate_events, List.filterMap_append]
    rw [this, e1]
    rcases hcw2 with h | ⟨key, b, c, h⟩ <;> rw [h] <;> rfl
  · have : queue_pop_events (Event.generate it.addr :: (evs ++ cw)) =
        queue_pop_events evs ++ queue_pop_events cw := by
      simp [queue_pop_events, List.filterMap_append]
    rw [this, e2]
    rcases hcw2 with h | ⟨key, b, c, h⟩ <;> rw [h] <;> rfl
  · rcases hfin with h | h <;> rw [h] <;> rfl
  · have : queue_add_events (Event.generate it.addr :: (evs ++ cw)) =
        queue_add_events evs ++ queue_add_events cw := by
      simp [queue_add_events, List.filterMap_append]
    rw [this, e3]
    rcases hcw2 with h | ⟨key, b, c, h⟩ <;> rw [h] <;> rfl
  · rcases hfin with h | h <;> rw [h] <;> rfl
  · rcases hfin with h | h <;> rw [h] <;> rfl
  · rcases hfin with h | h <;> rw [h] <;> rfl

/-- The decoder found for the track of the 8 kHz host. -/
theorem find_decoder_8k :
    find_decoder host_8k track_8k = some (const_decoder ['d'] ⟨16, 1, 8000⟩ 80000 1) := rfl

/-- On the 8 kHz host the read with the number 2000 is short. -/
theorem short_read_8k (dec : DB_decoder_t) (hd : find_decoder host_8k track_8k = some dec) :
    ∃ k, k < 4096 ∧ (dec.read track_8k k (buffer_len host_8k track_8k (dec.fmt track_8k))).sz ≠
      buffer_len host_8k track_8k (dec.fmt track_8k) := by
  have := Option.some.inj (find_decoder_8k.symm.trans hd)
  subst this
  refine ⟨2000, by decide, ?_⟩
  show ((const_decoder ['d'] ⟨16, 1, 8000⟩ 80000 1).read track_8k 2000
    (buffer_len host_8k track_8k ⟨16, 1, 8000⟩)).sz ≠ buffer_len host_8k track_8k ⟨16, 1, 8000⟩
  rw [buffer_len_8k, const_decoder_sz]
  decide

/-- C16 at a concrete input: the 10-second mono track on the initial state. -/
theorem in_flight_entry_released_witness :
    ∃ W' pre mid post, waveform_get_wavedata host_8k 4096 (init_world []) = some W' ∧
      W'.log = (init_world []).log ++ pre ++ Event.queue_add ['/', 'a'] true ::
        (mid ++ Event.queue_pop ['/', 'a'] :: post) ∧
      read_events pre = [] ∧ generate_events pre = [] ∧
      generate_events mid = [track_8k.addr] ∧
      queue_pop_events mid = [] ∧ queue_pop_events post = [] ∧
      queue_add_events mid = [] ∧ queue_add_events post = [] ∧
      read_events post = [] ∧ generate_events post = [] ∧
      W'.queue = (init_world []).queue ∧ ['/', 'a'] ∉ W'.queue :=
  in_flight_entry_released host_8k 4096 (init_world []) track_8k ['/', 'a'] rfl rfl
    (by simp [waveform_valid_track, host_8k, host, track_8k, track])
    (Or.inr rfl) (by simp [init_world])
    (fun dec hd _ _ _ _ _ _ => short_read_8k dec hd)

/-- The worker on a valid playing track with caching enabled and the key of the
track in the cache: it loads the summary through `waveform_db_read` into the
shared buffer and asks for a redraw; the trace gains the lookup, the read and
the redraw request, and nothing else. -/
theorem get_wavedata_hit (env : Env) (fuel : Nat) (W : World) (it : DB_playItem_t)
    (uri key : CStr) (hp : env.playing W.polls = some it) (hu : it.uri = some uri)
    (hv : waveform_valid_track env it uri ≠ 0) (hc : env.conf.CONFIG_CACHE_ENABLED ≠ 0)
    (hkey : waveform_format_uri (some it) (some uri) = some key)
    (hhit : (W.cache.lookup key).isSome = true) :
    ∃ W', waveform_get_wavedata env fuel W = some W' ∧
      W'.log = W.log ++ [Event.db_cached key, Event.db_read key, Event.redraw] ∧
      W'.wave.data_len =
        (waveform_db_read W key W.wave.data W.max_buffer_len W.wave.channels).1 ∧
      W'.wave.data =
        (waveform_db_read W key W.wave.data W.max_buffer_len W.wave.channels).2.1 ∧
      W'.wave.channels =
        (waveform_db_read W key W.wave.data W.max_buffer_len W.wave.channels).2.2.1 ∧
      W'.queue = W.queue ∧ W'.cache = W.cache := by
  have hp1 : (streamer_get_playing_track env W).1 = some it := hp
  have e1 : waveform_is_cached (streamer_get_playing_track env W).2 (some it) (some uri) =
      (1, (streamer_get_playing_track env W).2.emit (Event.db_cached key)) := by
    unfold waveform_is_cached
    rw [hkey]
    show ((if (W.cache.lookup key).isSome then 1 else 0 : Int), _) = _
    rw [if_pos hhit]
  have hget : waveform_get_wavedata env fuel W =
      some ((waveform_get_from_cache
        ((streamer_get_playing_track env W).2.emit (Event.db_cached key))
        (some it) (some uri)).emit Event.redraw) := by
    simp only [waveform_get_wavedata, hp1, hu, hv, hc, e1, not_false_eq_true, if_true, ne_eq,
      true_and, one_ne_zero]
  refine ⟨_, hget, ?_⟩
  unfold waveform_get_from_cache
  rw [hkey]
  cases hl : W.cache.lookup key with
  | none => rw [hl] at hhit; exact Bool.noConfusion hhit
  | some e =>
    by_cases hfit : e.data.length ≤ W.max_buffer_len
    · have r1 : ∀ Wc : World, Wc.cache = W.cache →
          waveform_db_read Wc key W.wave.data W.max_buffer_len W.wave.channels =
            ((e.data.length : Int), memcpy W.wave.data e.data e.data.length, e.channels,
              Wc.emit (Event.db_read key)) := by
        intro Wc h
        unfold waveform_db_read
        rw [h, hl]
        exact if_pos hfit
      have r2 := r1 ((streamer_get_playing_track env W).2.emit (Event.db_cached key)) rfl
      have r3 := r1 W rfl
      have r4 : waveform_db_read ((streamer_get_playing_track env W).2.emit (Event.db_cached key))
          key ((streamer_get_playing_track env W).2.emit (Event.db_cached key)).wave.data
          ((streamer_get_playing_track env W).2.emit (Event.db_cached key)).max_buffer_len
          ((streamer_get_playing_track env W).2.emit (Event.db_cached key)).wave.channels =
          ((e.data.length : Int), memcpy W.wave.data e.data e.data.length, e.channels,
            ((streamer_get_playing_track env W).2.emit (Event.db_cached key)).emit
              (Event.db_read key)) := r2
      simp only [r4, r3]
      refine ⟨?_, rfl, rfl, rfl, rfl, rfl⟩
      simp [World.emit, streamer_get_playing_track]
    · have r1 : ∀ Wc : World, Wc.cache = W.cache →
          waveform_db_read Wc key W.wave.data W.max_buffer_len W.wave.channels =
            (0, W.wave.data, W.wave.channels, Wc.emit (Event.db_read key)) := by
        intro Wc h
        unfold waveform_db_read
        rw [h, hl]
        exact if_neg hfit
      have r2 := r1 ((streamer_get_playing_track env W).2.emit (Event.db_cached key)) rfl
      have r3 := r1 W rfl
      have r4 : waveform_db_read ((streamer_get_playing_track env W).2.emit (Event.db_cached key))
          key ((streamer_get_playing_track env W).2.emit (Event.db_cached key)).wave.data
          ((streamer_get_playing_track env W).2.emit (Event.db_cached key)).max_buffer_len
          ((streamer_get_playing_track env W).2.emit (Event.db_cached key)).wave.channels =
          (0, W.wave.data, W.wave.channels,
            ((streamer_get_playing_track env W).2.emit (Event.db_cached key)).emit
              (Event.db_read key)) := r2
      simp only [r4, r3]
      refine ⟨?_, rfl, rfl, rfl, rfl, rfl⟩
      simp [World.emit, streamer_get_playing_track]

/-- The worker on a valid playing track that is not served from the cache and
whose URI is in flight: the summarizer is not run, and the cache, the shared
buffer and the in-flight tracker are left as they were. -/
theorem worker_blocked_frame (env : Env) (fuel : Nat) (W : World) (it : DB_playItem_t)
    (uri : CStr) (hp : env.playing W.polls = some it) (hu : it.uri = some uri)
    (hv : waveform_valid_track env it uri ≠ 0)
    (hmiss : env.conf.CONFIG_CACHE_ENABLED = 0 ∨
      (waveform_is_cached W (some it) (some uri)).1 = 0)
    (hq : uri ∈ W.queue) :
    ∃ W', waveform_get_wavedata env fuel W = some W' ∧
      generate_events W'.log = generate_events W.log ∧
      read_events W'.log = read_events W.log ∧
      queue_add_events W'.log = queue_add_events W.log ++ [(uri, false)] ∧
      W'.cache = W.cache ∧ W'.wave = W.wave ∧ W'.queue = W.queue := by
  obtain ⟨a1, a2, _, _, pre, apre, _, a6⟩ := admitted_world_frame env W it uri
  obtain ⟨a6q, a6l⟩ := a6 hq
  refine ⟨_, get_wavedata_blocked env fuel W it uri hp hu hv hmiss hq, ?_, ?_, ?_, a2, a1, a6q⟩
  · rw [a6l]
    rcases apre with ⟨h, _⟩ | ⟨key, _, _, h⟩ <;> rw [h] <;>
      simp [generate_events, List.filterMap_append]
  · rw [a6l]
    rcases apre with ⟨h, _⟩ | ⟨key, _, _, h⟩ <;> rw [h] <;>
      simp [read_events, List.filterMap_append]
  · rw [a6l]
    rcases apre with ⟨h, _⟩ | ⟨key, _, _, h⟩ <;> rw [h] <;>
      simp [queue_add_events, List.filterMap_append]

/-- A lookup that finds nothing makes `waveform_is_cached` return 0. -/
theorem is_cached_miss (W : World) (it : DB_playItem_t) (uri key : CStr)
    (hkey : waveform_format_uri (some it) (some uri) = some key)
    (hmiss : (W.cache.lookup key).isSome = false) :
    (waveform_is_cached W (some it) (some uri)).1 = 0 := by
  obtain ⟨_, _, _, _, _, key2, hk2, _, h⟩ := is_cached_frame W it uri
  rw [hkey] at hk2
  have := Option.some.inj hk2
  subst this
  rw [h, hmiss]
  rfl

/-- C17: with caching enabled and a valid playing track with the key `key`:
when the key is cached, the worker returns with the trace extended by the
lookup, the read and the redraw request only (no `queue_add`, no summarizer
run), and the shared buffer holds what `waveform_db_read` delivers, `data_len`
being its return value; when the key is not cached and the URI is not in flight
(`queue_add` returns true), the summarizer runs exactly once; when the key is
not cached and the URI is in flight (`queue_add` returns false), the summarizer
does not run and cache and shared buffer are unchanged. -/
theorem cache_hit_or_single_run (env : Env) (fuel : Nat) (W : World) (it : DB_playItem_t)
    (uri key : CStr) (hp : env.playing W.polls = some it) (hu : it.uri = some uri)
    (hv : waveform_valid_track env it uri ≠ 0) (hc : env.conf.CONFIG_CACHE_ENABLED ≠ 0)
    (hkey : waveform_format_uri (some it) (some uri) = some key) :
    ((W.cache.lookup key).isSome = true →
      ∃ W', waveform_get_wavedata env fuel W = some W' ∧
        W'.log = W.log ++ [Event.db_cached key, Event.db_read key, Event.redraw] ∧
        W'.wave.data_len =
          (waveform_db_read W key W.wave.data W.max_buffer_len W.wave.channels).1 ∧
        W'.wave.data =
          (waveform_db_read W key W.wave.data W.max_buffer_len W.wave.channels).2.1 ∧
        W'.wave.channels =
          (waveform_db_read W key W.wave.data W.max_buffer_len W.wave.channels).2.2.1) ∧
    ((W.cache.lookup key).isSome = false → uri ∉ W.queue →
      (∀ dec, find_decoder env it = some dec → dec.has_open = true →
        dec.open_ok = true → dec.init it = 0 → 0 < it.duration → env.malloc_data = true →
        env.malloc_buffer = true →
        ∃ k, k < fuel ∧ (dec.read it k (buffer_len env it (dec.fmt it))).sz ≠
          buffer_len env it (dec.fmt it)) →
      ∃ W', waveform_get_wavedata env fuel W = some W' ∧
        queue_add_events W'.log = queue_add_events W.log ++ [(uri, true)] ∧
        generate_events W'.log = generate_events W.log ++ [it.addr]) ∧
    ((W.cache.lookup key).isSome = false → uri ∈ W.queue →
      ∃ W', waveform_get_wavedata env fuel W = some W' ∧
        queue_add_events W'.log = queue_add_events W.log ++ [(uri, false)] ∧
        generate_events W'.log = generate_events W.log ∧
        W'.cache = W.cache ∧ W'.wave = W.wave) := by
  refine ⟨?_, ?_, ?_⟩
  · intro hhit
    obtain ⟨W', h1, h2, h3, h4, h5, _⟩ :=
      get_wavedata_hit env fuel W it uri key hp hu hv hc hkey hhit
    exact ⟨W', h1, h2, h3, h4, h5⟩
  · intro hmiss hq hterm
    obtain ⟨r, _, hget, _, _, pre, evs, cw, fin, hlog, hpre, hevs, hfin, hcw⟩ :=
      worker_admitted_trace env fuel W it uri hp hu hv
        (Or.inr (is_cached_miss W it uri key hkey hmiss)) hq hterm
    have e1 := loop_events_no_generate evs hevs
    have e3 := loop_events_no_queue_add evs hevs
    have hcw2 : cw = [] ∨ ∃ k b c, cw = [Event.db_write k b c] := by
      rcases hcw with ⟨h, _⟩ | ⟨k, _, _, h, _⟩
      · exact Or.inl h
      · exact Or.inr ⟨k, _, _, h⟩
    refine ⟨_, hget, ?_, ?_⟩
    · rw [hlog]
      have : queue_add_events (W.log ++ pre ++ Event.queue_add uri true ::
          Event.generate it.addr :: (evs ++ cw ++ Event.queue_pop uri :: fin)) =
          queue_add_events W.log ++ queue_add_events pre ++
            (uri, true) :: (queue_add_events evs ++ queue_add_events cw ++
              queue_add_events fin) := by
        simp [queue_add_events, List.filterMap_append]
      rw [this, e3]
      rcases hpre with h | ⟨k, h⟩ <;> rcases hcw2 with h2 | ⟨k2, b, c, h2⟩ <;>
        rcases hfin with h3 | h3 <;> rw [h, h2, h3] <;> simp [queue_add_events]
    · rw [hlog]
      have : generate_events (W.log ++ pre ++ Event.queue_add uri true ::
          Event.generate it.addr :: (evs ++ cw ++ Event.queue_pop uri :: fin)) =
          generate_events W.log ++ generate_events pre ++
            it.addr :: (generate_events evs ++ generate_events cw ++
              generate_events fin) := by
        simp [generate_events, List.filterMap_append]
      rw [this, e1]
      rcases hpre with h | ⟨k, h⟩ <;> rcases hcw2 with h2 | ⟨k2, b, c, h2⟩ <;>
        rcases hfin with h3 | h3 <;> rw [h, h2, h3] <;> simp [generate_events]
  · intro hmiss hq
    obtain ⟨W', h1, h2, _, h4, h5, h6, _⟩ := worker_blocked_frame env fuel W it uri hp hu hv
      (Or.inr (is_cached_miss W it uri key hkey hmiss)) hq
    exact ⟨W', h1, h4, h2, h5, h6⟩

/-- C17 at concrete inputs, one for each of the three cases: the key of the
playing track in the cache; an empty cache with nothing in flight; an empty
cache with the URI in flight. -/
theorem cache_hit_or_single_run_witness :
    (∃ W', waveform_get_wavedata host_8k 4096 cached_world = some W' ∧
      W'.log = cached_world.log ++
        [Event.db_cached ['/', 'a'], Event.db_read ['/', 'a'], Event.redraw] ∧
      W'.wave.data_len =
        (waveform_db_read cached_world ['/', 'a'] cached_world.wave.data
          cached_world.max_buffer_len cached_world.wave.channels).1 ∧
      W'.wave.data =
        (waveform_db_read cached_world ['/', 'a'] cached_world.wave.data
          cached_world.max_buffer_len cached_world.wave.channels).2.1 ∧
      W'.wave.channels =
        (waveform_db_read cached_world ['/', 'a'] cached_world.wave.data
          cached_world.max_buffer_len cached_world.wave.channels).2.2.1) ∧
    (∃ W', waveform_get_wavedata host_8k 4096 (init_world []) = some W' ∧
      queue_add_events W'.log = queue_add_events (init_world []).log ++ [(['/', 'a'], true)] ∧
      generate_events W'.log = generate_events (init_world []).log ++ [track_8k.addr]) ∧
    (∃ W', waveform_get_wavedata host_8k 4096 world_in_flight = some W' ∧
      queue_add_events W'.log = queue_add_events world_in_flight.log ++ [(['/', 'a'], false)] ∧
      generate_events W'.log = generate_events world_in_flight.log ∧
      W'.cache = world_in_flight.cache ∧ W'.wave = world_in_flight.wave) :=
  ⟨(cache_hit_or_single_run host_8k 4096 cached_world track_8k ['/', 'a'] ['/', 'a'] rfl rfl
      (by simp [waveform_valid_track, host_8k, host, track_8k, track]) (by decide) rfl).1 rfl,
   (cache_hit_or_single_run host_8k 4096 (init_world []) track_8k ['/', 'a'] ['/', 'a'] rfl rfl
      (by simp [waveform_valid_track, host_8k, host, track_8k, track]) (by decide) rfl).2.1 rfl
      (by simp [init_world]) (fun dec hd _ _ _ _ _ _ => short_read_8k dec hd),
   (cache_hit_or_single_run host_8k 4096 world_in_flight track_8k ['/', 'a'] ['/', 'a'] rfl rfl
      (by simp [waveform_valid_track, host_8k, host, track_8k, track]) (by decide) rfl).2.2 rfl
      (by simp [world_in_flight, queue_add, init_world])⟩

/-- C18: sub-tracks 1 and 2 of the container file `/a` have the cache keys
`1/a` and `2/a`, yet the worker registers both in the in-flight tracker under
the raw URI `/a`: while sub-track 1 is in flight, the worker for sub-track 2
(not cached) has its `queue_add` refused and does not run the summarizer. -/
theorem subtracks_share_in_flight_key :
    waveform_format_uri (some (subtrack 1)) (some ['/', 'a']) = some ['1', '/', 'a'] ∧
    waveform_format_uri (some (subtrack 2)) (some ['/', 'a']) = some ['2', '/', 'a'] ∧
    (admitted_world host_subtrack_1 (init_world []) (subtrack 1) ['/', 'a']).queue =
      world_in_flight.queue ∧
    world_in_flight.queue = [['/', 'a']] ∧
    ∃ W', waveform_get_wavedata host_subtrack 4096 world_in_flight = some W' ∧
      queue_add_events W'.log =
        queue_add_events world_in_flight.log ++ [(['/', 'a'], false)] ∧
      generate_events W'.log = [] ∧ read_events W'.log = [] ∧ W'.cache = [] := by
  refine ⟨by decide, by decide, ?_, by decide, ?_⟩
  · obtain ⟨_, _, _, _, _, _, h, _⟩ :=
      admitted_world_frame host_subtrack_1 (init_world []) (subtrack 1) ['/', 'a']
    rw [(h (by simp [init_world])).1]
    rfl
  · obtain ⟨W', h1, h2, h3, h4, h5, _⟩ := worker_blocked_frame host_subtrack 4096
      world_in_flight (subtrack 2) ['/', 'a'] rfl rfl
      (by simp [waveform_valid_track, host_subtrack, host, subtrack])
      (Or.inr rfl) (by simp [world_in_flight, queue_add, init_world])
    exact ⟨W', h1, h4, h2, h3, h5⟩

/-- C19: with caching enabled, when the summarizer run for the admitted playing
track completes (the decode loop ends in the state `s`), the summary is written
to the cache exactly once, under the key of the track, with
`data_len * sizeof (short)` bytes and the channel count of the decoded format,
whether or not the track is still playing; the shared buffer receives the final
copy when the final query finds the track playing, and is left as the summarizer
left it when it does not. -/
theorem completed_run_is_cached (env : Env) (fuel : Nat) (W : World) (it : DB_playItem_t)
    (uri key : CStr) (dec : DB_decoder_t) (hp : env.playing W.polls = some it)
    (hu : it.uri = some uri) (hv : waveform_valid_track env it uri ≠ 0)
    (hc : env.conf.CONFIG_CACHE_ENABLED ≠ 0)
    (hkey : waveform_format_uri (some it) (some uri) = some key)
    (hmiss : (W.cache.lookup key).isSome = false)
    (hq : uri ∉ W.queue) (hdec : find_decoder env it = some dec)
    (ho : dec.has_open = true) (hok : dec.open_ok = true) (hinit : dec.init it = 0)
    (hdur : 0 < it.duration) (hm1 : env.malloc_data = true) (hm2 : env.malloc_buffer = true)
    (k : Nat) (hk : k < fuel)
    (hshort : (dec.read it k (buffer_len env it (dec.fmt it))).sz ≠
      buffer_len env it (dec.fmt it)) :
    ∃ s W', wave_loop env it dec (dec.fmt it) (samplesize (dec.fmt it))
        (buffer_len env it (dec.fmt it)) (update_after_nsamples env it) fuel
        (loop_entry env it (dec.fmt it)
          (reset_shared env (dec.fmt it)
            ((admitted_world env W it uri).emit (Event.generate it.addr)))
          { data := List.replicate (admitted_world env W it uri).max_buffer_len 0,
            data_len := 0, channels := 0, fname := none }) = some s ∧
      waveform_get_wavedata env fuel W = some W' ∧
      write_events W'.log = write_events W.log ++
        [(key, (s.counter : Int) * sizeof_short, (dec.fmt it).channels)] ∧
      W'.cache = (key, { channels := (dec.fmt it).channels, data := s.out.take s.counter }) ::
        W.cache.filter (fun e => e.1 ≠ key) ∧
      ((∃ p, env.playing s.W.polls = some p ∧ it.addr = p.addr) →
        W'.wave = { s.W.wave with
          data := memcpy s.W.wave.data s.out s.counter
          data_len := (s.counter : Int)
          channels := (dec.fmt it).channels }) ∧
      (¬ (∃ p, env.playing s.W.polls = some p ∧ it.addr = p.addr) →
        W'.wave = s.W.wave) := by
  have hmiss2 := is_cached_miss W it uri key hkey hmiss
  obtain ⟨s, hs, hgen, hget⟩ := worker_runs_loop env fuel W it uri dec hp hu hv
    (Or.inr hmiss2) hq hdec ho hok hinit hdur hm1 hm2 k hk hshort
  obtain ⟨r, hr, _, _, _, pre, evs, cw, fin, hlog, hpre, hevs, hfin, hcw⟩ :=
    worker_admitted_trace env fuel W it uri hp hu hv (Or.inr hmiss2) hq
      (by
        intro d hd _ _ _ _ _ _
        rw [hdec] at hd
        have := Option.some.inj hd
        subst this
        exact ⟨k, hk, hshort⟩)
  have hrs := Option.some.inj (hr.symm.trans hgen)
  subst hrs
  obtain ⟨_, _, _, _, f7, f8⟩ := finish_admitted_frame env s.W it uri
    { data := s.out, fname := it.uri, data_len := (s.counter : Int),
      channels := (dec.fmt it).channels }
  have e4 := loop_events_no_write evs hevs
  have hk2 : waveform_format_uri (some it) it.uri = some key := by rw [hu]; exact hkey
  have hhalf : ((s.counter : Int) * (sizeof_short : Int)).toNat / sizeof_short = s.counter := by
    have : ((s.counter : Int) * (sizeof_short : Int)).toNat = s.counter * sizeof_short := by
      rw [← Nat.cast_mul, Int.toNat_natCast]
    rw [this]
    exact Nat.mul_div_cancel _ (by decide)
  refine ⟨s, _, hs, hget, ?_, ?_, ?_, f8⟩
  · rcases hcw with ⟨_, _, h | h⟩ | ⟨key2, _, hk3, h, _⟩
    · exact absurd h hc
    · have h2 : waveform_format_uri (some it) it.uri = none := h
      rw [hk2] at h2
      exact Option.noConfusion h2
    · have h3 : waveform_format_uri (some it) it.uri = some key2 := hk3
      rw [hk2] at h3
      have := Option.some.inj h3
      subst this
      rw [hlog]
      have : write_events (W.log ++ pre ++ Event.queue_add uri true ::
          Event.generate it.addr :: (evs ++ cw ++ Event.queue_pop uri :: fin)) =
          write_events W.log ++ write_events pre ++
            (write_events evs ++ write_events cw ++ write_events fin) := by
        simp [write_events, List.filterMap_append]
      rw [this, e4, h]
      rcases hpre with h5 | ⟨k5, h5⟩ <;> rcases hfin with h6 | h6 <;> rw [h5, h6] <;>
        simp [write_events]
  · rcases hcw with ⟨_, _, h | h⟩ | ⟨key2, _, hk3, _, h⟩
    · exact absurd h hc
    · have h2 : waveform_format_uri (some it) it.uri = none := h
      rw [hk2] at h2
      exact Option.noConfusion h2
    · have h3 : waveform_format_uri (some it) it.uri = some key2 := hk3
      rw [hk2] at h3
      have := Option.some.inj h3
      subst this
      rw [h]
      dsimp only
      rw [hhalf]
  · intro hpl
    rw [f7 hpl]
    show _ = ({ s.W.wave with
      data := memcpy s.W.wave.data s.out (s.counter : Int).toNat
      data_len := (s.counter : Int)
      channels := (dec.fmt it).channels } : wavedata_t)
    rfl

/-- C19 at a concrete input: the run for `track_8k`, which only the first query
finds playing; the summary is written to the cache all the same. -/
theorem completed_run_is_cached_witness :
    ∃ W', waveform_get_wavedata host_skipped 4096 busy_world = some W' ∧
      (∃ n : Nat, write_events W'.log = [(['/', 'a'], (n : Int) * sizeof_short, 1)]) ∧
      (W'.cache.lookup ['/', 'a']).isSome = true := by
  have hbl : buffer_len host_skipped track_8k ⟨16, 1, 8000⟩ = 80 := buffer_len_8k
  obtain ⟨s, W', _, h2, h3, h4, _, _⟩ := completed_run_is_cached host_skipped 4096 busy_world
    track_8k ['/', 'a'] ['/', 'a'] (const_decoder ['d'] ⟨16, 1, 8000⟩ 80000 1) rfl rfl
    (by simp [waveform_valid_track, host_skipped, host_8k, host, track_8k, track])
    (by decide) rfl rfl (by simp [busy_world]) rfl rfl rfl rfl (by decide) rfl rfl 2000
    (by decide)
    (by
      show ((const_decoder ['d'] ⟨16, 1, 8000⟩ 80000 1).read track_8k 2000
        (buffer_len host_skipped track_8k ⟨16, 1, 8000⟩)).sz ≠
          buffer_len host_skipped track_8k ⟨16, 1, 8000⟩
      rw [hbl, const_decoder_sz]; decide)
  refine ⟨W', h2, ⟨s.counter, ?_⟩, ?_⟩
  · rw [h3]; rfl
  · rw [h4]; simp [List.lookup]

/-! ## The cache maintenance action (C20) -/

theorem lookup_filter_self (l : List (CStr × CacheEntry)) (k : CStr) :
    (l.filter (fun e => e.1 ≠ k)).lookup k = none := by
  induction l with
  | nil => rfl
  | cons a l ih =>
    obtain ⟨a1, a2⟩ := a
    by_cases h : a1 = k
    · rw [List.filter_cons_of_neg (by simpa using h)]
      exact ih
    · have hb : (k == a1) = false := by simpa using fun e => h e.symm
      rw [List.filter_cons_of_pos (by simpa using h), List.lookup_cons, hb]
      exact ih

theorem lookup_filter_ne (l : List (CStr × CacheEntry)) (k key : CStr) (hne : key ≠ k) :
    (l.filter (fun e => e.1 ≠ k)).lookup key = l.lookup key := by
  induction l with
  | nil => rfl
  | cons a l ih =>
    obtain ⟨a1, a2⟩ := a
    by_cases h : a1 = k
    · have hb : (key == a1) = false := by simpa [h] using hne
      rw [List.filter_cons_of_neg (by simpa using h), List.lookup_cons, hb]
      exact ih
    · rw [List.filter_cons_of_pos (by simpa using h), List.lookup_cons, List.lookup_cons]
      cases key == a1 with
      | true => rfl
      | false => exact ih

theorem lookup_isSome_false (l : List (CStr × CacheEntry)) (k : CStr)
    (h : (l.lookup k).isSome = false) : l.lookup k = none := by
  cases h2 : l.lookup k with
  | none => rfl
  | some v => rw [h2] at h; exact Bool.noConfusion h

theorem delete_events_append (a b : List Event) :
    delete_events (a ++ b) = delete_events a ++ delete_events b := by
  simp [delete_events, List.filterMap_append]

theorem selected_keys_cons_unselected (it : DB_playItem_t) (rest : List (DB_playItem_t × Bool)) :
    selected_keys ((it, false) :: rest) = selected_keys rest := by
  simp [selected_keys]

theorem selected_keys_cons_no_uri (it : DB_playItem_t) (rest : List (DB_playItem_t × Bool))
    (h : it.uri = none) : selected_keys ((it, true) :: rest) = selected_keys rest := by
  have : waveform_format_uri (some it) (none : Option CStr) = none := rfl
  simp [selected_keys, h, this]

theorem selected_keys_cons_selected (it : DB_playItem_t) (rest : List (DB_playItem_t × Bool))
    (uri key : CStr) (h : it.uri = some uri)
    (hk : waveform_format_uri (some it) (some uri) = some key) :
    selected_keys ((it, true) :: rest) = key :: selected_keys rest := by
  simp [selected_keys, h, hk]

/-- The loop of the action over the playlist: the shared buffer and the
in-flight tracker are left alone; among the events it adds to the trace, the
cache delete occurs once for each key of a selected item that the cache held at
the start, and for no other key; afterwards the cache holds no key of a
selected item and every other key as before. -/
theorem action_lookup_loop_spec :
    ∀ (items : List (DB_playItem_t × Bool)) (W : World),
    (action_lookup_loop items W).wave = W.wave ∧
    (action_lookup_loop items W).queue = W.queue ∧
    (action_lookup_loop items W).polls = W.polls ∧
    (action_lookup_loop items W).max_buffer_len = W.max_buffer_len ∧
    ((∀ key ∈ selected_keys items, (W.cache.lookup key).isSome = false) →
      (action_lookup_loop items W).cache = W.cache) ∧
    (∀ key, (action_lookup_loop items W).cache.lookup key =
      if key ∈ selected_keys items then none else W.cache.lookup key) ∧
    ∃ evs, (action_lookup_loop items W).log = W.log ++ evs ∧
      ∀ key, (delete_events evs).count key =
        if key ∈ selected_keys items ∧ (W.cache.lookup key).isSome = true then 1 else 0 := by
  intro items
  induction items with
  | nil =>
    intro W
    refine ⟨rfl, rfl, rfl, rfl, fun _ => rfl, ?_, [], (List.append_nil _).symm, ?_⟩
    · intro key
      show W.cache.lookup key = if key ∈ ([] : List CStr) then none else W.cache.lookup key
      rw [if_neg (List.not_mem_nil _)]
    · intro key
      show List.count key [] =
        if key ∈ ([] : List CStr) ∧ (W.cache.lookup key).isSome = true then 1 else 0
      rw [if_neg (fun h => List.not_mem_nil _ h.1)]
      rfl
  | cons a rest ih =>
    intro W
    obtain ⟨it, sel⟩ := a
    cases sel with
    | false =>
      have e : action_lookup_loop ((it, false) :: rest) W = action_lookup_loop rest W := by
        simp only [action_lookup_loop, Bool.false_eq_true, if_false]
      rw [e, selected_keys_cons_unselected]
      exact ih W
    | true =>
      cases hu : it.uri with
      | none =>
        have e : action_lookup_loop ((it, true) :: rest) W = action_lookup_loop rest W := by
          have h0 : waveform_is_cached W (some it) (none : Option CStr) = (0, W) := rfl
          simp only [action_lookup_loop, hu, h0, if_true, ne_eq, not_true_eq_false, if_false]
        rw [e, selected_keys_cons_no_uri it rest hu]
        exact ih W
      | some uri =>
        obtain ⟨key0, hk0⟩ := format_uri_some it uri
        rw [selected_keys_cons_selected it rest uri key0 hu hk0]
        have hc : waveform_is_cached W (some it) (some uri) =
            (if (W.cache.lookup key0).isSome then 1 else 0, W.emit (Event.db_cached key0)) := by
          unfold waveform_is_cached
          rw [hk0]
          rfl
        by_cases hin : (W.cache.lookup key0).isSome = true
        · have hd : (waveform_delete (W.emit (Event.db_cached key0)) (some it) (some uri)).2 =
              { (W.emit (Event.db_cached key0)).emit (Event.db_delete key0) with
                cache := W.cache.filter (fun e => e.1 ≠ key0) } := by
            unfold waveform_delete
            rw [hk0]
            rfl
          have e : action_lookup_loop ((it, true) :: rest) W =
              action_lookup_loop rest
                { (W.emit (Event.db_cached key0)).emit (Event.db_delete key0) with
                  cache := W.cache.filter (fun e => e.1 ≠ key0) } := by
            simp only [action_lookup_loop, hu, hc, if_true, hin, ne_eq, one_ne_zero,
              not_false_eq_true, hd]
          rw [e]
          obtain ⟨i1, i2, i3, i4, _, i6, evs, i7, i8⟩ := ih
            { (W.emit (Event.db_cached key0)).emit (Event.db_delete key0) with
              cache := W.cache.filter (fun e => e.1 ≠ key0) }
          have hself : ∀ key, key = key0 →
              (W.cache.filter (fun e => e.1 ≠ key0)).lookup key = none := by
            intro key hk
            rw [hk]
            exact lookup_filter_self W.cache key0
          have hother : ∀ key, key ≠ key0 →
              (W.cache.filter (fun e => e.1 ≠ key0)).lookup key = W.cache.lookup key :=
            fun key hk => lookup_filter_ne W.cache key0 key hk
          have i6b : ∀ key, (action_lookup_loop rest
              { (W.emit (Event.db_cached key0)).emit (Event.db_delete key0) with
                cache := W.cache.filter (fun e => e.1 ≠ key0) }).cache.lookup key =
              if key ∈ selected_keys rest then none
              else (W.cache.filter (fun e => e.1 ≠ key0)).lookup key := i6
          have i8b : ∀ key, (delete_events evs).count key =
              if key ∈ selected_keys rest ∧
                ((W.cache.filter (fun e => e.1 ≠ key0)).lookup key).isSome = true then 1
              else 0 := i8
          refine ⟨i1, i2, i3, i4, ?_, ?_,
            Event.db_cached key0 :: Event.db_delete key0 :: evs, ?_, ?_⟩
          · intro hall
            have := hall key0 (List.mem_cons_self _ _)
            rw [hin] at this
            exact Bool.noConfusion this
          · intro key
            rw [i6b key]
            by_cases hkk : key = key0
            · have hr : (if key ∈ key0 :: selected_keys rest then none
                  else W.cache.lookup key) = none :=
                if_pos (by rw [hkk]; exact List.mem_cons_self _ _)
              rw [hr, hself key hkk]
              exact ite_self _
            · by_cases hm : key ∈ selected_keys rest
              · rw [if_pos hm, if_pos (List.mem_cons_of_mem _ hm)]
              · rw [if_neg hm, hother key hkk,
                  if_neg (fun h => (List.mem_cons.mp h).elim hkk hm)]
          · rw [i7]
            show W.log ++ [Event.db_cached key0] ++ [Event.db_delete key0] ++ evs = _
            rw [List.append_assoc, List.append_assoc]
            rfl
          · intro key
            have hde : delete_events (Event.db_cached key0 :: Event.db_delete key0 :: evs) =
                key0 :: delete_events evs := rfl
            rw [hde]
            by_cases hkk : key = key0
            · have h0 := i8b key
              rw [hself key hkk, if_neg (fun h => Bool.noConfusion h.2)] at h0
              rw [hkk] at h0 ⊢
              rw [List.count_cons_self, h0, if_pos ⟨List.mem_cons_self _ _, hin⟩]
            · have h0 := i8b key
              rw [hother key hkk] at h0
              rw [List.count_cons_of_ne hkk, h0]
              by_cases hm : key ∈ selected_keys rest ∧ (W.cache.lookup key).isSome = true
              · rw [if_pos hm, if_pos ⟨List.mem_cons_of_mem _ hm.1, hm.2⟩]
              · rw [if_neg hm, if_neg (fun h => hm ⟨(List.mem_cons.mp h.1).elim
                  (fun e => absurd e hkk) id, h.2⟩)]
        · have hin2 : (W.cache.lookup key0).isSome = false := by
            cases h : (W.cache.lookup key0).isSome with
            | true => exact absurd h hin
            | false => rfl
          have e : action_lookup_loop ((it, true) :: rest) W =
              action_lookup_loop rest (W.emit (Event.db_cached key0)) := by
            simp only [action_lookup_loop, hu, hc, if_true, hin2, ne_eq, not_true_eq_false,
              if_false, Bool.false_eq_true]
          rw [e]
          obtain ⟨i1, i2, i3, i4, i5, i6, evs, i7, i8⟩ := ih (W.emit (Event.db_cached key0))
          have hnone : W.cache.lookup key0 = none := lookup_isSome_false W.cache key0 hin2
          have i6b : ∀ key, (action_lookup_loop rest (W.emit (Event.db_cached key0))).cache.lookup
              key = if key ∈ selected_keys rest then none else W.cache.lookup key := i6
          have i8b : ∀ key, (delete_events evs).count key =
              if key ∈ selected_keys rest ∧ (W.cache.lookup key).isSome = true then 1
              else 0 := i8
          refine ⟨i1, i2, i3, i4, ?_, ?_, Event.db_cached key0 :: evs, ?_, ?_⟩
          · intro hall
            exact i5 (fun key hk => hall key (List.mem_cons_of_mem _ hk))
          · intro key
            rw [i6b key]
            by_cases hkk : key = key0
            · have hr : (if key ∈ key0 :: selected_keys rest then none
                  else W.cache.lookup key) = none :=
                if_pos (by rw [hkk]; exact List.mem_cons_self _ _)
              rw [hr, hkk, hnone]
              exact ite_self _
            · by_cases hm : key ∈ selected_keys rest
              · rw [if_pos hm, if_pos (List.mem_cons_of_mem _ hm)]
              · rw [if_neg hm, if_neg (fun h => (List.mem_cons.mp h).elim hkk hm)]
          · rw [i7]
            show W.log ++ [Event.db_cached key0] ++ evs = _
            rw [List.append_assoc]
            rfl
          · intro key
            have hde : delete_events (Event.db_cached key0 :: evs) = delete_events evs := rfl
            rw [hde, i8b key]
            by_cases hkk : key = key0
            · rw [hkk, if_neg (fun h => by rw [hin2] at h; exact Bool.noConfusion h.2),
                if_neg (fun h => by rw [hin2] at h; exact Bool.noConfusion h.2)]
            · by_cases hm : key ∈ selected_keys rest ∧ (W.cache.lookup key).isSome = true
              · rw [if_pos hm, if_pos ⟨List.mem_cons_of_mem _ hm.1, hm.2⟩]
              · rw [if_neg hm, if_neg (fun h => hm ⟨(List.mem_cons.mp h.1).elim
                  (fun e => absurd e hkk) id, h.2⟩)]

/-- C20: in a context other than the selection context the action changes
nothing. In the selection context it leaves the shared buffer and the in-flight
tracker alone, and the cache delete is called exactly once for each key of a
selected item that the cache holds, and for no other key (no unselected item's
key, no key the cache does not hold); afterwards the cache holds no key of a
selected item and every other key as before. When no key of a selected item is
in the cache, the cache is unchanged and the cache delete is not called. -/
theorem action_lookup_deletes_selected (items : List (DB_playItem_t × Bool))
    (plt : Option (List (DB_playItem_t × Bool))) (ctx : Int) (W : World) :
    (ctx ≠ DDB_ACTION_CTX_SELECTION → waveform_action_lookup plt ctx W = (0, W)) ∧
    (waveform_action_lookup none DDB_ACTION_CTX_SELECTION W = (0, W)) ∧
    (waveform_action_lookup (some items) DDB_ACTION_CTX_SELECTION W).1 = 0 ∧
    (waveform_action_lookup (some items) DDB_ACTION_CTX_SELECTION W).2.wave = W.wave ∧
    (waveform_action_lookup (some items) DDB_ACTION_CTX_SELECTION W).2.queue = W.queue ∧
    (∀ key, (waveform_action_lookup (some items) DDB_ACTION_CTX_SELECTION W).2.cache.lookup key =
      if key ∈ selected_keys items then none else W.cache.lookup key) ∧
    ∃ evs, (waveform_action_lookup (some items) DDB_ACTION_CTX_SELECTION W).2.log =
        W.log ++ evs ∧
      (∀ key, (delete_events evs).count key =
        if key ∈ selected_keys items ∧ (W.cache.lookup key).isSome = true then 1 else 0) ∧
      ((∀ key ∈ selected_keys items, (W.cache.lookup key).isSome = false) →
        (waveform_action_lookup (some items) DDB_ACTION_CTX_SELECTION W).2.cache = W.cache ∧
        delete_events evs = []) := by
  have hsel : waveform_action_lookup (some items) DDB_ACTION_CTX_SELECTION W =
      (0, action_lookup_loop items W) := by
    unfold waveform_action_lookup
    rw [if_pos rfl]
  obtain ⟨i1, i2, _, _, i5, i6, evs, i7, i8⟩ := action_lookup_loop_spec items W
  rw [hsel]
  refine ⟨?_, ?_, rfl, i1, i2, i6, evs, i7, i8, ?_⟩
  · intro h
    unfold waveform_action_lookup
    rw [if_neg h]
  · unfold waveform_action_lookup
    rw [if_pos rfl]
  · intro hall
    refine ⟨i5 hall, ?_⟩
    apply List.eq_nil_iff_forall_not_mem.mpr
    intro key hk
    have h0 := i8 key
    rw [if_neg (fun h => by
      have := hall key h.1
      rw [h.2] at this
      exact Bool.noConfusion this)] at h0
    exact (List.count_eq_zero.mp h0) hk

/-- C20 at a concrete playlist of three items, the first and the third selected
and having the same key, on a cache that holds this key: one delete call. -/
theorem action_lookup_deletes_selected_witness :
    selected_keys playlist_3 = [['/', 'a'], ['/', 'a']] ∧
    (cached_world.cache.lookup ['/', 'a']).isSome = true ∧
    ∃ evs, (waveform_action_lookup (some playlist_3) DDB_ACTION_CTX_SELECTION
        cached_world).2.log = cached_world.log ++ evs ∧
      (delete_events evs).count ['/', 'a'] = 1 ∧
      (delete_events evs).count ['/', 'b'] = 0 := by
  obtain ⟨_, _, _, _, _, _, evs, h1, h2, _⟩ :=
    action_lookup_deletes_selected playlist_3 none 0 cached_world
  refine ⟨by decide, by decide, evs, h1, ?_, ?_⟩
  · rw [h2]; decide
  · rw [h2]; decide

/-! ## The cadence of the partial publish (C22) -/

/-- The publish block: it queries the playing track exactly when `update_counter`
equals the threshold, and it leaves `update_counter` at 1 in that case and one
higher than before otherwise. -/
theorem publish_step_cadence (env : Env) (it : DB_playItem_t) (fmt : ddb_waveformat_t)
    (u : Int) (s : LoopState) :
    (publish_step env it fmt u s).update_counter =
      (if s.update_counter = u then 0 else s.update_counter) + 1 ∧
    (publish_step env it fmt u s).W.polls =
      s.W.polls + (if s.update_counter = u then 1 else 0) := by
  by_cases hu : s.update_counter = u
  · cases hp : env.playing s.W.polls with
    | none =>
      refine ⟨?_, ?_⟩ <;>
        simp [publish_step, hu, hp, streamer_get_playing_track, World.emit]
    | some p =>
      by_cases ha : p.addr = it.addr
      · refine ⟨?_, ?_⟩ <;>
          simp [publish_step, hu, hp, ha, streamer_get_playing_track, World.emit]
      · refine ⟨?_, ?_⟩ <;>
          simp [publish_step, hu, hp, ha, streamer_get_playing_track, World.emit]
  · refine ⟨?_, ?_⟩ <;> simp [publish_step, hu]

theorem chunk_step_cadence (env : Env) (it : DB_playItem_t) (fmt : ddb_waveformat_t)
    (ss bl u : Int) (r : ReadResult) (s : LoopState) :
    (chunk_step env it fmt ss bl u r s).update_counter =
      (if s.update_counter = u then 0 else s.update_counter) + 1 ∧
    (chunk_step env it fmt ss bl u r s).W.polls =
      s.W.polls + (if s.update_counter = u then 1 else 0) := by
  unfold chunk_step
  exact publish_step_cadence env it fmt u _

/-- With the threshold 0, a pass through the loop body that starts with a
positive `update_counter` makes no query and leaves `update_counter` positive. -/
theorem chunk_step_threshold_zero (env : Env) (it : DB_playItem_t) (fmt : ddb_waveformat_t)
    (ss bl : Int) (r : ReadResult) (s : LoopState) (h : 1 ≤ s.update_counter) :
    1 ≤ (chunk_step env it fmt ss bl 0 r (after_read s)).update_counter ∧
    (chunk_step env it fmt ss bl 0 r (after_read s)).W.polls = s.W.polls := by
  obtain ⟨h1, h2⟩ := chunk_step_cadence env it fmt ss bl 0 r (after_read s)
  have hne : ¬ (after_read s).update_counter = 0 := by
    show ¬ s.update_counter = 0
    omega
  rw [if_neg hne] at h1 h2
  have h3 : (after_read s).update_counter = s.update_counter := rfl
  have h4 : (after_read s).W.polls = s.W.polls := rfl
  rw [h1, h2, h3, h4]
  exact ⟨by omega, rfl⟩

theorem run_chunks_threshold_zero (env : Env) (it : DB_playItem_t) (dec : DB_decoder_t)
    (fmt : ddb_waveformat_t) (ss bl : Int) :
    ∀ (k : Nat) (s : LoopState), 1 ≤ s.update_counter →
    1 ≤ (run_chunks env it dec fmt ss bl 0 k s).update_counter ∧
    (run_chunks env it dec fmt ss bl 0 k s).W.polls = s.W.polls := by
  intro k
  induction k with
  | zero => intro s h; exact ⟨h, rfl⟩
  | succ k ih =>
    intro s h
    simp only [run_chunks]
    obtain ⟨c1, c2⟩ := chunk_step_threshold_zero env it fmt ss bl (dec.read it s.reads bl) s h
    obtain ⟨i1, i2⟩ := ih _ c1
    exact ⟨i1, by rw [i2, c2]⟩

/-- With the threshold 0, the first pass through the loop body (it starts with
`update_counter = 0`) makes one query and leaves `update_counter` at 1. -/
theorem first_chunk_threshold_zero (env : Env) (it : DB_playItem_t) (fmt : ddb_waveformat_t)
    (ss bl : Int) (r : ReadResult) (s : LoopState) (h : s.update_counter = 0) :
    (chunk_step env it fmt ss bl 0 r (after_read s)).update_counter = 1 ∧
    (chunk_step env it fmt ss bl 0 r (after_read s)).W.polls = s.W.polls + 1 := by
  obtain ⟨h1, h2⟩ := chunk_step_cadence env it fmt ss bl 0 r (after_read s)
  have he : (after_read s).update_counter = 0 := h
  rw [if_pos he] at h1 h2
  have h4 : (after_read s).W.polls = s.W.polls := rfl
  rw [h1, h2, h4]
  exact ⟨rfl, rfl⟩

/-- Under the threshold 0, `k + 1` passes through the loop body from the loop
entry make exactly one query of the playing track, in the first pass. -/
theorem loop_threshold_zero (env : Env) (it : DB_playItem_t) (dec : DB_decoder_t)
    (fmt : ddb_waveformat_t) (ss bl : Int) (k : Nat) (s : LoopState)
    (h : s.update_counter = 0) :
    (chunk_step env it fmt ss bl 0 (dec.read it (s.reads + k) bl)
      (after_read (run_chunks env it dec fmt ss bl 0 k s))).W.polls = s.W.polls + 1 ∧
    (chunk_step env it fmt ss bl 0 (dec.read it s.reads bl) (after_read s)).W.polls =
      s.W.polls + 1 := by
  have hfirst := first_chunk_threshold_zero env it fmt ss bl (dec.read it s.reads bl) s h
  refine ⟨?_, hfirst.2⟩
  cases k with
  | zero => exact hfirst.2
  | succ k =>
    have hr : run_chunks env it dec fmt ss bl 0 (k + 1) s =
        run_chunks env it dec fmt ss bl 0 k
          (chunk_step env it fmt ss bl 0 (dec.read it s.reads bl) (after_read s)) := rfl
    rw [hr]
    obtain ⟨i1, i2⟩ := run_chunks_threshold_zero env it dec fmt ss bl k _
      (le_of_eq hfirst.1.symm)
    obtain ⟨_, c2⟩ := chunk_step_threshold_zero env it fmt ss bl
      (dec.read it (s.reads + (k + 1)) bl) _ i1
    rw [c2, i2, hfirst.2]

/-- The summarizer under the conditions of `generate_run` with the threshold
`update_after_nsamples` equal to 0: it makes the reads 0 to `k` and exactly one
query of the playing track, which is made in the first pass through the loop. -/
theorem generate_threshold_zero (env : Env) (fuel : Nat) (W : World) (it : DB_playItem_t)
    (uri : CStr) (wavedata : wavedata_t) (dec : DB_decoder_t) (k : Nat)
    (hdec : find_decoder env it = some dec) (ho : dec.has_open = true)
    (hok : dec.open_ok = true) (hinit : dec.init it = 0) (hdur : 0 < it.duration)
    (hm1 : env.malloc_data = true) (hm2 : env.malloc_buffer = true)
    (hbl : buffer_len env it (dec.fmt it) ≠ 0)
    (hfull : ∀ j, j < k →
      (dec.read it j (buffer_len env it (dec.fmt it))).sz = buffer_len env it (dec.fmt it))
    (hshort :
      (dec.read it k (buffer_len env it (dec.fmt it))).sz ≠ buffer_len env it (dec.fmt it))
    (hfuel : k < fuel) (hzero : update_after_nsamples env it = 0) :
    ∃ r, waveform_generate_wavedata env fuel W it uri wavedata = some r ∧
      read_events r.1.log = read_events W.log ++ List.range (k + 1) ∧
      r.1.polls = W.polls + 1 ∧
      (chunk_step env it (dec.fmt it) (samplesize (dec.fmt it))
        (buffer_len env it (dec.fmt it)) (update_after_nsamples env it)
        (dec.read it 0 (buffer_len env it (dec.fmt it)))
        (after_read (loop_entry env it (dec.fmt it)
          (reset_shared env (dec.fmt it) (W.emit (Event.generate it.addr)))
          { wavedata with data_len := 0, channels := 0 }))).W.polls = W.polls + 1 := by
  obtain ⟨s, hs, hgen⟩ := generate_run env fuel W it uri wavedata dec k hdec ho hok hinit hdur
    hm1 hm2 hbl hfull hshort hfuel
  obtain ⟨r, hr, hreads⟩ := generate_reads env fuel W it uri wavedata dec k hdec ho hok hinit
    hdur hm1 hm2 hbl hfull hshort hfuel
  have hrs := Option.some.inj (hr.symm.trans hgen)
  obtain ⟨l1, l2⟩ := loop_threshold_zero env it dec (dec.fmt it) (samplesize (dec.fmt it))
    (buffer_len env it (dec.fmt it)) k
    (loop_entry env it (dec.fmt it)
      (reset_shared env (dec.fmt it) (W.emit (Event.generate it.addr)))
      { wavedata with data_len := 0, channels := 0 }) rfl
  have e0 : (loop_entry env it (dec.fmt it)
      (reset_shared env (dec.fmt it) (W.emit (Event.generate it.addr)))
      { wavedata with data_len := 0, channels := 0 }).reads + k = k := Nat.zero_add k
  rw [e0] at l1
  rw [hzero] at hs ⊢
  refine ⟨r, hr, hreads, ?_, l2⟩
  rw [hrs]
  show s.W.polls = _
  rw [hs]
  exact l1

theorem threshold_17h : update_after_nsamples host_17h track_17h = 0 := by
  have h1 : (⌊(61470 : ℚ)⌋ : Int) = 61470 := by
    rw [Int.floor_eq_iff]; norm_num
  have h2 : MAX 1 (((61470 : Int) : ℚ) / 30) = 2049 := by
    unfold MAX
    norm_num
  have h3 : trunc (2049 : ℚ) = 2049 := by
    unfold trunc
    rw [if_pos (by norm_num), Int.floor_eq_iff]
    norm_num
  have h4 : trunc (((2048 : Int) : ℚ) / ((2049 : Int) : ℚ)) = 0 := by
    unfold trunc
    rw [if_pos (by norm_num), Int.floor_eq_iff]
    norm_num
  simp only [update_after_nsamples, num_updates, host_17h, track_17h, host, track, h1, h2, h3, h4]

theorem buffer_len_17h : buffer_len host_17h track_17h ⟨16, 1, 8000⟩ = 480236 := by
  have h1 : (⌊(61470 : ℚ) * ((8000 : Int) : ℚ)⌋ : Int) = 491760000 := by
    rw [Int.floor_eq_iff]; norm_num
  have h2 : (⌈((491760000 : Int) : ℚ) / ((2048 : Int) : ℚ)⌉ : Int) = 240118 := by
    rw [Int.ceil_eq_iff]; norm_num
  simp only [buffer_len, samples_per_buf, nsamples_per_channel, samplesize, bytes_per_sample,
    host_17h, track_17h, host, track, h1, h2]
  decide

/-- C22, counter-example: for the 17-hour track the threshold computes to 0; the
decoder delivers one full chunk and a short one, so the loop body runs twice
(reads 0 and 1), yet the playing track is queried once only: the comparison
succeeds in the first pass and fails in the second. -/
theorem threshold_zero_second_chunk :
    update_after_nsamples host_17h track_17h = 0 ∧
    (init_world []).polls = 0 ∧
    ∃ r, waveform_generate_wavedata host_17h 4096 (init_world []) track_17h ['/', 'a']
        fresh_wavedata = some r ∧
      read_events r.1.log = [0, 1] ∧ r.1.polls = 1 := by
  refine ⟨threshold_17h, rfl, ?_⟩
  have hbl : buffer_len host_17h track_17h
      ((const_decoder ['d'] ⟨16, 1, 8000⟩ 240123 1).fmt track_17h) = 480236 := buffer_len_17h
  obtain ⟨r, h1, h2, h3, _⟩ := generate_threshold_zero host_17h 4096 (init_world []) track_17h
    ['/', 'a'] fresh_wavedata (const_decoder ['d'] ⟨16, 1, 8000⟩ 240123 1) 1 rfl rfl rfl rfl
    (by decide) rfl rfl (by rw [hbl]; decide)
    (by
      intro j hj
      have : j = 0 := by omega
      subst this
      rw [hbl, const_decoder_sz]
      decide)
    (by rw [hbl, const_decoder_sz]; decide)
    (by decide) threshold_17h
  exact ⟨r, h1, h2, h3⟩

/-- C22, amended: when the threshold `update_after_nsamples` computes to 0 and
the loop body runs `k + 1` times (reads 0 to `k`), the summarizer attempts a
partial publish after the first decoded chunk only: the playing track is queried
once in the whole run, and that query is made in the first pass through the
loop. -/
theorem threshold_zero_publishes_once (env : Env) (fuel : Nat) (W : World)
    (it : DB_playItem_t) (uri : CStr) (wavedata : wavedata_t) (dec : DB_decoder_t) (k : Nat)
    (hdec : find_decoder env it = some dec) (ho : dec.has_open = true)
    (hok : dec.open_ok = true) (hinit : dec.init it = 0) (hdur : 0 < it.duration)
    (hm1 : env.malloc_data = true) (hm2 : env.malloc_buffer = true)
    (hbl : buffer_len env it (dec.fmt it) ≠ 0)
    (hfull : ∀ j, j < k →
      (dec.read it j (buffer_len env it (dec.fmt it))).sz = buffer_len env it (dec.fmt it))
    (hshort :
      (dec.read it k (buffer_len env it (dec.fmt it))).sz ≠ buffer_len env it (dec.fmt it))
    (hfuel : k < fuel) (hzero : update_after_nsamples env it = 0) :
    ∃ r, waveform_generate_wavedata env fuel W it uri wavedata = some r ∧
      read_events r.1.log = read_events W.log ++ List.range (k + 1) ∧
      r.1.polls = W.polls + 1 ∧
      (chunk_step env it (dec.fmt it) (samplesize (dec.fmt it))
        (buffer_len env it (dec.fmt it)) (update_after_nsamples env it)
        (dec.read it 0 (buffer_len env it (dec.fmt it)))
        (after_read (loop_entry env it (dec.fmt it)
          (reset_shared env (dec.fmt it) (W.emit (Event.generate it.addr)))
          { wavedata with data_len := 0, channels := 0 }))).W.polls = W.polls + 1 :=
  generate_threshold_zero env fuel W it uri wavedata dec k hdec ho hok hinit hdur hm1 hm2 hbl
    hfull hshort hfuel hzero

/-- C22, amended, at a concrete input: the 17-hour track with a decoder that
delivers one full chunk and a short one. -/
theorem threshold_zero_publishes_once_witness :
    ∃ r, waveform_generate_wavedata host_17h 4096 (init_world []) track_17h ['/', 'a']
        fresh_wavedata = some r ∧
      read_events r.1.log = read_events (init_world []).log ++ List.range (1 + 1) ∧
      r.1.polls = (init_world []).polls + 1 := by
  have hbl : buffer_len host_17h track_17h
      ((const_decoder ['d'] ⟨16, 1, 8000⟩ 240123 1).fmt track_17h) = 480236 := buffer_len_17h
  obtain ⟨r, h1, h2, h3, _⟩ := threshold_zero_publishes_once host_17h 4096 (init_world [])
    track_17h ['/', 'a'] fresh_wavedata (const_decoder ['d'] ⟨16, 1, 8000⟩ 240123 1) 1 rfl rfl
    rfl rfl (by decide) rfl rfl (by rw [hbl]; decide)
    (by
      intro j hj
      have : j = 0 := by omega
      subst this
      rw [hbl, const_decoder_sz]
      decide)
    (by rw [hbl, const_decoder_sz]; decide)
    (by decide) threshold_17h
  exact ⟨r, h1, h2, h3⟩

/-! ## Aborted runs and the cache (C24) -/

/-- Whenever the summarizer ends without completing the decode loop (no matching
decoder, no `open`, a failed `open` or `init`, a non-positive duration, or a
failed allocation), it returns with the file name of the summary as it was
handed in. -/
theorem generate_aborted (env : Env) (fuel : Nat) (W : World) (it : DB_playItem_t)
    (uri : CStr) (wavedata : wavedata_t)
    (h : (find_decoder env it = none ∨
        (∃ dec, find_decoder env it = some dec ∧
          (dec.has_open = false ∨ dec.open_ok = false ∨ dec.init it ≠ 0)) ∨
        it.duration ≤ 0) ∨
      env.malloc_data = false ∨ env.malloc_buffer = false) :
    ∃ r, waveform_generate_wavedata env fuel W it uri wavedata = some r ∧
      r.2.fname = wavedata.fname ∧ r.2.data_len = 0 ∧ r.2.channels = 0 ∧
      read_events r.1.log = read_events W.log := by
  have hlog : read_events (W.log ++ [Event.generate it.addr]) = read_events W.log := by
    rw [read_events_append]
    simp [read_events]
  rcases generate_cases env fuel W it uri wavedata with ⟨_, h1⟩ | ⟨dec, _, _, _, _, _, _, h1⟩ |
    ⟨dec, hd, ho, hok, hi, hdur, hm1, hm2, _⟩
  · exact ⟨_, h1, rfl, rfl, rfl, hlog⟩
  · exact ⟨_, h1, rfl, rfl, rfl, hlog⟩
  · exfalso
    rcases h with (h | ⟨d, hd2, h⟩ | h) | h | h
    · rw [h] at hd; exact Option.noConfusion hd
    · rw [hd] at hd2
      have := Option.some.inj hd2
      subst this
      rcases h with h | h | h
      · rw [ho] at h; exact Bool.noConfusion h
      · rw [hok] at h; exact Bool.noConfusion h
      · exact h hi
    · exact absurd hdur (not_lt.mpr h)
    · rw [hm1] at h; exact Bool.noConfusion h
    · rw [hm2] at h; exact Bool.noConfusion h

/-- C24: when the summarizer run for the admitted playing track (valid, not
served from the cache) ends without completing the decode loop (no matching
decoder, decoder `open` or `init` failure, non-positive duration, or allocation
failure), the summary it returns has no file name, `waveform_format_uri` yields
no key for it, the `waveform_db_cache` call that follows writes nothing, and the
worker returns with no cache write in its trace and the cache as it was. This
holds with caching enabled (and also with caching disabled, where
`waveform_db_cache` is not called). -/
theorem aborted_run_writes_no_entry (env : Env) (fuel : Nat) (W : World)
    (it : DB_playItem_t) (uri : CStr) (hp : env.playing W.polls = some it) (hu : it.uri = some uri)
    (hv : waveform_valid_track env it uri ≠ 0)
    (hmiss : env.conf.CONFIG_CACHE_ENABLED = 0 ∨
      (waveform_is_cached W (some it) (some uri)).1 = 0)
    (hq : uri ∉ W.queue)
    (h : (find_decoder env it = none ∨
        (∃ dec, find_decoder env it = some dec ∧
          (dec.has_open = false ∨ dec.open_ok = false ∨ dec.init it ≠ 0)) ∨
        it.duration ≤ 0) ∨
      env.malloc_data = false ∨ env.malloc_buffer = false) :
    ∃ r W', waveform_generate_wavedata env fuel (admitted_world env W it uri) it uri
        { data := List.replicate (admitted_world env W it uri).max_buffer_len 0,
          data_len := 0, channels := 0, fname := none } = some r ∧
      r.2.fname = none ∧
      waveform_format_uri (some it) r.2.fname = none ∧
      waveform_db_cache r.1 it r.2 = r.1 ∧
      waveform_get_wavedata env fuel W = some W' ∧
      write_events W'.log = write_events W.log ∧
      W'.cache = W.cache := by
  obtain ⟨r0, hr0, hf0, _⟩ := generate_aborted env fuel (admitted_world env W it uri) it uri
    { data := List.replicate (admitted_world env W it uri).max_buffer_len 0,
      data_len := 0, channels := 0, fname := none } h
  obtain ⟨r, hr, hget, _, _, pre, evs, cw, fin, hlog, hpre, hevs, hfin, hcw⟩ :=
    worker_admitted_trace env fuel W it uri hp hu hv hmiss hq
      (by
        intro d hd ho hok hi hdur hm1 hm2
        exfalso
        rcases h with (h | ⟨d2, hd2, h⟩ | h) | h | h
        · rw [h] at hd; exact Option.noConfusion hd
        · rw [hd] at hd2
          have := Option.some.inj hd2
          subst this
          rcases h with h | h | h
          · rw [ho] at h; exact Bool.noConfusion h
          · rw [hok] at h; exact Bool.noConfusion h
          · exact h hi
        · exact absurd hdur (not_lt.mpr h)
        · rw [hm1] at h; exact Bool.noConfusion h
        · rw [hm2] at h; exact Bool.noConfusion h)
  have hrs := Option.some.inj (hr0.symm.trans hr)
  subst hrs
  have hfn : r0.2.fname = none := hf0
  have hkey : waveform_format_uri (some it) r0.2.fname = none := by rw [hfn]; rfl
  have hdb : waveform_db_cache r0.1 it r0.2 = r0.1 := by
    unfold waveform_db_cache
    rw [hkey]
  have e4 := loop_events_no_write evs hevs
  refine ⟨r0, _, hr0, hfn, hkey, hdb, hget, ?_, ?_⟩
  · rcases hcw with ⟨hc, _, _⟩ | ⟨key, _, hk, _⟩
    · rw [hlog]
      have : write_events (W.log ++ pre ++ Event.queue_add uri true ::
          Event.generate it.addr :: (evs ++ cw ++ Event.queue_pop uri :: fin)) =
          write_events W.log ++ write_events pre ++
            (write_events evs ++ write_events cw ++ write_events fin) := by
        simp [write_events, List.filterMap_append]
      rw [this, e4, hc]
      rcases hpre with h5 | ⟨k5, h5⟩ <;> rcases hfin with h6 | h6 <;> rw [h5, h6] <;>
        simp [write_events]
    · rw [hkey] at hk; exact Option.noConfusion hk
  · rcases hcw with ⟨_, hc, _⟩ | ⟨key, _, hk, _⟩
    · exact hc
    · rw [hkey] at hk; exact Option.noConfusion hk

/-- C24 at a concrete input: both allocations fail for the playing track, on a
state whose cache holds an entry under another key. -/
theorem aborted_run_writes_no_entry_witness :
    host_no_memory.conf.CONFIG_CACHE_ENABLED ≠ 0 ∧
    ∃ W', waveform_get_wavedata host_no_memory 4096
        (init_world [(['/', 'b'], { channels := 1, data := [1, 2, 3] })]) = some W' ∧
      write_events W'.log = [] ∧
      W'.cache = [(['/', 'b'], { channels := 1, data := [1, 2, 3] })] := by
  obtain ⟨r, W', _, _, _, _, h5, h6, h7⟩ := aborted_run_writes_no_entry host_no_memory 4096
    (init_world [(['/', 'b'], { channels := 1, data := [1, 2, 3] })]) track_8k ['/', 'a']
    rfl rfl
    (by simp [waveform_valid_track, host_no_memory, host_8k, host, track_8k, track])
    (Or.inr rfl) (by simp [init_world]) (Or.inr (Or.inl rfl))
  exact ⟨by decide, W', h5, h6, h7⟩

/-! ## The contents of the shared buffer after a partial publish (C25) -/

theorem memcpy_get_lt (dst src : List Int) (n i : Nat) (hn : n ≤ src.length) (hi : i < n) :
    (memcpy dst src n)[i]? = src[i]? := by
  unfold memcpy
  rw [List.getElem?_append_left (by rw [List.length_take]; omega), List.getElem?_take_of_lt hi]

theorem memcpy_get_ge (dst src : List Int) (n i : Nat) (hn : n ≤ src.length) (hi : n ≤ i) :
    (memcpy dst src n)[i]? = dst[i]? := by
  unfold memcpy
  have hl : (src.take n).length = n := by rw [List.length_take]; omega
  rw [List.getElem?_append_right (by rw [hl]; exact hi), hl, List.getElem?_drop]
  congr 1
  omega

theorem memset_zero_get_lt (dst : List Int) (n i : Nat) (hi : i < n) :
    (memset_zero dst n)[i]? = some 0 := by
  unfold memset_zero
  rw [List.getElem?_append_left (by rw [List.length_replicate]; exact hi)]
  simp [hi]

/-- The publish block when the counter comparison succeeds and the query finds
the summarized track playing: the shared buffer gets the channel count of the
format and the full configured length, its first `counter` cells are those of
the summary, and the cells from `counter` up to the capacity are zero. -/
theorem publish_step_contents (env : Env) (it : DB_playItem_t) (fmt : ddb_waveformat_t)
    (u : Int) (s : LoopState) (p : DB_playItem_t) (hu : s.update_counter = u)
    (hp : env.playing s.W.polls = some p) (ha : p.addr = it.addr)
    (hc : s.counter ≤ s.out.length) :
    (publish_step env it fmt u s).W.wave.channels = fmt.channels ∧
    (publish_step env it fmt u s).W.wave.data_len =
      fmt.channels * 3 * env.conf.CONFIG_NUM_SAMPLES ∧
    (∀ i, i < s.counter → (publish_step env it fmt u s).W.wave.data[i]? = s.out[i]?) ∧
    (∀ i, s.counter ≤ i → i < s.W.max_buffer_len →
      (publish_step env it fmt u s).W.wave.data[i]? = some 0) ∧
    (publish_step env it fmt u s).W.log = s.W.log ++ [Event.redraw] := by
  have e : (publish_step env it fmt u s).W =
      ({ (streamer_get_playing_track env s.W).2 with
          wave := { s.W.wave with
            channels := fmt.channels
            data_len := fmt.channels * VALUES_PER_SAMPLE * env.conf.CONFIG_NUM_SAMPLES
            data := memcpy (memset_zero s.W.wave.data s.W.max_buffer_len) s.out
              s.counter } }).emit Event.redraw := by
    simp [publish_step, hu, hp, ha, streamer_get_playing_track]
  rw [e]
  refine ⟨rfl, rfl, ?_, ?_, rfl⟩
  · intro i hi
    exact memcpy_get_lt _ _ _ _ hc hi
  · intro i hi hcap
    show (memcpy (memset_zero s.W.wave.data s.W.max_buffer_len) s.out s.counter)[i]? = some 0
    rw [memcpy_get_ge _ _ _ _ hc hi]
    exact memset_zero_get_lt _ _ _ hcap

/-- C25: in a pass through the loop body in which the partial publish happens
(the counter comparison succeeds and the query finds the summarized track
playing), with the cells of the chunk fitting the summary array: right after the
pass the shared buffer has the channel count of the decoded format, its
`data_len` is `channels * 3 * CONFIG_NUM_SAMPLES`, its first `counter` cells are
the first `counter` cells of the worker's summary, and every cell from `counter`
up to the capacity `max_buffer_len` is zero. -/
theorem published_buffer_contents (env : Env) (it : DB_playItem_t) (fmt : ddb_waveformat_t)
    (ss bl u : Int) (r : ReadResult) (s : LoopState) (p : DB_playItem_t)
    (hu : s.update_counter = u) (hp : env.playing s.W.polls = some p)
    (ha : p.addr = it.addr) (hc : s.counter + 3 * fmt.channels.toNat ≤ s.out.length) :
    (chunk_step env it fmt ss bl u r s).W.wave.channels = fmt.channels ∧
    (chunk_step env it fmt ss bl u r s).W.wave.data_len =
      fmt.channels * 3 * env.conf.CONFIG_NUM_SAMPLES ∧
    (∀ i, i < (chunk_step env it fmt ss bl u r s).counter →
      (chunk_step env it fmt ss bl u r s).W.wave.data[i]? =
        (chunk_step env it fmt ss bl u r s).out[i]?) ∧
    (∀ i, (chunk_step env it fmt ss bl u r s).counter ≤ i → i < s.W.max_buffer_len →
      (chunk_step env it fmt ss bl u r s).W.wave.data[i]? = some 0) := by
  have hcnt := chunk_step_counter env it fmt ss bl u r s
  have hout := chunk_step_out env it fmt ss bl u r s
  have hwc : (write_triplets env (pcm_convert s.data r.pcm) fmt.channels bl r.sz ss s.out
      s.counter).2 = s.counter + 3 * fmt.channels.toNat := write_triplets_snd _ _ _ _ _ _ _ _
  have hwl : (write_triplets env (pcm_convert s.data r.pcm) fmt.channels bl r.sz ss s.out
      s.counter).1.length = s.out.length := write_triplets_length _ _ _ _ _ _ _ _
  obtain ⟨h1, h2, h3, h4, _⟩ := publish_step_contents env it fmt u
    { s with
      data := pcm_convert s.data r.pcm
      out := (write_triplets env (pcm_convert s.data r.pcm) fmt.channels bl r.sz ss s.out
        s.counter).1
      counter := (write_triplets env (pcm_convert s.data r.pcm) fmt.channels bl r.sz ss s.out
        s.counter).2 } p hu hp ha
    (by
      show (write_triplets env (pcm_convert s.data r.pcm) fmt.channels bl r.sz ss s.out
        s.counter).2 ≤ (write_triplets env (pcm_convert s.data r.pcm) fmt.channels bl r.sz ss
          s.out s.counter).1.length
      rw [hwc, hwl]
      exact hc)
  rw [hcnt, hout]
  refine ⟨h1, h2, ?_, ?_⟩
  · intro i hi
    exact h3 i (by rw [hwc]; exact hi)
  · intro i hi hcap
    exact h4 i (by rw [hwc]; exact hi) hcap

/-- C25 at a concrete pass: the first chunk of two stereo frames with the
threshold 0, the summarized track playing. -/
theorem published_buffer_contents_witness :
    (chunk_step host_8k track_8k ⟨16, 2, 44100⟩ (samplesize ⟨16, 2, 44100⟩) 8 0
      two_frames_read small_state).W.wave.channels = 2 ∧
    (chunk_step host_8k track_8k ⟨16, 2, 44100⟩ (samplesize ⟨16, 2, 44100⟩) 8 0
      two_frames_read small_state).W.wave.data_len = 2 * 3 * 2048 ∧
    (∀ i, i < (chunk_step host_8k track_8k ⟨16, 2, 44100⟩ (samplesize ⟨16, 2, 44100⟩) 8 0
        two_frames_read small_state).counter →
      (chunk_step host_8k track_8k ⟨16, 2, 44100⟩ (samplesize ⟨16, 2, 44100⟩) 8 0
        two_frames_read small_state).W.wave.data[i]? =
        (chunk_step host_8k track_8k ⟨16, 2, 44100⟩ (samplesize ⟨16, 2, 44100⟩) 8 0
          two_frames_read small_state).out[i]?) ∧
    (∀ i, (chunk_step host_8k track_8k ⟨16, 2, 44100⟩ (samplesize ⟨16, 2, 44100⟩) 8 0
        two_frames_read small_state).counter ≤ i → i < small_state.W.max_buffer_len →
      (chunk_step host_8k track_8k ⟨16, 2, 44100⟩ (samplesize ⟨16, 2, 44100⟩) 8 0
        two_frames_read small_state).W.wave.data[i]? = some 0) :=
  published_buffer_contents host_8k track_8k ⟨16, 2, 44100⟩ (samplesize ⟨16, 2, 44100⟩) 8 0
    two_frames_read small_state track_8k rfl rfl rfl (by decide)

/-! ## The summary stays within the capacity (C23) -/

end Waveform
